import Mathlib

/-!
# ext_scanner: scan controller, run detector and dome classifier

A shallow embedding of `ScannerAppView` from
`firmware/application/external/ext_scanner/external_app_scanner.cpp`
(declared in `ui_external_app_scanner.hpp`).

## Integer model

* `uint8_t` magnitudes are naturals below 256 (`Fin 256` inside a spectrum).
* `int32_t` values and `rf::Frequency` values (frequencies in Hz, a signed
  64-bit type) are integers (`Int`); C++ signed division is `Int.tdiv`
  (truncation towards zero).
* `size_t` and `uint32_t` values are naturals.  On the Cortex-M4 target both
  types are 32 bits wide.  Wrap-around is written out (`% 2 ^ 32`) at the one
  place where it occurs inside the operating range of the device: the product
  `current_chunk_in_range * SPECTRUM_SLICE_WIDTH` in `scan_next_chunk` passes
  `2 ^ 32` from chunk 215 on, that is for a range wider than 4.28 GHz, which
  fits inside the 0.9 GHz .. 6 GHz span of `load_default_ranges`.  The store
  of the signed chunk-count quotient into `total_chunks_in_range` wraps a
  negative quotient modulo `2 ^ 32` (`RangeEditorView::save_range` accepts a
  range whose end lies below its start).  The other unsigned quantities stay
  far below `2 ^ 32` (bin indices are below 256, widths are at most 100 MHz,
  a chunk count reaches `2 ^ 32` only for a range wider than `8.6 * 10 ^ 16`
  Hz) and are computed exactly.

## What is left out

Widget calls (`hidden`, `set_focusable`, `set_text`, `set_dirty`, `focus`) and
the display-only texts `text_widest`, `text_dome_signals`, `text_rssi`,
`text_current_range` and `text_current_freq` never feed back into the scanner
and are not part of the state; neither is `max_power_in_chunk`, which only
feeds `text_rssi`.  `text_status` is kept, as a value of `Status`.
Calls into the radio, baseband, receiver and audio layers are recorded, in
order, in the `commands` field.
-/

namespace ExtScanner

set_option maxRecDepth 100000

/-! ## Data model -/

/-- Width of one spectrum slice: `SPECTRUM_SLICE_WIDTH = 20000000` (20 MHz). -/
def SPECTRUM_SLICE_WIDTH : Nat := 20000000

/-- Number of FFT bins per chunk: `SPECTRUM_BINS = 256`. -/
def SPECTRUM_BINS : Nat := 256

/-- The constant `bin_width = SPECTRUM_SLICE_WIDTH / SPECTRUM_BINS` of
`process_spectrum_bins`, an `rf::Frequency`. -/
def bin_width : Int := ((SPECTRUM_SLICE_WIDTH / SPECTRUM_BINS : Nat) : Int)

/-- The struct `FrequencyRange`; the field `end` is spelled `end_`. -/
structure FrequencyRange where
  start : Int
  end_ : Int
  name : String
  enabled : Bool
deriving DecidableEq, Repr

/-- The struct `ChannelSpectrum`: `db` is a `std::array<uint8_t, 256>`. -/
structure ChannelSpectrum where
  db : Fin 256 → Fin 256

/-- The read `spectrum.db[i]` as a natural number.  The code only reads
indices below 256; the value given to any other index is never used. -/
def ChannelSpectrum.bin (spectrum : ChannelSpectrum) (i : Nat) : Nat :=
  if h : i < 256 then (spectrum.db ⟨i, h⟩).val else 0

/-- The spectrum whose first bins are the listed magnitudes (each taken as a
`uint8_t`) and whose remaining bins are 0. -/
def ChannelSpectrum.ofList (l : List Nat) : ChannelSpectrum :=
  ⟨fun i => Fin.ofNat (l.getD i.val 0)⟩

/-! ## DomeClassifier -/

/-- The method `ScannerAppView::analyze_fm_dome_shape`. -/
def analyze_fm_dome_shape (spectrum : ChannelSpectrum) (start_bin end_bin : Nat) : Bool :=
  if end_bin ≤ start_bin ∨ end_bin - start_bin < 10 then
    false
  else
    let center_bin := (start_bin + end_bin) / 2
    let quarter_point := start_bin + (end_bin - start_bin) / 4
    let three_quarter := start_bin + 3 * (end_bin - start_bin) / 4
    let left_edge := spectrum.bin start_bin
    let left_quarter := spectrum.bin quarter_point
    let center := spectrum.bin center_bin
    let right_quarter := spectrum.bin three_quarter
    let right_edge := spectrum.bin end_bin
    let avg_edge := (left_edge + right_edge) / 2
    let peak_is_elevated := decide (center > avg_edge + 10)
    let left_slope_smooth := decide (left_quarter > left_edge) && decide (left_quarter < center)
    let right_slope_smooth := decide (right_quarter > right_edge) && decide (right_quarter < center)
    let left_slope : Int := (left_quarter : Int) - (left_edge : Int)
    let right_slope : Int := (right_quarter : Int) - (right_edge : Int)
    let roughly_symmetric := decide ((left_slope - right_slope).natAbs < 30)
    peak_is_elevated && left_slope_smooth && right_slope_smooth && roughly_symmetric

/-- The four acceptance conditions of the dome classifier as the specification
words them, on the five samples `le`, `lq`, `c`, `rq`, `re` of the run
`[start_bin, end_bin]`. -/
def DomeConditions (spectrum : ChannelSpectrum) (start_bin end_bin : Nat) : Prop :=
  let le := spectrum.bin start_bin
  let lq := spectrum.bin (start_bin + (end_bin - start_bin) / 4)
  let c := spectrum.bin ((start_bin + end_bin) / 2)
  let rq := spectrum.bin (start_bin + 3 * (end_bin - start_bin) / 4)
  let re := spectrum.bin end_bin
  c > (le + re) / 2 + 10 ∧ (le < lq ∧ lq < c) ∧ (re < rq ∧ rq < c) ∧
    |((lq : Int) - (le : Int)) - ((rq : Int) - (re : Int))| < 30

/-- A ten-bin dome: the samples at bins 0, 2, 4, 6, 9 are 50, 100, 200, 100, 50. -/
def ten_bin_dome : ChannelSpectrum :=
  ChannelSpectrum.ofList [50, 80, 100, 150, 200, 150, 100, 80, 60, 50]

/-- An eleven-bin dome: the samples at bins 0, 2, 5, 7, 10 are 50, 100, 200, 100, 50. -/
def eleven_bin_dome : ChannelSpectrum :=
  ChannelSpectrum.ofList [50, 80, 100, 130, 170, 200, 170, 100, 80, 60, 50]

/-! ## Scanner state -/

/-- The text shown in `text_status`, one constructor per message the code sets. -/
inductive Status where
  /-- The initial text "Status: Idle". -/
  | idle
  /-- "ERROR: No ranges". -/
  | error_no_ranges
  /-- "ERROR: No enabled". -/
  | error_no_enabled
  /-- "Status: Scanning". -/
  | scanning
  /-- "Status: Paused". -/
  | paused
  /-- "Status: Stopped". -/
  | stopped
  /-- "*** FPV DRONE n ***" with `n` printed by `to_string_dec_uint`. -/
  | fpv_drone (n : Nat)
  /-- "Status: Cycle n (clear)" with `n` printed by `to_string_dec_uint`. -/
  | cycle_clear (n : Nat)
  /-- "Status: THREAT DETECTED!". -/
  | threat_detected
  /-- "Signal: f w MHz r dBm": frequency, width in MHz, power in dBm. -/
  | signal (freq : Int) (width_mhz : Int) (rssi : Int)
deriving DecidableEq, Repr

/-- A call into the radio, baseband, receiver or audio layer. -/
inductive Command where
  /-- `radio::set_tuning_frequency(hz)`, issued by `tune_to_chunk_center`. -/
  | set_tuning_frequency (hz : Int)
  /-- `baseband::spectrum_streaming_start()`. -/
  | spectrum_streaming_start
  /-- `baseband::spectrum_streaming_stop()`. -/
  | spectrum_streaming_stop
  /-- `baseband::request_audio_beep(frequency, sample_rate, duration_ms)`. -/
  | request_audio_beep (frequency sample_rate duration_ms : Nat)
  /-- `receiver_model.set_sampling_rate(rate)`. -/
  | set_sampling_rate (rate : Nat)
  /-- `receiver_model.set_baseband_bandwidth(bandwidth)`. -/
  | set_baseband_bandwidth (bandwidth : Nat)
  /-- `receiver_model.enable()`. -/
  | receiver_enable
  /-- `receiver_model.disable()`. -/
  | receiver_disable
  /-- `audio::set_rate(audio::Rate::Hz_24000)`. -/
  | audio_set_rate_24000
  /-- `audio::output::start()`. -/
  | audio_output_start
  /-- `baseband::set_spectrum(sampling_rate, trigger)`. -/
  | set_spectrum (sampling_rate trigger : Nat)
deriving DecidableEq, Repr

/-- The data members of `ScannerAppView` that the scanner reads or writes,
together with the trace `commands` of the device calls made so far. -/
structure ScannerAppView where
  scan_ranges : List FrequencyRange
  current_range_index : Nat
  squelch_threshold : Int
  min_signal_width_mhz : Nat
  max_signal_width_mhz : Nat
  is_scanning : Bool
  is_paused : Bool
  in_scan_cycle : Bool
  best_freq_in_cycle : Int
  best_rssi_in_cycle : Int
  start_range_index : Nat
  current_chunk_center : Int
  current_chunk_in_range : Nat
  total_chunks_in_range : Nat
  widest_signal_width : Int
  widest_signal_freq : Int
  widest_signal_rssi : Int
  dome_signals_count : Nat
  threat_detected : Bool
  signal_at_chunk_end : Bool
  chunk_end_signal_start_bin : Nat
  chunk_end_peak_power : Nat
  pending_signal_freq : Int
  text_status : Status
  commands : List Command
deriving DecidableEq, Repr

/-- The state of a freshly constructed view (the default member initialisers
of the class) holding the given ranges. -/
def ScannerAppView.fresh (ranges : List FrequencyRange) : ScannerAppView where
  scan_ranges := ranges
  current_range_index := 0
  squelch_threshold := -100
  min_signal_width_mhz := 4
  max_signal_width_mhz := 8
  is_scanning := false
  is_paused := false
  in_scan_cycle := true
  best_freq_in_cycle := 0
  best_rssi_in_cycle := -999
  start_range_index := 0
  current_chunk_center := 0
  current_chunk_in_range := 0
  total_chunks_in_range := 0
  widest_signal_width := 0
  widest_signal_freq := 0
  widest_signal_rssi := -999
  dome_signals_count := 0
  threat_detected := false
  signal_at_chunk_end := false
  chunk_end_signal_start_bin := 0
  chunk_end_peak_power := 0
  pending_signal_freq := 0
  text_status := Status.idle
  commands := []

/-- The ranges pushed by `load_default_ranges`. -/
def default_ranges : List FrequencyRange :=
  [⟨900000000, 1900000000, "900-1900MHz", true⟩,
   ⟨2900000000, 4000000000, "2.9-4.0GHz", true⟩,
   ⟨4900000000, 6000000000, "4.9-6.0GHz", true⟩]

/-! ## ThresholdConverter -/

/-- The constant `NOISE_FLOOR_DBM` of `process_spectrum_bins`. -/
def NOISE_FLOOR_DBM : Int := -120

/-- The constant `MAX_SIGNAL_DBM` of `process_spectrum_bins`. -/
def MAX_SIGNAL_DBM : Int := 0

/-- The constant `RAW_MIN` of `process_spectrum_bins`. -/
def RAW_MIN : Int := 0

/-- The constant `RAW_MAX` of `process_spectrum_bins`. -/
def RAW_MAX : Int := 255

/-- The local `threshold_raw` of `process_spectrum_bins` as a function of
`squelch_threshold`: the linear map followed by the two clamping tests. -/
def threshold_raw (squelch_threshold : Int) : Int :=
  let dbm_range := MAX_SIGNAL_DBM - NOISE_FLOOR_DBM
  let t := ((squelch_threshold - NOISE_FLOOR_DBM) * RAW_MAX).tdiv dbm_range
  let t := if t < RAW_MIN then RAW_MIN else t
  if t > RAW_MAX then RAW_MAX else t

/-- The conversion of a raw magnitude back to dBm used for `power_dbm`:
`NOISE_FLOOR_DBM + raw * (MAX_SIGNAL_DBM - NOISE_FLOOR_DBM) / RAW_MAX`. -/
def raw_to_dbm (raw : Nat) : Int :=
  NOISE_FLOOR_DBM + ((raw : Int) * (MAX_SIGNAL_DBM - NOISE_FLOOR_DBM)).tdiv RAW_MAX

/-! ## RunDetector -/

/-- A run at the moment the bin loop of `process_spectrum_bins` closes it
(the branch "End of signal - analyze it"): the values of `signal_start_bin`,
`signal_end_bin`, `signal_peak_bin`, `signal_peak_power`, `signal_width`,
`signal_freq` and `power_dbm` there. -/
structure DetectedRun where
  start_bin : Nat
  end_bin : Nat
  peak_bin : Nat
  peak_power : Nat
  signal_width : Int
  signal_freq : Int
  power_dbm : Int
deriving DecidableEq, Repr

/-- The variables of the bin loop of `process_spectrum_bins`: the view, the
locals that track the open run, and the list `closed` of the runs closed so
far, in the order in which the loop closed them. -/
structure BinScan where
  view : ScannerAppView
  signal_start_bin : Nat
  signal_end_bin : Nat
  in_signal : Bool
  signal_peak_power : Nat
  signal_peak_bin : Nat
  closed : List DetectedRun
deriving DecidableEq, Repr

/-- The method `play_alert_tone`: a 1000 Hz beep of 200 ms. -/
def play_alert_tone (s : ScannerAppView) : ScannerAppView :=
  { s with commands := s.commands ++ [Command.request_audio_beep 1000 24000 200] }

/-- The method `on_signal_found`. -/
def on_signal_found (s : ScannerAppView) (freq : Int) (rssi : Int)
    (width : Int) : ScannerAppView :=
  let s := play_alert_tone s
  { s with text_status := Status.signal freq (width.tdiv 1000000) rssi }

/-- The value of `signal_width` when the loop closes the open run: the bins
of this chunk, plus the estimated part in the previous chunk when the run
starts at bin 0. -/
def closing_width (st : BinScan) : Int :=
  let signal_width := ((st.signal_end_bin - st.signal_start_bin + 1 : Nat) : Int) * bin_width
  if st.signal_start_bin = 0 then
    signal_width + ((SPECTRUM_BINS - st.view.chunk_end_signal_start_bin : Nat) : Int) * bin_width
  else
    signal_width

/-- The value of `signal_freq` when the loop closes the open run. -/
def closing_freq (st : BinScan) : Int :=
  st.view.current_chunk_center - ((SPECTRUM_SLICE_WIDTH / 2 : Nat) : Int)
    + (st.signal_peak_bin : Int) * bin_width

/-- The run the loop is closing, as a `DetectedRun`. -/
def closing_run (st : BinScan) : DetectedRun where
  start_bin := st.signal_start_bin
  end_bin := st.signal_end_bin
  peak_bin := st.signal_peak_bin
  peak_power := st.signal_peak_power
  signal_width := closing_width st
  signal_freq := closing_freq st
  power_dbm := raw_to_dbm st.signal_peak_power

/-- The branch "End of signal - analyze it" of the bin loop: the width test,
the widest-signal record, the dome test with its alert, and `in_signal = false`. -/
def end_of_signal (spectrum : ChannelSpectrum) (st : BinScan) : BinScan :=
  let signal_width := closing_width st
  let signal_freq := closing_freq st
  let min_width : Int := ((st.view.min_signal_width_mhz * 1000000 : Nat) : Int)
  let max_width : Int := ((st.view.max_signal_width_mhz * 1000000 : Nat) : Int)
  let power_dbm := raw_to_dbm st.signal_peak_power
  let view :=
    if signal_width ≥ min_width ∧ signal_width ≤ max_width then
      let has_video_dome := analyze_fm_dome_shape spectrum st.signal_start_bin st.signal_end_bin
      let v := st.view
      let v :=
        if signal_width > v.widest_signal_width then
          { v with widest_signal_width := signal_width
                   widest_signal_freq := signal_freq
                   widest_signal_rssi := power_dbm }
        else v
      if has_video_dome then
        let v := { v with dome_signals_count := v.dome_signals_count + 1
                          threat_detected := true
                          text_status := Status.threat_detected }
        on_signal_found v signal_freq power_dbm signal_width
      else v
    else st.view
  { st with view := view, closed := st.closed ++ [closing_run st], in_signal := false }

/-- One iteration of the bin loop `for (bin = 0; bin < SPECTRUM_BINS; bin++)`
against the raw threshold `threshold`. -/
def scan_bin (spectrum : ChannelSpectrum) (threshold : Int) (st : BinScan) (bin : Nat) :
    BinScan :=
  let power_raw := spectrum.bin bin
  if (power_raw : Int) > threshold then
    let st :=
      if st.in_signal = false then
        { st with in_signal := true
                  signal_start_bin := bin
                  signal_peak_power := power_raw
                  signal_peak_bin := bin }
      else if power_raw > st.signal_peak_power then
        { st with signal_peak_power := power_raw, signal_peak_bin := bin }
      else st
    { st with signal_end_bin := bin }
  else if st.in_signal then
    end_of_signal spectrum st
  else st

/-- The probe of the first 10 bins: whether a run pending from the previous
chunk continues in this one. -/
def continues (spectrum : ChannelSpectrum) (threshold : Int) : Bool :=
  (List.range 10).any fun bin => decide ((spectrum.bin bin : Int) > threshold)

/-- The loop variables before the first bin: the locals as initialised, then
the block `if (signal_at_chunk_end)` with the probe of the first bins. -/
def scan_begin (s : ScannerAppView) (spectrum : ChannelSpectrum) (threshold : Int) : BinScan :=
  let st : BinScan :=
    { view := s, signal_start_bin := 0, signal_end_bin := 0, in_signal := false,
      signal_peak_power := 0, signal_peak_bin := 0, closed := [] }
  if s.signal_at_chunk_end then
    let st :=
      if continues spectrum threshold then
        { st with in_signal := true
                  signal_start_bin := 0
                  signal_peak_power := s.chunk_end_peak_power
                  signal_peak_bin := 0 }
      else st
    { st with view := { st.view with signal_at_chunk_end := false } }
  else st

/-- The loop variables after the first `n` bins. -/
def scan_upto (s : ScannerAppView) (spectrum : ChannelSpectrum) (threshold : Int) (n : Nat) :
    BinScan :=
  (List.range n).foldl (scan_bin spectrum threshold) (scan_begin s spectrum threshold)

/-- The block "Handle signal that extends to end of chunk" after the loop. -/
def scan_end (st : BinScan) : ScannerAppView :=
  let v := st.view
  if st.in_signal then
    let v := { v with signal_at_chunk_end := true
                      chunk_end_signal_start_bin := st.signal_start_bin
                      chunk_end_peak_power := st.signal_peak_power
                      pending_signal_freq := closing_freq st }
    let width_so_far := ((st.signal_end_bin - st.signal_start_bin + 1 : Nat) : Int) * bin_width
    if st.signal_start_bin = 0 then
      let max_width : Int := ((v.max_signal_width_mhz * 1000000 : Nat) : Int)
      if width_so_far > max_width then { v with signal_at_chunk_end := false } else v
    else v
  else
    { v with signal_at_chunk_end := false }

/-- The body of `process_spectrum_bins` from the probe on, against a given
raw threshold. -/
def process_bins_with (s : ScannerAppView) (spectrum : ChannelSpectrum) (threshold : Int) :
    ScannerAppView :=
  scan_end (scan_upto s spectrum threshold SPECTRUM_BINS)

/-- The runs that `process_spectrum_bins` closes on a chunk, in the order in
which it closes them, against a given raw threshold. -/
def closed_runs_with (s : ScannerAppView) (spectrum : ChannelSpectrum) (threshold : Int) :
    List DetectedRun :=
  (scan_upto s spectrum threshold SPECTRUM_BINS).closed

/-- The method `ScannerAppView::process_spectrum_bins`. -/
def process_spectrum_bins (s : ScannerAppView) (spectrum : ChannelSpectrum) : ScannerAppView :=
  process_bins_with s spectrum (threshold_raw s.squelch_threshold)

/-- The runs closed by `process_spectrum_bins`. -/
def closed_runs (s : ScannerAppView) (spectrum : ChannelSpectrum) : List DetectedRun :=
  closed_runs_with s spectrum (threshold_raw s.squelch_threshold)

/-! ## ScanController -/

/-- The loop `while (i < scan_ranges.size() && !scan_ranges[i].enabled) i++`,
run for at most `fuel` iterations from index `i`. -/
def skip_disabled_loop (ranges : List FrequencyRange) : Nat → Nat → Nat
  | 0, i => i
  | fuel + 1, i =>
    match ranges[i]? with
    | some range => if range.enabled = false then skip_disabled_loop ranges fuel (i + 1) else i
    | none => i

/-- The same loop with fuel for every index it can visit: the first index at
or after `i` that is out of range or holds an enabled range. -/
def skip_disabled (ranges : List FrequencyRange) (i : Nat) : Nat :=
  skip_disabled_loop ranges (ranges.length - i) i

/-- The chunk count of a range as `calculate_chunk_count` computes it: the
signed 64-bit quotient `(range_width + SPECTRUM_SLICE_WIDTH - 1) / SPECTRUM_SLICE_WIDTH`
stored in the 32-bit `size_t` member `total_chunks_in_range`.  A negative
quotient (a range saved with its end below its start) wraps modulo `2 ^ 32`;
a quotient that is not negative is stored as it is. -/
def chunk_count (range : FrequencyRange) : Nat :=
  let range_width := range.end_ - range.start
  let quotient := (range_width + (SPECTRUM_SLICE_WIDTH : Int) - 1).tdiv (SPECTRUM_SLICE_WIDTH : Int)
  if quotient < 0 then (quotient % 2 ^ 32).toNat else quotient.toNat

/-- The method `ScannerAppView::calculate_chunk_count`. -/
def calculate_chunk_count (s : ScannerAppView) : ScannerAppView :=
  match s.scan_ranges[s.current_range_index]? with
  | none => { s with total_chunks_in_range := 0 }
  | some range => { s with total_chunks_in_range := chunk_count range }

/-- The method `tune_to_chunk_center`. -/
def tune_to_chunk_center (s : ScannerAppView) (center_freq : Int) : ScannerAppView :=
  { s with commands := s.commands ++ [Command.set_tuning_frequency center_freq] }

/-- The call `baseband::spectrum_streaming_start()`. -/
def spectrum_streaming_start (s : ScannerAppView) : ScannerAppView :=
  { s with commands := s.commands ++ [Command.spectrum_streaming_start] }

/-- The method `ScannerAppView::start_scanning`. -/
def start_scanning (s : ScannerAppView) : ScannerAppView :=
  if s.is_scanning then s
  else if s.scan_ranges.isEmpty then { s with text_status := Status.error_no_ranges }
  else if (s.scan_ranges.any fun range => range.enabled) = false then
    { s with text_status := Status.error_no_enabled }
  else
    let s := { s with is_scanning := true }
    let s := { s with current_range_index := skip_disabled s.scan_ranges 0 }
    match s.scan_ranges[s.current_range_index]? with
    | none => { s with text_status := Status.error_no_enabled, is_scanning := false }
    | some first_range =>
      let s := { s with in_scan_cycle := false
                        best_freq_in_cycle := 0
                        best_rssi_in_cycle := -999
                        start_range_index := s.current_range_index }
      let s := { s with widest_signal_width := 0
                        widest_signal_freq := 0
                        widest_signal_rssi := -999
                        dome_signals_count := 0
                        threat_detected := false
                        signal_at_chunk_end := false }
      let s := calculate_chunk_count s
      let s := { s with current_chunk_in_range := 0 }
      let s := { s with current_chunk_center :=
                          first_range.start + ((SPECTRUM_SLICE_WIDTH / 2 : Nat) : Int) }
      let s := { s with text_status := Status.scanning }
      let s := { s with commands := s.commands ++
                  [Command.set_sampling_rate SPECTRUM_SLICE_WIDTH,
                   Command.set_baseband_bandwidth SPECTRUM_SLICE_WIDTH,
                   Command.receiver_enable,
                   Command.audio_set_rate_24000,
                   Command.audio_output_start,
                   Command.set_spectrum SPECTRUM_SLICE_WIDTH 0] }
      let s := tune_to_chunk_center s s.current_chunk_center
      spectrum_streaming_start s

/-- The method `ScannerAppView::pause_scanning`. -/
def pause_scanning (s : ScannerAppView) : ScannerAppView :=
  if s.is_scanning = false ∨ s.is_paused = true then s
  else { s with is_paused := true, text_status := Status.paused }

/-- The method `ScannerAppView::resume_scanning`. -/
def resume_scanning (s : ScannerAppView) : ScannerAppView :=
  if s.is_scanning = false ∨ s.is_paused = false then s
  else { s with is_paused := false, text_status := Status.scanning }

/-- The method `ScannerAppView::stop_scanning`. -/
def stop_scanning (s : ScannerAppView) : ScannerAppView :=
  if s.is_scanning = false then s
  else
    { s with is_scanning := false
             is_paused := false
             commands := s.commands ++ [Command.spectrum_streaming_stop, Command.receiver_disable]
             text_status := Status.stopped }

/-- The method `ScannerAppView::move_to_next_range`.  It is entered only from
`scan_next_chunk`, after the test `current_range_index < scan_ranges.size()`. -/
def move_to_next_range (s : ScannerAppView) : ScannerAppView :=
  let s := { s with current_range_index := s.current_range_index + 1 }
  let s := { s with current_range_index := skip_disabled s.scan_ranges s.current_range_index }
  if s.current_range_index ≥ s.scan_ranges.length ∧ s.threat_detected = true then
    let s := { s with text_status := Status.fpv_drone s.dome_signals_count }
    let s := { s with commands := s.commands ++ [Command.request_audio_beep 1000 24000 500] }
    stop_scanning s
  else
    let s :=
      if s.current_range_index ≥ s.scan_ranges.length then
        let s := { s with current_range_index := skip_disabled s.scan_ranges 0 }
        { s with text_status := Status.cycle_clear s.dome_signals_count }
      else s
    match s.scan_ranges[s.current_range_index]? with
    | none => s
    | some new_range =>
      let s := calculate_chunk_count s
      let s := { s with current_chunk_in_range := 0 }
      let s := { s with current_chunk_center :=
                          new_range.start + ((SPECTRUM_SLICE_WIDTH / 2 : Nat) : Int) }
      let s := tune_to_chunk_center s s.current_chunk_center
      spectrum_streaming_start s

/-- The method `ScannerAppView::scan_next_chunk`.  The product
`current_chunk_in_range * SPECTRUM_SLICE_WIDTH` is a 32-bit unsigned product. -/
def scan_next_chunk (s : ScannerAppView) : ScannerAppView :=
  match s.scan_ranges[s.current_range_index]? with
  | none => s
  | some current_range =>
    let s := { s with current_chunk_in_range := s.current_chunk_in_range + 1 }
    if s.current_chunk_in_range ≥ s.total_chunks_in_range then
      move_to_next_range s
    else
      let s := { s with current_chunk_center :=
                          current_range.start + ((SPECTRUM_SLICE_WIDTH / 2 : Nat) : Int)
                            + ((s.current_chunk_in_range * SPECTRUM_SLICE_WIDTH % 2 ^ 32 : Nat) : Int) }
      if s.current_chunk_center - ((SPECTRUM_SLICE_WIDTH / 2 : Nat) : Int) > current_range.end_ then
        move_to_next_range s
      else
        let s := tune_to_chunk_center s s.current_chunk_center
        spectrum_streaming_start s

/-- The method `ScannerAppView::on_channel_spectrum`: one chunk event. -/
def on_channel_spectrum (s : ScannerAppView) (spectrum : ChannelSpectrum) : ScannerAppView :=
  if s.is_scanning = false ∨ s.is_paused = true then s
  else
    let s := { s with commands := s.commands ++ [Command.spectrum_streaming_stop] }
    let s := process_spectrum_bins s spectrum
    scan_next_chunk s

/-! ## Predicates used by the statements -/

/-- The index `j` holds `range`, which is enabled, and is the first index at
or after `i` that holds an enabled range. -/
def FirstEnabledFrom (ranges : List FrequencyRange) (i j : Nat) (range : FrequencyRange) : Prop :=
  i ≤ j ∧ ranges[j]? = some range ∧ range.enabled = true ∧
    ∀ k r, i ≤ k → k < j → ranges[k]? = some r → r.enabled = false

/-- No index at or after `i` holds an enabled range. -/
def NoEnabledFrom (ranges : List FrequencyRange) (i : Nat) : Prop :=
  ∀ k r, i ≤ k → ranges[k]? = some r → r.enabled = false

/-- Three ranges of which only the middle one is enabled. -/
def middle_enabled : List FrequencyRange :=
  [⟨100000000, 200000000, "A", false⟩,
   ⟨400000000, 450000000, "B", true⟩,
   ⟨900000000, 950000000, "C", false⟩]

/-- Two ranges, both disabled. -/
def all_disabled : List FrequencyRange :=
  [⟨100000000, 200000000, "A", false⟩, ⟨400000000, 450000000, "B", false⟩]

/-- The view agrees with `s` on everything the bin analysis leaves alone: the
range list, the position in the sweep, the run state and the configuration. -/
def SameSession (s t : ScannerAppView) : Prop :=
  t.scan_ranges = s.scan_ranges ∧ t.current_range_index = s.current_range_index ∧
  t.current_chunk_in_range = s.current_chunk_in_range ∧
  t.total_chunks_in_range = s.total_chunks_in_range ∧
  t.current_chunk_center = s.current_chunk_center ∧
  t.is_scanning = s.is_scanning ∧ t.is_paused = s.is_paused ∧
  t.squelch_threshold = s.squelch_threshold ∧
  t.min_signal_width_mhz = s.min_signal_width_mhz ∧
  t.max_signal_width_mhz = s.max_signal_width_mhz ∧
  t.in_scan_cycle = s.in_scan_cycle ∧ t.best_freq_in_cycle = s.best_freq_in_cycle ∧
  t.best_rssi_in_cycle = s.best_rssi_in_cycle ∧ t.start_range_index = s.start_range_index

/-- The test of `scan_next_chunk` that ends the current range `range`: after
the increment the chunk index has reached `total_chunks_in_range`, or the
lower edge of the next chunk lies above the end of the range. -/
def range_exhausted (s : ScannerAppView) (range : FrequencyRange) : Prop :=
  s.current_chunk_in_range + 1 ≥ s.total_chunks_in_range ∨
    range.start + 10000000
      + (((s.current_chunk_in_range + 1) * 20000000 % 2 ^ 32 : Nat) : Int) - 10000000
      > range.end_

/-- The view is scanning at chunk 0 of the range `range` held at index `j`,
having issued, after the commands `before`, a retune to the first chunk centre
of that range followed by the start of streaming. -/
def AtRangeStart (t : ScannerAppView) (before : List Command) (j : Nat)
    (range : FrequencyRange) : Prop :=
  t.is_scanning = true ∧ t.is_paused = false ∧ t.current_range_index = j ∧
  t.current_chunk_in_range = 0 ∧ t.total_chunks_in_range = chunk_count range ∧
  t.current_chunk_center = range.start + 10000000 ∧
  t.commands = before ++
    [Command.set_tuning_frequency (range.start + 10000000), Command.spectrum_streaming_start]

/-- The view after the bin analysis of a chunk event, before the step to the
next chunk: streaming stopped, then `process_spectrum_bins`. -/
def after_analysis (s : ScannerAppView) (spectrum : ChannelSpectrum) : ScannerAppView :=
  process_spectrum_bins
    { s with commands := s.commands ++ [Command.spectrum_streaming_stop] } spectrum

/-- A chunk with a dome of 64 bins (5 MHz) on bins 10..73: the samples at bins
10, 25, 41, 57, 73 are 50, 100, 200, 100, 50 and the other bins of the run
hold 60. -/
def dome_chunk : ChannelSpectrum :=
  ChannelSpectrum.ofList
    (List.replicate 10 0 ++ [50] ++ List.replicate 14 60 ++ [100] ++ List.replicate 15 60
      ++ [200] ++ List.replicate 15 60 ++ [100] ++ List.replicate 15 60 ++ [50])

/-- A chunk with every bin at 0. -/
def quiet_chunk : ChannelSpectrum := ChannelSpectrum.ofList []

/-- A fresh view with the default ranges, after `start_scanning`. -/
def scanning_defaults : ScannerAppView := start_scanning (ScannerAppView.fresh default_ranges)

/-- A scan of `middle_enabled` after two quiet chunks: the view is at the third
and last chunk of the only enabled range. -/
def scanning_last_chunk : ScannerAppView :=
  on_channel_spectrum
    (on_channel_spectrum (start_scanning (ScannerAppView.fresh middle_enabled)) quiet_chunk)
    quiet_chunk

/-! ## Predicates on runs -/

/-- Bin `i` of the chunk is above the raw threshold. -/
def above (spectrum : ChannelSpectrum) (threshold : Int) (i : Nat) : Prop :=
  (spectrum.bin i : Int) > threshold

/-- The bins `a..b` form a maximal contiguous block of bins above the threshold
whose closing bin `b + 1` lies among the first `n` bins: every bin of `a..b`
is above the threshold, bin `a - 1` (if any) is not, and bin `b + 1` is not.
For `n = 256` these are the maximal blocks that end before bin 255. -/
def BlockBefore (spectrum : ChannelSpectrum) (threshold : Int) (n a b : Nat) : Prop :=
  a ≤ b ∧ b + 1 < n ∧ (∀ i, a ≤ i → i ≤ b → above spectrum threshold i) ∧
    (a = 0 ∨ ¬ above spectrum threshold (a - 1)) ∧ ¬ above spectrum threshold (b + 1)

/-- The magnitude `peak_power` is the maximum of bins `a..b` and `peak_bin` is
the first bin of `a..b` that attains it. -/
def IsPeakOf (spectrum : ChannelSpectrum) (a b peak_bin peak_power : Nat) : Prop :=
  a ≤ peak_bin ∧ peak_bin ≤ b ∧ spectrum.bin peak_bin = peak_power ∧
    (∀ i, a ≤ i → i ≤ b → spectrum.bin i ≤ peak_power) ∧
    (∀ i, a ≤ i → i < peak_bin → spectrum.bin i < peak_power)

/-- The invariant of the bin loop after `n` bins when no run was pending. -/
structure LoopInv (spectrum : ChannelSpectrum) (threshold : Int) (n : Nat) (st : BinScan) :
    Prop where
  sound : ∀ r ∈ st.closed, BlockBefore spectrum threshold n r.start_bin r.end_bin ∧
    IsPeakOf spectrum r.start_bin r.end_bin r.peak_bin r.peak_power
  complete : ∀ a b, BlockBefore spectrum threshold n a b →
    ∃ r ∈ st.closed, r.start_bin = a ∧ r.end_bin = b
  sorted : st.closed.Pairwise fun r1 r2 => r1.end_bin < r2.start_bin
  open_run : st.in_signal = true →
    st.signal_start_bin ≤ st.signal_end_bin ∧ st.signal_end_bin + 1 = n ∧
    (∀ i, st.signal_start_bin ≤ i → i ≤ st.signal_end_bin → above spectrum threshold i) ∧
    (st.signal_start_bin = 0 ∨ ¬ above spectrum threshold (st.signal_start_bin - 1)) ∧
    IsPeakOf spectrum st.signal_start_bin st.signal_end_bin st.signal_peak_bin
      st.signal_peak_power ∧
    ∀ r ∈ st.closed, r.end_bin < st.signal_start_bin
  idle : st.in_signal = false → n = 0 ∨ ¬ above spectrum threshold (n - 1)

/-- The chunk of the specification's example: bins 2..8 hold
200, 210, 230, 240, 230, 210, 200 and every other bin holds 0. -/
def seven_bin_run : ChannelSpectrum :=
  ChannelSpectrum.ofList [0, 0, 200, 210, 230, 240, 230, 210, 200, 0, 0]

/-- The maximum of the first `k` bins of the chunk (0 when `k = 0`). -/
def max_below (spectrum : ChannelSpectrum) : Nat → Nat
  | 0 => 0
  | k + 1 => max (max_below spectrum k) (spectrum.bin k)

/-- A chunk whose bins 0..5 hold 200, 210, 215, 210, 205, 200 and whose other
bins hold 0. -/
def six_bin_head : ChannelSpectrum :=
  ChannelSpectrum.ofList [200, 210, 215, 210, 205, 200]

/-- A view in which a run is pending from the previous chunk: it started at
bin 250 there and its peak so far is 220. -/
def pending_250 : ScannerAppView :=
  { ScannerAppView.fresh default_ranges with
    signal_at_chunk_end := true, chunk_end_signal_start_bin := 250, chunk_end_peak_power := 220 }

/-- The chunk of the specification's dome example: bins 0..6 hold
50, 80, 150, 200, 150, 80, 50 and every other bin holds 0. -/
def seven_bin_dome : ChannelSpectrum :=
  ChannelSpectrum.ofList [50, 80, 150, 200, 150, 80, 50]

/-! ## Configuration handlers -/

/-- The handler `field_bw_min.on_change` installed by `on_show`; its argument is
an `int32_t` stored into the `uint32_t` member.  The call
`field_bw_max.set_value` only refreshes the other widget. -/
def field_bw_min_on_change (s : ScannerAppView) (v : Int) : ScannerAppView :=
  let s := { s with min_signal_width_mhz := v.toNat }
  if s.min_signal_width_mhz > s.max_signal_width_mhz then
    { s with max_signal_width_mhz := s.min_signal_width_mhz }
  else s

/-- The handler `field_bw_max.on_change` installed by `on_show`. -/
def field_bw_max_on_change (s : ScannerAppView) (v : Int) : ScannerAppView :=
  let s := { s with max_signal_width_mhz := v.toNat }
  if s.max_signal_width_mhz < s.min_signal_width_mhz then
    { s with min_signal_width_mhz := s.max_signal_width_mhz }
  else s

/-- A scan of `middle_enabled` at the last chunk of its only enabled range,
receiving a chunk that holds a dome. -/
def alert_event : ScannerAppView := on_channel_spectrum scanning_last_chunk dome_chunk

/-! ## The width gate and the threat record -/

/-- The local `min_width` of the closing branch: `min_signal_width_mhz * 1000000`. -/
def min_width_hz (s : ScannerAppView) : Int := ((s.min_signal_width_mhz * 1000000 : Nat) : Int)

/-- The local `max_width` of the closing branch: `max_signal_width_mhz * 1000000`. -/
def max_width_hz (s : ScannerAppView) : Int := ((s.max_signal_width_mhz * 1000000 : Nat) : Int)

/-- What the closing branch of the bin loop does to the view, as a function of
the run `r` it closes: nothing when the width is outside the bounds; otherwise
the widest-signal record is raised to a wider run and a run that
`analyze_fm_dome_shape` accepts is counted, flagged and announced. -/
def consider_run (spectrum : ChannelSpectrum) (v : ScannerAppView) (r : DetectedRun) :
    ScannerAppView :=
  if r.signal_width ≥ min_width_hz v ∧ r.signal_width ≤ max_width_hz v then
    let has_video_dome := analyze_fm_dome_shape spectrum r.start_bin r.end_bin
    let v :=
      if r.signal_width > v.widest_signal_width then
        { v with widest_signal_width := r.signal_width
                 widest_signal_freq := r.signal_freq
                 widest_signal_rssi := r.power_dbm }
      else v
    if has_video_dome then
      let v := { v with dome_signals_count := v.dome_signals_count + 1
                        threat_detected := true
                        text_status := Status.threat_detected }
      on_signal_found v r.signal_freq r.power_dbm r.signal_width
    else v
  else v

/-- The closed run `r` has a width within `[min_width_hz, max_width_hz]` (both
bounds included) and `analyze_fm_dome_shape` accepts its span. -/
def is_dome_run (spectrum : ChannelSpectrum) (s : ScannerAppView) (r : DetectedRun) : Bool :=
  decide (min_width_hz s ≤ r.signal_width ∧ r.signal_width ≤ max_width_hz s) &&
    analyze_fm_dome_shape spectrum r.start_bin r.end_bin

/-- The default view with the minimum width raised to 5 MHz. -/
def min_five : ScannerAppView :=
  { ScannerAppView.fresh default_ranges with min_signal_width_mhz := 5 }

/-! ## Runs in the presence of a pending run -/

/-- The invariant of the bin loop after `n` bins, for any cross-chunk state:
every closed run has `start_bin ≤ end_bin < n` and either all its bins above
the threshold or is the span `[0, 0]` closed at bin 0 on a continued pending
run; an open run is either the continued run before bin 0, or a block of bins
above the threshold that ends at bin `n - 1`. -/
structure RunInv (s : ScannerAppView) (spectrum : ChannelSpectrum) (threshold : Int) (n : Nat)
    (st : BinScan) : Prop where
  closed_ok : ∀ r ∈ st.closed, r.start_bin ≤ r.end_bin ∧ r.end_bin < n ∧
    ((∀ i, r.start_bin ≤ i → i ≤ r.end_bin → above spectrum threshold i) ∨
      (s.signal_at_chunk_end = true ∧ continues spectrum threshold = true ∧
        ¬ above spectrum threshold 0 ∧ r.start_bin = 0 ∧ r.end_bin = 0))
  open_ok : st.in_signal = true → st.signal_start_bin ≤ st.signal_end_bin ∧
    ((n = 0 ∧ st.signal_start_bin = 0 ∧ st.signal_end_bin = 0 ∧
        s.signal_at_chunk_end = true ∧ continues spectrum threshold = true) ∨
      (st.signal_end_bin + 1 = n ∧
        ∀ i, st.signal_start_bin ≤ i → i ≤ st.signal_end_bin → above spectrum threshold i))

/-- A chunk whose bin 3 holds 200 and whose other bins, bin 0 included, hold 0. -/
def late_head : ChannelSpectrum := ChannelSpectrum.ofList [0, 0, 0, 200]

/-- A chunk whose bin 0 holds 0 and whose bins 1..255 hold 200. -/
def wide_tail : ChannelSpectrum := ChannelSpectrum.ofList (0 :: List.replicate 255 200)

/-- A chunk whose 256 bins all hold 200. -/
def full_chunk : ChannelSpectrum := ChannelSpectrum.ofList (List.replicate 256 200)

/-- The variables of the bin loop after the last bin: `in_signal` tells whether
a run is still open at the end of the chunk, `signal_start_bin` and
`signal_peak_power` are its start bin and its peak so far. -/
def open_run (s : ScannerAppView) (spectrum : ChannelSpectrum) (threshold : Int) : BinScan :=
  scan_upto s spectrum threshold SPECTRUM_BINS

/-! ## Restart -/

/-- The view with the commands `pre` placed before its own command trace. -/
def with_history (pre : List Command) (s : ScannerAppView) : ScannerAppView :=
  { s with commands := pre ++ s.commands }

/-- The loop variables with the commands `pre` placed before the trace of the view. -/
def BinScan.with_history (pre : List Command) (st : BinScan) : BinScan :=
  { st with view := ExtScanner.with_history pre st.view }

/-- A never-started view with the range list and the configuration of `s`. -/
def never_started (s : ScannerAppView) : ScannerAppView :=
  { ScannerAppView.fresh s.scan_ranges with
    squelch_threshold := s.squelch_threshold
    min_signal_width_mhz := s.min_signal_width_mhz
    max_signal_width_mhz := s.max_signal_width_mhz }

/-- A never-started view with the range list and the configuration of `s` that
also holds the three cross-chunk values recorded in `s`. -/
def never_started_with_record (s : ScannerAppView) : ScannerAppView :=
  { never_started s with
    chunk_end_signal_start_bin := s.chunk_end_signal_start_bin
    chunk_end_peak_power := s.chunk_end_peak_power
    pending_signal_freq := s.pending_signal_freq }

/-- A chunk whose bins 250..255 hold 200 and whose other bins hold 0. -/
def tail_250 : ChannelSpectrum :=
  ChannelSpectrum.ofList (List.replicate 250 0 ++ List.replicate 6 200)

/-- A chunk with a dome on bins 0..50: the samples at bins 0, 12, 25, 37, 50 are
50, 100, 200, 100, 50, the other bins of the run hold 60 and bins 51..255 hold 0. -/
def head_dome : ChannelSpectrum :=
  ChannelSpectrum.ofList
    ([50] ++ List.replicate 11 60 ++ [100] ++ List.replicate 12 60 ++ [200]
      ++ List.replicate 11 60 ++ [100] ++ List.replicate 12 60 ++ [50])

/-- A scan of the default ranges after one chunk in which a run was still
open at the end, from bin 250 on. -/
def restart_source : ScannerAppView := on_channel_spectrum scanning_defaults tail_250

/-! ## The samples of the dome classifier -/

/-- The five bins at which `analyze_fm_dome_shape` reads the spectrum, in the
order `start_bin`, `quarter_point`, `center_bin`, `three_quarter`, `end_bin`,
with the three inner indices computed as in the code. -/
def sample_bins (start_bin end_bin : Nat) : List Nat :=
  let center_bin := (start_bin + end_bin) / 2
  let quarter_point := start_bin + (end_bin - start_bin) / 4
  let three_quarter := start_bin + 3 * (end_bin - start_bin) / 4
  [start_bin, quarter_point, center_bin, three_quarter, end_bin]

/-! ## A range wider than 4.3 GHz -/

/-- One enabled range from 1 GHz to 6 GHz: 250 chunks of 20 MHz. -/
def wide_range : FrequencyRange := ⟨1000000000, 6000000000, "1-6GHz", true⟩

/-- A scan of `wide_range` alone, with the default configuration, after
`start_scanning` and 215 chunk events on quiet chunks. -/
def wide_pass : ScannerAppView :=
  (List.replicate 215 quiet_chunk).foldl on_channel_spectrum
    (start_scanning (ScannerAppView.fresh [wide_range]))

/-- The chunk centre that `scan_next_chunk` computes for chunk `k` of `range`,
with the 32-bit product. -/
def chunk_center (range : FrequencyRange) (k : Nat) : Int :=
  range.start + ((SPECTRUM_SLICE_WIDTH / 2 : Nat) : Int)
    + ((k * SPECTRUM_SLICE_WIDTH % 2 ^ 32 : Nat) : Int)

/-! ## Sessions -/

/-- An event of a scan session after `start_scanning`: the PAUSE button, the
RESUME button, or a spectrum chunk delivered to `on_channel_spectrum`. -/
inductive SessionEvent where
  /-- The call `pause_scanning()`. -/
  | pause
  /-- The call `resume_scanning()`. -/
  | resume
  /-- The call `on_channel_spectrum(spectrum)`. -/
  | chunk (spectrum : ChannelSpectrum)

/-- The handler of one session event. -/
def apply_event (s : ScannerAppView) : SessionEvent → ScannerAppView
  | SessionEvent.pause => pause_scanning s
  | SessionEvent.resume => resume_scanning s
  | SessionEvent.chunk spectrum => on_channel_spectrum s spectrum

/-- The scan-session invariant with the chunk centre as `scan_next_chunk`
computes it: the range list is `ranges`, a paused view is scanning, and a
scanning view is at a chunk `current_chunk_in_range < total_chunks_in_range` of
an enabled range whose chunk count is `total_chunks_in_range`, tuned to
`chunk_center` of that chunk. -/
structure SessionInv (ranges : List FrequencyRange) (t : ScannerAppView) : Prop where
  ranges_eq : t.scan_ranges = ranges
  paused : t.is_paused = true → t.is_scanning = true
  scanning : t.is_scanning = true →
    ∃ range, ranges[t.current_range_index]? = some range ∧ range.enabled = true ∧
      t.current_chunk_in_range < t.total_chunks_in_range ∧
      t.total_chunks_in_range = chunk_count range ∧
      t.current_chunk_center = chunk_center range t.current_chunk_in_range

/-! ## The bin loop for any cross-chunk state -/

/-- The probe at the top of `process_spectrum_bins` continues a pending run: a
run was pending from the previous chunk and one of bins 0..9 is above the
threshold, so the loop is entered with `in_signal` set and start bin 0. -/
def ContinuedRun (s : ScannerAppView) (spectrum : ChannelSpectrum) (threshold : Int) : Prop :=
  s.signal_at_chunk_end = true ∧ continues spectrum threshold = true

/-- The invariant of the bin loop after `n` bins, for any cross-chunk state.
Every closed run spans a maximal block of bins above the threshold, except the
span `[0, 0]` closed at bin 0 on a continued run; every maximal block whose
closing bin is among the first `n` bins has been closed; the runs are closed
from left to right.  An open run is either the continued run, with every bin
so far above the threshold and the carried peak raised to the maximum of the
bins so far, or a block that started in this chunk and ends at bin `n - 1`,
with its maximum as peak. -/
structure ChunkInv (s : ScannerAppView) (spectrum : ChannelSpectrum) (threshold : Int) (n : Nat)
    (st : BinScan) : Prop where
  sound : ∀ r ∈ st.closed, BlockBefore spectrum threshold n r.start_bin r.end_bin ∨
    (ContinuedRun s spectrum threshold ∧ ¬ above spectrum threshold 0 ∧
      r.start_bin = 0 ∧ r.end_bin = 0 ∧ 0 < n)
  complete : ∀ a b, BlockBefore spectrum threshold n a b →
    ∃ r ∈ st.closed, r.start_bin = a ∧ r.end_bin = b
  sorted : st.closed.Pairwise fun r1 r2 => r1.end_bin < r2.start_bin
  open_run : st.in_signal = true →
    (ContinuedRun s spectrum threshold ∧ st.signal_start_bin = 0 ∧ st.closed = [] ∧
      (∀ i, i < n → above spectrum threshold i) ∧
      st.signal_peak_power = max s.chunk_end_peak_power (max_below spectrum n) ∧
      ((n = 0 ∧ st.signal_end_bin = 0) ∨ st.signal_end_bin + 1 = n)) ∨
    (¬ (ContinuedRun s spectrum threshold ∧ st.signal_start_bin = 0) ∧
      st.signal_start_bin ≤ st.signal_end_bin ∧ st.signal_end_bin + 1 = n ∧
      (∀ i, st.signal_start_bin ≤ i → i ≤ st.signal_end_bin → above spectrum threshold i) ∧
      (st.signal_start_bin = 0 ∨ ¬ above spectrum threshold (st.signal_start_bin - 1)) ∧
      IsPeakOf spectrum st.signal_start_bin st.signal_end_bin st.signal_peak_bin
        st.signal_peak_power ∧
      ∀ r ∈ st.closed, r.end_bin < st.signal_start_bin)
  idle : st.in_signal = false →
    (n = 0 ∧ ¬ ContinuedRun s spectrum threshold) ∨ (n ≠ 0 ∧ ¬ above spectrum threshold (n - 1))

/-- A chunk whose bins 250..255 hold 200, 210, 230, 220, 215, 205 and whose
other bins hold 0. -/
def rising_tail : ChannelSpectrum :=
  ChannelSpectrum.ofList (List.replicate 250 0 ++ [200, 210, 230, 220, 215, 205])

/-- An enabled range saved with its end below its start: 200 MHz .. 100 MHz. -/
def reversed_range : FrequencyRange := ⟨200000000, 100000000, "reversed", true⟩

/-! ## DomeClassifier: theorems -/

theorem ChannelSpectrum.bin_lt (spectrum : ChannelSpectrum) (i : Nat) :
    spectrum.bin i < 256 := by
  unfold ChannelSpectrum.bin
  split
  · exact (spectrum.db _).isLt
  · omega

/-- C1 (as amended): for a run with `start_bin ≤ end_bin ≤ 255` and
`end_bin - start_bin ≥ 10`, that is a run of at least 11 bins,
`analyze_fm_dome_shape` returns true exactly when the four dome conditions
hold on the five samples. -/
theorem analyze_fm_dome_shape_iff (spectrum : ChannelSpectrum) (start_bin end_bin : Nat)
    (hse : start_bin ≤ end_bin) (_he : end_bin ≤ 255) (hw : end_bin - start_bin ≥ 10) :
    analyze_fm_dome_shape spectrum start_bin end_bin = true ↔
      DomeConditions spectrum start_bin end_bin := by
  have hg : ¬ (end_bin ≤ start_bin ∨ end_bin - start_bin < 10) := by omega
  simp only [analyze_fm_dome_shape, if_neg hg, DomeConditions, Bool.and_eq_true,
    decide_eq_true_eq, Int.abs_eq_natAbs]
  constructor
  · rintro ⟨⟨⟨h1, h2⟩, h3⟩, h4⟩
    exact ⟨h1, h2, h3, by exact_mod_cast h4⟩
  · rintro ⟨h1, h2, h3, h4⟩
    exact ⟨⟨⟨h1, h2⟩, h3⟩, by exact_mod_cast h4⟩

/-- Witness of `analyze_fm_dome_shape_iff`: the eleven-bin dome at bins 0..10,
which the classifier accepts. -/
theorem analyze_fm_dome_shape_iff_witness :
    (analyze_fm_dome_shape eleven_bin_dome 0 10 = true ↔ DomeConditions eleven_bin_dome 0 10) ∧
      analyze_fm_dome_shape eleven_bin_dome 0 10 = true :=
  ⟨analyze_fm_dome_shape_iff eleven_bin_dome 0 10 (by decide) (by decide) (by decide),
    by decide⟩

/-- C1 (counterexample): the run `[0, 9]` of `ten_bin_dome` spans exactly 10 bins
and meets the four dome conditions, yet `analyze_fm_dome_shape` rejects it. -/
theorem analyze_fm_dome_shape_ten_bins :
    (0 ≤ 9 ∧ 9 ≤ 255 ∧ 9 - 0 + 1 ≥ 10) ∧
      DomeConditions ten_bin_dome 0 9 ∧ analyze_fm_dome_shape ten_bin_dome 0 9 = false := by
  refine ⟨by decide, ?_, by decide⟩
  simp only [DomeConditions]
  decide

/-! ## ThresholdConverter: theorems -/

theorem threshold_raw_in_range (d : Int) (hlo : -120 ≤ d) (hhi : d ≤ -20) :
    threshold_raw d = ((d + 120) * 255) / 120 := by
  have hq : ((d + 120) * 255).tdiv 120 = ((d + 120) * 255) / 120 :=
    Int.tdiv_eq_ediv (by omega) (by omega)
  have hd : d - -120 = d + 120 := by omega
  have h0 : (0:Int) - -120 = 120 := by norm_num
  simp only [threshold_raw, NOISE_FLOOR_DBM, MAX_SIGNAL_DBM, RAW_MIN, RAW_MAX, hd, h0, hq]
  rw [if_neg (by omega), if_neg (by omega)]

/-- C4: for a squelch threshold `d` in [-120, -20] the raw threshold is the
truncated quotient `((d + 120) * 255) / 120` clamped to [0, 255]; it lies in
[0, 212], so it equals the quotient itself, with no rounding correction. -/
theorem threshold_raw_truncates (d : Int) (hlo : -120 ≤ d) (hhi : d ≤ -20) :
    threshold_raw d = min 255 (max 0 (((d + 120) * 255).tdiv 120)) ∧
    threshold_raw d = ((d + 120) * 255).tdiv 120 ∧
    0 ≤ threshold_raw d ∧ threshold_raw d ≤ 212 := by
  have hq : ((d + 120) * 255).tdiv 120 = ((d + 120) * 255) / 120 :=
    Int.tdiv_eq_ediv (by omega) (by omega)
  rw [hq, threshold_raw_in_range d hlo hhi]
  have h1 : 0 ≤ ((d + 120) * 255) / 120 := by omega
  have h2 : ((d + 120) * 255) / 120 ≤ 212 := by omega
  refine ⟨?_, rfl, h1, h2⟩
  rw [max_eq_right h1, min_eq_right (by omega)]

/-- Witness of `threshold_raw_truncates`: `d = -100` gives 42, where rounding
the exact quotient 42.5 would give 43. -/
theorem threshold_raw_truncates_witness :
    (threshold_raw (-100) = min 255 (max 0 (((-100 + 120) * 255 : Int).tdiv 120)) ∧
    threshold_raw (-100) = ((-100 + 120) * 255 : Int).tdiv 120 ∧
    0 ≤ threshold_raw (-100) ∧ threshold_raw (-100) ≤ 212) ∧ threshold_raw (-100) = 42 :=
  ⟨threshold_raw_truncates (-100) (by decide) (by decide), by decide⟩

/-- C5: the threshold conversion is monotonic on [-120, -20]. -/
theorem threshold_raw_monotone (d1 d2 : Int) (h1 : -120 ≤ d1) (h12 : d1 ≤ d2) (h2 : d2 ≤ -20) :
    threshold_raw d1 ≤ threshold_raw d2 := by
  rw [threshold_raw_in_range d1 h1 (by omega), threshold_raw_in_range d2 (by omega) h2]
  omega

/-- Witness of `threshold_raw_monotone` at -100 and -60. -/
theorem threshold_raw_monotone_witness :
    (-120 ≤ (-100 : Int) ∧ (-100 : Int) ≤ -60 ∧ (-60 : Int) ≤ -20) ∧
      threshold_raw (-100) ≤ threshold_raw (-60) :=
  ⟨by decide, threshold_raw_monotone (-100) (-60) (by decide) (by decide) (by decide)⟩

/-! ## Chunk count: theorems -/

theorem chunk_count_eq (range : FrequencyRange) (h : range.start < range.end_) :
    ((chunk_count range : Nat) : Int) = (range.end_ - range.start + 19999999) / 20000000 := by
  unfold chunk_count SPECTRUM_SLICE_WIDTH
  simp only []
  have hq : (range.end_ - range.start + ((20000000 : Nat) : Int) - 1).tdiv ((20000000 : Nat) : Int)
      = (range.end_ - range.start + 19999999) / 20000000 := by
    rw [Int.tdiv_eq_ediv (by omega) (by omega)]
    congr 1
    omega
  rw [hq, if_neg (by omega), Int.toNat_of_nonneg (by omega)]

theorem chunk_count_ceil (range : FrequencyRange) (h : range.start < range.end_) :
    ((chunk_count range : Nat) : Int) = ⌈((range.end_ - range.start : Int) : ℚ) / 20000000⌉ := by
  rw [chunk_count_eq range h]
  symm
  rw [Int.ceil_eq_iff]
  constructor
  · rw [lt_div_iff₀ (by norm_num)]
    have : ((range.end_ - range.start + 19999999) / 20000000 - 1) * 20000000
        < range.end_ - range.start := by
      omega
    exact_mod_cast this
  · rw [div_le_iff₀ (by norm_num)]
    have : range.end_ - range.start
        ≤ ((range.end_ - range.start + 19999999) / 20000000) * 20000000 := by
      omega
    exact_mod_cast this

/-- C6: for the current range, with `start < end`, `calculate_chunk_count` sets
`total_chunks_in_range` to `ceil ((end - start) / 20000000)`; a width of exactly
`k * 20 MHz` with `k ≥ 1` gives `k` chunks and a width of `k * 20 MHz + 1 Hz`
gives `k + 1` chunks. -/
theorem calculate_chunk_count_ceil (s : ScannerAppView) (range : FrequencyRange)
    (hcur : s.scan_ranges[s.current_range_index]? = some range)
    (h : range.start < range.end_) :
    (((calculate_chunk_count s).total_chunks_in_range : Nat) : Int)
        = ⌈((range.end_ - range.start : Int) : ℚ) / 20000000⌉ ∧
      (∀ k : Nat, 1 ≤ k → range.end_ - range.start = (k : Int) * 20000000 →
        (calculate_chunk_count s).total_chunks_in_range = k) ∧
      (∀ k : Nat, 1 ≤ k → range.end_ - range.start = (k : Int) * 20000000 + 1 →
        (calculate_chunk_count s).total_chunks_in_range = k + 1) := by
  have ht : (calculate_chunk_count s).total_chunks_in_range = chunk_count range := by
    simp only [calculate_chunk_count, hcur]
  rw [ht]
  refine ⟨chunk_count_ceil range h, ?_, ?_⟩
  · intro k _ hk
    have := chunk_count_eq range h
    omega
  · intro k _ hk
    have := chunk_count_eq range h
    omega

/-- Witness of `calculate_chunk_count_ceil`: the first default range,
900 MHz .. 1900 MHz, of width 50 * 20 MHz. -/
theorem calculate_chunk_count_ceil_witness :
    (calculate_chunk_count (ScannerAppView.fresh default_ranges)).total_chunks_in_range = 50 :=
  (calculate_chunk_count_ceil (ScannerAppView.fresh default_ranges)
    ⟨900000000, 1900000000, "900-1900MHz", true⟩ rfl (by decide)).2.1 50 (by decide) (by decide)

/-! ## Range selection: theorems -/

theorem skip_disabled_loop_spec (ranges : List FrequencyRange) :
    ∀ fuel i, ranges.length - i ≤ fuel →
      i ≤ skip_disabled_loop ranges fuel i ∧
      (∀ k r, i ≤ k → k < skip_disabled_loop ranges fuel i → ranges[k]? = some r →
        r.enabled = false) ∧
      (∀ r, ranges[skip_disabled_loop ranges fuel i]? = some r → r.enabled = true) := by
  intro fuel
  induction fuel with
  | zero =>
    intro i hi
    simp only [skip_disabled_loop]
    refine ⟨le_refl _, fun k r h1 h2 => absurd h2 (by omega), fun r hr => ?_⟩
    have : ranges[i]? = none := List.getElem?_eq_none (by omega)
    rw [this] at hr
    cases hr
  | succ fuel ih =>
    intro i hi
    cases hget : ranges[i]? with
    | none =>
      simp only [skip_disabled_loop, hget]
      exact ⟨le_refl _, fun k r h1 h2 => absurd h2 (by omega), fun r hr => by cases hr⟩
    | some range =>
      cases hen : range.enabled with
      | true =>
        simp only [skip_disabled_loop, hget, hen]
        refine ⟨le_refl _, fun k r h1 h2 => absurd h2 (by simp; omega), fun r hr => ?_⟩
        simp at hr
        rw [hget] at hr
        cases hr
        exact hen
      | false =>
        simp only [skip_disabled_loop, hget, hen, if_true]
        obtain ⟨h1, h2, h3⟩ := ih (i + 1) (by omega)
        refine ⟨by omega, fun k r hk1 hk2 hkr => ?_, h3⟩
        by_cases hki : k = i
        · subst hki
          rw [hget] at hkr
          cases hkr
          exact hen
        · exact h2 k r (by omega) hk2 hkr

theorem skip_disabled_spec (ranges : List FrequencyRange) (i : Nat) :
    i ≤ skip_disabled ranges i ∧
      (∀ k r, i ≤ k → k < skip_disabled ranges i → ranges[k]? = some r → r.enabled = false) ∧
      (∀ r, ranges[skip_disabled ranges i]? = some r → r.enabled = true) :=
  skip_disabled_loop_spec ranges (ranges.length - i) i (le_refl _)

theorem skip_disabled_some (ranges : List FrequencyRange) (i : Nat) (range : FrequencyRange)
    (h : ranges[skip_disabled ranges i]? = some range) :
    FirstEnabledFrom ranges i (skip_disabled ranges i) range := by
  obtain ⟨h1, h2, h3⟩ := skip_disabled_spec ranges i
  exact ⟨h1, h, h3 range h, h2⟩

theorem skip_disabled_none (ranges : List FrequencyRange) (i : Nat)
    (h : ranges[skip_disabled ranges i]? = none) : NoEnabledFrom ranges i := by
  obtain ⟨_, h2, _⟩ := skip_disabled_spec ranges i
  intro k r hk hkr
  apply h2 k r hk _ hkr
  have hlen : ranges.length ≤ skip_disabled ranges i := by
    by_contra hc
    rw [List.getElem?_eq_getElem (by omega)] at h
    cases h
  have : k < ranges.length := by
    by_contra hc
    rw [List.getElem?_eq_none (by omega)] at hkr
    cases hkr
  omega

theorem skip_disabled_of_enabled (ranges : List FrequencyRange)
    (h : ∃ r ∈ ranges, r.enabled = true) :
    ∃ range, ranges[skip_disabled ranges 0]? = some range := by
  cases hget : ranges[skip_disabled ranges 0]? with
  | some range => exact ⟨range, rfl⟩
  | none =>
    exfalso
    obtain ⟨r, hr, hen⟩ := h
    obtain ⟨k, hk⟩ := List.getElem?_of_mem hr
    have := skip_disabled_none ranges 0 hget k r (Nat.zero_le _) hk
    rw [hen] at this
    cases this

/-! ## start(): theorems -/

theorem any_enabled_eq_false (ranges : List FrequencyRange) :
    (ranges.any fun range => range.enabled) = false ↔ ¬ ∃ r ∈ ranges, r.enabled = true := by
  rw [← Bool.not_eq_true, List.any_eq_true]

/-- C7: from Idle, `start_scanning` fails exactly when no range is enabled.
With an empty range list it only sets the status "ERROR: No ranges", with a
non-empty list of disabled ranges it only sets "ERROR: No enabled"; every
other field, the command trace included, is unchanged, so the view stays
idle (not scanning, not paused). -/
theorem start_scanning_fails (s : ScannerAppView)
    (hidle : s.is_scanning = false) (hpause : s.is_paused = false) :
    ((start_scanning s).is_scanning = false ↔ ¬ ∃ r ∈ s.scan_ranges, r.enabled = true) ∧
    (s.scan_ranges = [] →
      start_scanning s = { s with text_status := Status.error_no_ranges }) ∧
    (s.scan_ranges ≠ [] → (∀ r ∈ s.scan_ranges, r.enabled = false) →
      start_scanning s = { s with text_status := Status.error_no_enabled }) ∧
    ((¬ ∃ r ∈ s.scan_ranges, r.enabled = true) →
      (start_scanning s).is_scanning = false ∧ (start_scanning s).is_paused = false ∧
      (start_scanning s).commands = s.commands) := by
  have hempty : s.scan_ranges = [] →
      start_scanning s = { s with text_status := Status.error_no_ranges } := by
    intro he
    simp [start_scanning, hidle, he]
  have hdis : s.scan_ranges ≠ [] → (∀ r ∈ s.scan_ranges, r.enabled = false) →
      start_scanning s = { s with text_status := Status.error_no_enabled } := by
    intro hne hall
    have hany : (s.scan_ranges.any fun range => range.enabled) = false := by
      rw [any_enabled_eq_false]
      rintro ⟨r, hr, hen⟩
      rw [hall r hr] at hen
      cases hen
    have hemp : s.scan_ranges.isEmpty = false := by
      cases hl : s.scan_ranges with
      | nil => exact absurd hl hne
      | cons a l => rfl
    simp [start_scanning, hidle, hemp, hany]
  have hfail : (¬ ∃ r ∈ s.scan_ranges, r.enabled = true) →
      (start_scanning s).is_scanning = false ∧ (start_scanning s).is_paused = false ∧
      (start_scanning s).commands = s.commands := by
    intro hno
    by_cases he : s.scan_ranges = []
    · rw [hempty he]
      exact ⟨hidle, hpause, rfl⟩
    · rw [hdis he (fun r hr => by
        cases hen : r.enabled with
        | false => rfl
        | true => exact absurd ⟨r, hr, hen⟩ hno)]
      exact ⟨hidle, hpause, rfl⟩
  refine ⟨⟨fun hf hex => ?_, fun hno => (hfail hno).1⟩, hempty, hdis, hfail⟩
  have hne : s.scan_ranges.isEmpty = false := by
    obtain ⟨r, hr, _⟩ := hex
    cases hl : s.scan_ranges with
    | nil => rw [hl] at hr; cases hr
    | cons a l => rfl
  have hany : ¬ (s.scan_ranges.any fun range => range.enabled) = false := by
    rw [any_enabled_eq_false]
    exact fun h => h hex
  obtain ⟨range, hrange⟩ := skip_disabled_of_enabled s.scan_ranges hex
  simp [start_scanning, hidle, hne, hany, hrange, spectrum_streaming_start,
    tune_to_chunk_center, calculate_chunk_count] at hf

/-- Witness of `start_scanning_fails`: a view whose two ranges are disabled. -/
theorem start_scanning_fails_witness :
    start_scanning (ScannerAppView.fresh all_disabled)
      = { ScannerAppView.fresh all_disabled with text_status := Status.error_no_enabled } :=
  (start_scanning_fails (ScannerAppView.fresh all_disabled) rfl rfl).2.2.1
    (by decide) (by decide)

/-- C8: from Idle, with at least one enabled range, `start_scanning` enters
Scanning at chunk 0 of the first enabled range: the chunk count is that of the
range, the chunk centre is its start plus 10 MHz, the threat record and the
cross-chunk flag are cleared, and the commands issued end with a retune to
that centre followed by the start of streaming. -/
theorem start_scanning_ok (s : ScannerAppView)
    (hidle : s.is_scanning = false) (hpause : s.is_paused = false)
    (hex : ∃ r ∈ s.scan_ranges, r.enabled = true) :
    ∃ i range, FirstEnabledFrom s.scan_ranges 0 i range ∧
      (start_scanning s).is_scanning = true ∧
      (start_scanning s).is_paused = false ∧
      (start_scanning s).text_status = Status.scanning ∧
      (start_scanning s).scan_ranges = s.scan_ranges ∧
      (start_scanning s).current_range_index = i ∧
      (start_scanning s).current_chunk_in_range = 0 ∧
      (start_scanning s).total_chunks_in_range = chunk_count range ∧
      (start_scanning s).current_chunk_center = range.start + 10000000 ∧
      (start_scanning s).widest_signal_width = 0 ∧
      (start_scanning s).widest_signal_freq = 0 ∧
      (start_scanning s).dome_signals_count = 0 ∧
      (start_scanning s).threat_detected = false ∧
      (start_scanning s).signal_at_chunk_end = false ∧
      (start_scanning s).commands = s.commands ++
        [Command.set_sampling_rate 20000000, Command.set_baseband_bandwidth 20000000,
         Command.receiver_enable, Command.audio_set_rate_24000, Command.audio_output_start,
         Command.set_spectrum 20000000 0,
         Command.set_tuning_frequency (range.start + 10000000),
         Command.spectrum_streaming_start] := by
  have hne : s.scan_ranges.isEmpty = false := by
    obtain ⟨r, hr, _⟩ := hex
    cases hl : s.scan_ranges with
    | nil => rw [hl] at hr; cases hr
    | cons a l => rfl
  have hany : ¬ (s.scan_ranges.any fun range => range.enabled) = false := by
    rw [any_enabled_eq_false]
    exact fun h => h hex
  obtain ⟨range, hrange⟩ := skip_disabled_of_enabled s.scan_ranges hex
  refine ⟨skip_disabled s.scan_ranges 0, range, skip_disabled_some _ _ _ hrange, ?_⟩
  simp [start_scanning, hidle, hpause, hne, hany, hrange, spectrum_streaming_start,
    tune_to_chunk_center, calculate_chunk_count, SPECTRUM_SLICE_WIDTH]

/-- Witness of `start_scanning_ok`: with only the middle range enabled the
scan starts at index 1, centre 410 MHz, with 3 chunks. -/
theorem start_scanning_ok_witness :
    (start_scanning (ScannerAppView.fresh middle_enabled)).current_range_index = 1 ∧
    (start_scanning (ScannerAppView.fresh middle_enabled)).current_chunk_center = 410000000 ∧
    (start_scanning (ScannerAppView.fresh middle_enabled)).total_chunks_in_range = 3 ∧
    ∃ i range, FirstEnabledFrom middle_enabled 0 i range ∧
      (start_scanning (ScannerAppView.fresh middle_enabled)).current_range_index = i :=
  ⟨by decide, by decide, by decide,
    (start_scanning_ok (ScannerAppView.fresh middle_enabled) rfl rfl
      ⟨⟨400000000, 450000000, "B", true⟩, by decide, rfl⟩).imp
      fun _ h => h.imp fun _ h => ⟨h.1, h.2.2.2.2.2.1⟩⟩

/-! ## Frame of the bin analysis -/

theorem SameSession.refl (s : ScannerAppView) : SameSession s s := by
  simp [SameSession]

theorem scan_bin_session (spectrum : ChannelSpectrum) (threshold : Int) (s : ScannerAppView)
    (st : BinScan) (bin : Nat) (h : SameSession s st.view) :
    SameSession s (scan_bin spectrum threshold st bin).view := by
  unfold SameSession at *
  simp only [scan_bin, end_of_signal, on_signal_found, play_alert_tone]
  split_ifs <;> simp_all

theorem scan_begin_session (s : ScannerAppView) (spectrum : ChannelSpectrum) (threshold : Int) :
    SameSession s (scan_begin s spectrum threshold).view := by
  unfold SameSession
  simp only [scan_begin]
  split_ifs <;> simp_all

theorem scan_upto_succ (s : ScannerAppView) (spectrum : ChannelSpectrum) (threshold : Int)
    (n : Nat) :
    scan_upto s spectrum threshold (n + 1)
      = scan_bin spectrum threshold (scan_upto s spectrum threshold n) n := by
  simp [scan_upto, List.range_succ, List.foldl_append]

theorem scan_upto_session (s : ScannerAppView) (spectrum : ChannelSpectrum) (threshold : Int)
    (n : Nat) : SameSession s (scan_upto s spectrum threshold n).view := by
  induction n with
  | zero => exact scan_begin_session s spectrum threshold
  | succ n ih =>
    rw [scan_upto_succ]
    exact scan_bin_session spectrum threshold s _ n ih

theorem scan_end_session (s : ScannerAppView) (st : BinScan) (h : SameSession s st.view) :
    SameSession s (scan_end st) := by
  unfold SameSession at *
  simp only [scan_end]
  split_ifs <;> simp_all

theorem process_spectrum_bins_session (s : ScannerAppView) (spectrum : ChannelSpectrum) :
    SameSession s (process_spectrum_bins s spectrum) :=
  scan_end_session s _ (scan_upto_session s spectrum _ _)

/-! ## Stepping to the next chunk or range -/

theorem skip_disabled_eq_of_first (ranges : List FrequencyRange) (i j : Nat)
    (range : FrequencyRange) (h : FirstEnabledFrom ranges i j range) :
    skip_disabled ranges i = j := by
  obtain ⟨hij, hj, hen, hbefore⟩ := h
  obtain ⟨h1, h2, h3⟩ := skip_disabled_spec ranges i
  have hjlen : j < ranges.length := by
    by_contra hc
    rw [List.getElem?_eq_none (by omega)] at hj
    cases hj
  rcases Nat.lt_trichotomy (skip_disabled ranges i) j with hlt | heq | hgt
  · exfalso
    have hget : ranges[skip_disabled ranges i]? = some ranges[skip_disabled ranges i] :=
      List.getElem?_eq_getElem (by omega)
    have e1 := h3 _ hget
    have e2 := hbefore _ _ h1 hlt hget
    rw [e1] at e2
    cases e2
  · exact heq
  · exfalso
    have e2 := h2 j range hij hgt hj
    rw [hen] at e2
    cases e2

theorem skip_disabled_none_of_no_enabled (ranges : List FrequencyRange) (i : Nat)
    (h : NoEnabledFrom ranges i) : ranges.length ≤ skip_disabled ranges i := by
  obtain ⟨h1, _, h3⟩ := skip_disabled_spec ranges i
  by_contra hc
  have hget : ranges[skip_disabled ranges i]? = some ranges[skip_disabled ranges i] :=
    List.getElem?_eq_getElem (by omega)
  have e1 := h3 _ hget
  have e2 := h _ _ h1 hget
  rw [e1] at e2
  cases e2

theorem first_or_none (ranges : List FrequencyRange) (i : Nat) :
    (∃ j range, FirstEnabledFrom ranges i j range) ∨ NoEnabledFrom ranges i := by
  cases hget : ranges[skip_disabled ranges i]? with
  | some range => exact Or.inl ⟨_, range, skip_disabled_some ranges i range hget⟩
  | none => exact Or.inr (skip_disabled_none ranges i hget)

theorem first_not_none (ranges : List FrequencyRange) (i j : Nat) (range : FrequencyRange)
    (h : FirstEnabledFrom ranges i j range) : ¬ NoEnabledFrom ranges i := by
  intro hno
  have := hno j range h.1 h.2.1
  rw [h.2.2.1] at this
  cases this

theorem move_to_next_range_next (q : ScannerAppView) (j : Nat) (next : FrequencyRange)
    (hscan : q.is_scanning = true) (hpause : q.is_paused = false)
    (h : FirstEnabledFrom q.scan_ranges (q.current_range_index + 1) j next) :
    AtRangeStart (move_to_next_range q) q.commands j next ∧
      (move_to_next_range q).text_status = q.text_status := by
  have hskip := skip_disabled_eq_of_first _ _ _ _ h
  have hj := h.2.1
  have hjlen : j < q.scan_ranges.length := by
    by_contra hc
    rw [List.getElem?_eq_none (by omega)] at hj
    cases hj
  have hnot : ¬ (q.scan_ranges.length ≤ j) := by omega
  simp [move_to_next_range, hskip, hnot, hj, AtRangeStart, calculate_chunk_count,
    tune_to_chunk_center, spectrum_streaming_start, hscan, hpause, SPECTRUM_SLICE_WIDTH]

theorem move_to_next_range_alert (q : ScannerAppView)
    (hscan : q.is_scanning = true)
    (h : NoEnabledFrom q.scan_ranges (q.current_range_index + 1))
    (hthreat : q.threat_detected = true) :
    move_to_next_range q =
      { q with current_range_index := skip_disabled q.scan_ranges (q.current_range_index + 1)
               is_scanning := false
               is_paused := false
               text_status := Status.stopped
               commands := q.commands ++ [Command.request_audio_beep 1000 24000 500,
                 Command.spectrum_streaming_stop, Command.receiver_disable] } := by
  have hlen := skip_disabled_none_of_no_enabled _ _ h
  simp [move_to_next_range, hlen, hthreat, stop_scanning, hscan]

theorem move_to_next_range_wrap (q : ScannerAppView) (j : Nat) (first : FrequencyRange)
    (hscan : q.is_scanning = true) (hpause : q.is_paused = false)
    (h : NoEnabledFrom q.scan_ranges (q.current_range_index + 1))
    (hthreat : q.threat_detected = false)
    (hfirst : FirstEnabledFrom q.scan_ranges 0 j first) :
    AtRangeStart (move_to_next_range q) q.commands j first ∧
      (move_to_next_range q).text_status = Status.cycle_clear q.dome_signals_count := by
  have hlen := skip_disabled_none_of_no_enabled _ _ h
  have hskip := skip_disabled_eq_of_first _ _ _ _ hfirst
  have hj := hfirst.2.1
  simp [move_to_next_range, hlen, hthreat, hskip, hj, AtRangeStart, calculate_chunk_count,
    tune_to_chunk_center, spectrum_streaming_start, hscan, hpause, SPECTRUM_SLICE_WIDTH]

theorem scan_next_chunk_within (p : ScannerAppView) (range : FrequencyRange)
    (hcur : p.scan_ranges[p.current_range_index]? = some range)
    (h : ¬ range_exhausted p range) :
    scan_next_chunk p =
      { p with current_chunk_in_range := p.current_chunk_in_range + 1
               current_chunk_center := range.start + 10000000
                 + (((p.current_chunk_in_range + 1) * 20000000 % 2 ^ 32 : Nat) : Int)
               commands := p.commands ++
                 [Command.set_tuning_frequency (range.start + 10000000
                    + (((p.current_chunk_in_range + 1) * 20000000 % 2 ^ 32 : Nat) : Int)),
                  Command.spectrum_streaming_start] } := by
  unfold range_exhausted at h
  push_neg at h
  obtain ⟨h1, h2⟩ := h
  have h1' : ¬ (p.total_chunks_in_range ≤ p.current_chunk_in_range + 1) := by omega
  simp only [scan_next_chunk, hcur, SPECTRUM_SLICE_WIDTH, ge_iff_le, h1', if_false,
    tune_to_chunk_center, spectrum_streaming_start]
  norm_num only [] at h2 ⊢
  rw [if_neg (by push_cast at h2 ⊢; omega)]
  simp

theorem scan_next_chunk_exhausted (p : ScannerAppView) (range : FrequencyRange)
    (hcur : p.scan_ranges[p.current_range_index]? = some range)
    (h : range_exhausted p range) :
    ∃ q, scan_next_chunk p = move_to_next_range q ∧ q.scan_ranges = p.scan_ranges ∧
      q.current_range_index = p.current_range_index ∧ q.is_scanning = p.is_scanning ∧
      q.is_paused = p.is_paused ∧ q.threat_detected = p.threat_detected ∧
      q.dome_signals_count = p.dome_signals_count ∧ q.commands = p.commands ∧
      q.text_status = p.text_status := by
  by_cases h1 : p.total_chunks_in_range ≤ p.current_chunk_in_range + 1
  · refine ⟨{ p with current_chunk_in_range := p.current_chunk_in_range + 1 }, ?_, by simp⟩
    simp only [scan_next_chunk, hcur, ge_iff_le, h1, if_true]
  · have h2 : range.start + 10000000
        + (((p.current_chunk_in_range + 1) * 20000000 % 2 ^ 32 : Nat) : Int) - 10000000
        > range.end_ := by
      rcases h with h | h
      · exact absurd h h1
      · exact h
    refine ⟨{ p with current_chunk_in_range := p.current_chunk_in_range + 1
                     current_chunk_center := range.start + 10000000
                       + (((p.current_chunk_in_range + 1) * 20000000 % 2 ^ 32 : Nat) : Int) },
      ?_, by simp⟩
    simp only [scan_next_chunk, hcur, SPECTRUM_SLICE_WIDTH, ge_iff_le, h1, if_false]
    norm_num only [] at h2 ⊢
    rw [if_pos (by push_cast at h2 ⊢; omega)]

/-! ## Chunk events: theorems -/

theorem on_channel_spectrum_scanning (s : ScannerAppView) (spectrum : ChannelSpectrum)
    (hscan : s.is_scanning = true) (hpause : s.is_paused = false) :
    on_channel_spectrum s spectrum = scan_next_chunk (after_analysis s spectrum) := by
  simp [on_channel_spectrum, after_analysis, hscan, hpause]

theorem after_analysis_session (s : ScannerAppView) (spectrum : ChannelSpectrum) :
    SameSession s (after_analysis s spectrum) := by
  have h := process_spectrum_bins_session
    { s with commands := s.commands ++ [Command.spectrum_streaming_stop] } spectrum
  unfold SameSession at *
  simpa using h

theorem scan_next_chunk_threat (p : ScannerAppView) :
    (scan_next_chunk p).threat_detected = p.threat_detected := by
  simp only [scan_next_chunk, move_to_next_range, stop_scanning, calculate_chunk_count,
    tune_to_chunk_center, spectrum_streaming_start]
  repeat' split
  all_goals simp_all

/-- C9: a chunk event processed in Scanning after which `threat_detected` is
set keeps the view in Scanning and retunes, to the next chunk of the current
range or to chunk 0 of the next enabled range, unless the chunk was the last
one of the last enabled range; in that case, and only then, the view requests
the 500 ms alert tone, stops streaming and leaves Scanning with the status
"Status: Stopped". -/
theorem chunk_event_with_threat (s : ScannerAppView) (spectrum : ChannelSpectrum)
    (range : FrequencyRange)
    (hscan : s.is_scanning = true) (hpause : s.is_paused = false)
    (hcur : s.scan_ranges[s.current_range_index]? = some range)
    (hthreat : (on_channel_spectrum s spectrum).threat_detected = true) :
    (¬ range_exhausted s range →
      (on_channel_spectrum s spectrum).is_scanning = true ∧
      (on_channel_spectrum s spectrum).is_paused = false ∧
      (on_channel_spectrum s spectrum).current_range_index = s.current_range_index ∧
      (on_channel_spectrum s spectrum).current_chunk_in_range = s.current_chunk_in_range + 1 ∧
      (on_channel_spectrum s spectrum).current_chunk_center = range.start + 10000000
        + (((s.current_chunk_in_range + 1) * 20000000 % 2 ^ 32 : Nat) : Int) ∧
      (on_channel_spectrum s spectrum).commands = (after_analysis s spectrum).commands ++
        [Command.set_tuning_frequency (on_channel_spectrum s spectrum).current_chunk_center,
         Command.spectrum_streaming_start]) ∧
    (range_exhausted s range →
      ∀ j next, FirstEnabledFrom s.scan_ranges (s.current_range_index + 1) j next →
        AtRangeStart (on_channel_spectrum s spectrum) (after_analysis s spectrum).commands
          j next) ∧
    (range_exhausted s range → NoEnabledFrom s.scan_ranges (s.current_range_index + 1) →
      (on_channel_spectrum s spectrum).is_scanning = false ∧
      (on_channel_spectrum s spectrum).is_paused = false ∧
      (on_channel_spectrum s spectrum).text_status = Status.stopped ∧
      (on_channel_spectrum s spectrum).commands = (after_analysis s spectrum).commands ++
        [Command.request_audio_beep 1000 24000 500, Command.spectrum_streaming_stop,
         Command.receiver_disable]) ∧
    ((on_channel_spectrum s spectrum).is_scanning = false ↔
      (range_exhausted s range ∧
        NoEnabledFrom s.scan_ranges (s.current_range_index + 1))) := by
  obtain ⟨f1, f2, f3, f4, _, f6, f7, _⟩ := after_analysis_session s spectrum
  have hevent := on_channel_spectrum_scanning s spectrum hscan hpause
  have hpt : (after_analysis s spectrum).threat_detected = true := by
    rw [hevent, scan_next_chunk_threat] at hthreat
    exact hthreat
  have hpcur : (after_analysis s spectrum).scan_ranges[
      (after_analysis s spectrum).current_range_index]? = some range := by
    rw [f1, f2]
    exact hcur
  have hex : range_exhausted (after_analysis s spectrum) range ↔ range_exhausted s range := by
    unfold range_exhausted
    rw [f3, f4]
  have hwithin : ¬ range_exhausted s range →
      (on_channel_spectrum s spectrum).is_scanning = true ∧
      (on_channel_spectrum s spectrum).is_paused = false ∧
      (on_channel_spectrum s spectrum).current_range_index = s.current_range_index ∧
      (on_channel_spectrum s spectrum).current_chunk_in_range = s.current_chunk_in_range + 1 ∧
      (on_channel_spectrum s spectrum).current_chunk_center = range.start + 10000000
        + (((s.current_chunk_in_range + 1) * 20000000 % 2 ^ 32 : Nat) : Int) ∧
      (on_channel_spectrum s spectrum).commands = (after_analysis s spectrum).commands ++
        [Command.set_tuning_frequency (on_channel_spectrum s spectrum).current_chunk_center,
         Command.spectrum_streaming_start] := by
    intro hne
    rw [hevent, scan_next_chunk_within _ range hpcur (fun h => hne (hex.mp h))]
    simp [f2, f3, f6, f7, hscan, hpause]
  have hnext : range_exhausted s range →
      ∀ j next, FirstEnabledFrom s.scan_ranges (s.current_range_index + 1) j next →
        AtRangeStart (on_channel_spectrum s spectrum) (after_analysis s spectrum).commands
          j next := by
    intro he j next hfirst
    obtain ⟨q, hq, q1, q2, q3, q4, _, _, q7, _⟩ :=
      scan_next_chunk_exhausted _ range hpcur (hex.mpr he)
    rw [hevent, hq, ← q7]
    refine (move_to_next_range_next q j next (by rw [q3, f6, hscan]) (by rw [q4, f7, hpause])
      ?_).1
    rw [q1, q2, f1, f2]
    exact hfirst
  have hstop : range_exhausted s range →
      NoEnabledFrom s.scan_ranges (s.current_range_index + 1) →
      (on_channel_spectrum s spectrum).is_scanning = false ∧
      (on_channel_spectrum s spectrum).is_paused = false ∧
      (on_channel_spectrum s spectrum).text_status = Status.stopped ∧
      (on_channel_spectrum s spectrum).commands = (after_analysis s spectrum).commands ++
        [Command.request_audio_beep 1000 24000 500, Command.spectrum_streaming_stop,
         Command.receiver_disable] := by
    intro he hno
    obtain ⟨q, hq, q1, q2, q3, _, q5, _, q7, _⟩ :=
      scan_next_chunk_exhausted _ range hpcur (hex.mpr he)
    rw [hevent, hq, move_to_next_range_alert q (by rw [q3, f6, hscan])
      (by rw [q1, q2, f1, f2]; exact hno) (by rw [q5, hpt])]
    simp [q7]
  refine ⟨hwithin, hnext, hstop, ⟨fun hoff => ?_, fun h => (hstop h.1 h.2).1⟩⟩
  by_cases he : range_exhausted s range
  · refine ⟨he, ?_⟩
    rcases first_or_none s.scan_ranges (s.current_range_index + 1) with ⟨j, next, hf⟩ | hno
    · have := (hnext he j next hf).1
      rw [hoff] at this
      cases this
    · exact hno
  · have := (hwithin he).1
    rw [hoff] at this
    cases this


/-- Witness of `chunk_event_with_threat`: the first chunk of a fresh scan of
the default ranges holds a dome of 64 bins; the threat is recorded, the view
stays in Scanning and retunes to the second chunk, centred at 930 MHz. -/
theorem chunk_event_with_threat_witness :
    (on_channel_spectrum scanning_defaults dome_chunk).threat_detected = true ∧
    (on_channel_spectrum scanning_defaults dome_chunk).is_scanning = true ∧
    (on_channel_spectrum scanning_defaults dome_chunk).is_paused = false ∧
    (on_channel_spectrum scanning_defaults dome_chunk).current_range_index = 0 ∧
    (on_channel_spectrum scanning_defaults dome_chunk).current_chunk_in_range = 1 ∧
    (on_channel_spectrum scanning_defaults dome_chunk).current_chunk_center = 930000000 :=
  have h := (chunk_event_with_threat scanning_defaults dome_chunk
    ⟨900000000, 1900000000, "900-1900MHz", true⟩ (by decide) (by decide) (by decide)
    (by decide)).1 (by unfold range_exhausted; decide)
  ⟨by decide, h.1, h.2.1, h.2.2.1, h.2.2.2.1, h.2.2.2.2.1⟩

/-- C10: a chunk event that exhausts the current (enabled) range while
`threat_detected` stays false keeps the view in Scanning at chunk 0 of the
enabled range with the next higher index, or, when no higher index is enabled,
of the first enabled range, with the status "Status: Cycle n (clear)": the
chunk count is recomputed for that range, the chunk centre is its start plus
10 MHz, and a retune to that centre is followed by a restart of streaming. -/
theorem chunk_event_range_exhausted (s : ScannerAppView) (spectrum : ChannelSpectrum)
    (range : FrequencyRange)
    (hscan : s.is_scanning = true) (hpause : s.is_paused = false)
    (hcur : s.scan_ranges[s.current_range_index]? = some range)
    (hen : range.enabled = true)
    (hex : range_exhausted s range)
    (hthreat : (on_channel_spectrum s spectrum).threat_detected = false) :
    ∃ j next,
      (FirstEnabledFrom s.scan_ranges (s.current_range_index + 1) j next ∨
        (NoEnabledFrom s.scan_ranges (s.current_range_index + 1) ∧
          FirstEnabledFrom s.scan_ranges 0 j next ∧
          (on_channel_spectrum s spectrum).text_status
            = Status.cycle_clear (after_analysis s spectrum).dome_signals_count)) ∧
      AtRangeStart (on_channel_spectrum s spectrum) (after_analysis s spectrum).commands
        j next := by
  obtain ⟨f1, f2, f3, f4, _, f6, f7, _⟩ := after_analysis_session s spectrum
  have hevent := on_channel_spectrum_scanning s spectrum hscan hpause
  have hpt : (after_analysis s spectrum).threat_detected = false := by
    rw [hevent, scan_next_chunk_threat] at hthreat
    exact hthreat
  have hpcur : (after_analysis s spectrum).scan_ranges[
      (after_analysis s spectrum).current_range_index]? = some range := by
    rw [f1, f2]
    exact hcur
  have hex' : range_exhausted (after_analysis s spectrum) range := by
    unfold range_exhausted at *
    rw [f3, f4]
    exact hex
  obtain ⟨q, hq, q1, q2, q3, q4, q5, q6, q7, _⟩ := scan_next_chunk_exhausted _ range hpcur hex'
  have hqs : q.is_scanning = true := by rw [q3, f6, hscan]
  have hqp : q.is_paused = false := by rw [q4, f7, hpause]
  rcases first_or_none s.scan_ranges (s.current_range_index + 1) with ⟨j, next, hf⟩ | hno
  · refine ⟨j, next, Or.inl hf, ?_⟩
    rw [hevent, hq, ← q7]
    exact (move_to_next_range_next q j next hqs hqp (by rw [q1, q2, f1, f2]; exact hf)).1
  · rcases first_or_none s.scan_ranges 0 with ⟨j, first, hf⟩ | hnone
    · have hw := move_to_next_range_wrap q j first hqs hqp (by rw [q1, q2, f1, f2]; exact hno)
        (by rw [q5, hpt]) (by rw [q1, f1]; exact hf)
      refine ⟨j, first, Or.inr ⟨hno, hf, ?_⟩, ?_⟩
      · rw [hevent, hq, hw.2, q6]
      · rw [hevent, hq, ← q7]
        exact hw.1
    · exfalso
      have := hnone _ range (Nat.zero_le _) hcur
      rw [hen] at this
      cases this

/-- Witness of `chunk_event_range_exhausted`: with only the middle of three
ranges enabled, the event on its third and last chunk wraps to chunk 0 of the
same range, index 1, centred at 410 MHz. -/
theorem chunk_event_range_exhausted_witness :
    ∃ j next,
      (FirstEnabledFrom middle_enabled 2 j next ∨
        (NoEnabledFrom middle_enabled 2 ∧ FirstEnabledFrom middle_enabled 0 j next ∧
          (on_channel_spectrum scanning_last_chunk quiet_chunk).text_status
            = Status.cycle_clear 0)) ∧
      AtRangeStart (on_channel_spectrum scanning_last_chunk quiet_chunk)
        (after_analysis scanning_last_chunk quiet_chunk).commands j next :=
  chunk_event_range_exhausted scanning_last_chunk quiet_chunk
    ⟨400000000, 450000000, "B", true⟩ (by decide) (by decide) (by decide) rfl
    (by unfold range_exhausted; decide) (by decide)

/-! ## RunDetector: the bin loop -/

theorem scan_bin_start (spectrum : ChannelSpectrum) (threshold : Int) (st : BinScan) (n : Nat)
    (h : above spectrum threshold n) (hin : st.in_signal = false) :
    scan_bin spectrum threshold st n =
      { st with in_signal := true, signal_start_bin := n, signal_peak_power := spectrum.bin n,
                signal_peak_bin := n, signal_end_bin := n } := by
  unfold above at h
  simp [scan_bin, h, hin]

theorem scan_bin_higher (spectrum : ChannelSpectrum) (threshold : Int) (st : BinScan) (n : Nat)
    (h : above spectrum threshold n) (hin : st.in_signal = true)
    (hp : spectrum.bin n > st.signal_peak_power) :
    scan_bin spectrum threshold st n =
      { st with signal_peak_power := spectrum.bin n, signal_peak_bin := n,
                signal_end_bin := n } := by
  unfold above at h
  simp [scan_bin, h, hin, hp]

theorem scan_bin_extend (spectrum : ChannelSpectrum) (threshold : Int) (st : BinScan) (n : Nat)
    (h : above spectrum threshold n) (hin : st.in_signal = true)
    (hp : ¬ spectrum.bin n > st.signal_peak_power) :
    scan_bin spectrum threshold st n = { st with signal_end_bin := n } := by
  unfold above at h
  simp [scan_bin, h, hin, hp]

theorem scan_bin_close (spectrum : ChannelSpectrum) (threshold : Int) (st : BinScan) (n : Nat)
    (h : ¬ above spectrum threshold n) (hin : st.in_signal = true) :
    scan_bin spectrum threshold st n = end_of_signal spectrum st := by
  unfold above at h
  simp [scan_bin, h, hin]

theorem scan_bin_idle (spectrum : ChannelSpectrum) (threshold : Int) (st : BinScan) (n : Nat)
    (h : ¬ above spectrum threshold n) (hin : st.in_signal = false) :
    scan_bin spectrum threshold st n = st := by
  unfold above at h
  simp [scan_bin, h, hin]

theorem end_of_signal_locals (spectrum : ChannelSpectrum) (st : BinScan) :
    (end_of_signal spectrum st).closed = st.closed ++ [closing_run st] ∧
    (end_of_signal spectrum st).in_signal = false ∧
    (end_of_signal spectrum st).signal_start_bin = st.signal_start_bin ∧
    (end_of_signal spectrum st).signal_end_bin = st.signal_end_bin ∧
    (end_of_signal spectrum st).signal_peak_bin = st.signal_peak_bin ∧
    (end_of_signal spectrum st).signal_peak_power = st.signal_peak_power := by
  simp [end_of_signal]

theorem BlockBefore.mono {spectrum : ChannelSpectrum} {threshold : Int} {n a b : Nat}
    (h : BlockBefore spectrum threshold n a b) : BlockBefore spectrum threshold (n + 1) a b :=
  ⟨h.1, by have := h.2.1; omega, h.2.2⟩

theorem BlockBefore.of_succ {spectrum : ChannelSpectrum} {threshold : Int} {n a b : Nat}
    (h : BlockBefore spectrum threshold (n + 1) a b) :
    BlockBefore spectrum threshold n a b ∨
      (b + 1 = n ∧ ¬ above spectrum threshold n ∧ above spectrum threshold b) := by
  obtain ⟨h1, h2, h3, h4, h5⟩ := h
  by_cases hb : b + 1 < n
  · exact Or.inl ⟨h1, hb, h3, h4, h5⟩
  · have hbn : b + 1 = n := by omega
    refine Or.inr ⟨hbn, ?_, h3 b h1 (le_refl _)⟩
    rw [← hbn]
    exact h5

theorem LoopInv.step {spectrum : ChannelSpectrum} {threshold : Int} {n : Nat} {st : BinScan}
    (inv : LoopInv spectrum threshold n st) :
    LoopInv spectrum threshold (n + 1) (scan_bin spectrum threshold st n) := by
  by_cases hab : above spectrum threshold n
  · -- the bin is above the threshold: the closed runs are unchanged
    have hclosed : (scan_bin spectrum threshold st n).closed = st.closed := by
      cases hin : st.in_signal with
      | false => rw [scan_bin_start _ _ _ _ hab hin]
      | true =>
        by_cases hp : spectrum.bin n > st.signal_peak_power
        · rw [scan_bin_higher _ _ _ _ hab hin hp]
        · rw [scan_bin_extend _ _ _ _ hab hin hp]
    have hsound : ∀ r ∈ (scan_bin spectrum threshold st n).closed,
        BlockBefore spectrum threshold (n + 1) r.start_bin r.end_bin ∧
        IsPeakOf spectrum r.start_bin r.end_bin r.peak_bin r.peak_power := by
      rw [hclosed]
      exact fun r hr => ⟨(inv.sound r hr).1.mono, (inv.sound r hr).2⟩
    have hcomplete : ∀ a b, BlockBefore spectrum threshold (n + 1) a b →
        ∃ r ∈ (scan_bin spectrum threshold st n).closed, r.start_bin = a ∧ r.end_bin = b := by
      rw [hclosed]
      intro a b hblock
      rcases hblock.of_succ with h | ⟨_, hn, _⟩
      · exact inv.complete a b h
      · exact absurd hab hn
    have hsorted : (scan_bin spectrum threshold st n).closed.Pairwise
        fun r1 r2 => r1.end_bin < r2.start_bin := by
      rw [hclosed]
      exact inv.sorted
    cases hin : st.in_signal with
    | false =>
      refine ⟨hsound, hcomplete, hsorted, fun _ => ?_, fun h => ?_⟩
      · rw [scan_bin_start _ _ _ _ hab hin]
        dsimp only
        refine ⟨le_refl _, rfl, fun i h1 h2 => ?_, inv.idle hin, ?_, fun r hr => ?_⟩
        · have : i = n := Nat.le_antisymm h2 h1
          rw [this]
          exact hab
        · exact ⟨le_refl _, le_refl _, rfl,
            fun i h1 h2 => by
              have : i = n := Nat.le_antisymm h2 h1
              rw [this],
            fun i h1 h2 => absurd h1 (by omega)⟩
        · have := (inv.sound r hr).1.2.1
          omega
      · rw [scan_bin_start _ _ _ _ hab hin] at h
        cases h
    | true =>
      obtain ⟨o1, o2, o3, o4, ⟨p1, p2, p3, p4, p5⟩, o6⟩ := inv.open_run hin
      by_cases hp : spectrum.bin n > st.signal_peak_power
      · refine ⟨hsound, hcomplete, hsorted, fun _ => ?_, fun h => ?_⟩
        · rw [scan_bin_higher _ _ _ _ hab hin hp]
          dsimp only
          refine ⟨by omega, rfl, fun i h1 h2 => ?_, o4, ?_, o6⟩
          · by_cases hi : i = n
            · rw [hi]; exact hab
            · exact o3 i h1 (by omega)
          · refine ⟨by omega, le_refl _, rfl, fun i h1 h2 => ?_, fun i h1 h2 => ?_⟩
            · by_cases hi : i = n
              · rw [hi]
              · have := p4 i h1 (by omega)
                omega
            · have := p4 i h1 (by omega)
              omega
        · rw [scan_bin_higher _ _ _ _ hab hin hp, hin] at h
          cases h
      · refine ⟨hsound, hcomplete, hsorted, fun _ => ?_, fun h => ?_⟩
        · rw [scan_bin_extend _ _ _ _ hab hin hp]
          dsimp only
          refine ⟨by omega, rfl, fun i h1 h2 => ?_, o4, ?_, o6⟩
          · by_cases hi : i = n
            · rw [hi]; exact hab
            · exact o3 i h1 (by omega)
          · refine ⟨p1, by omega, p3, fun i h1 h2 => ?_, p5⟩
            by_cases hi : i = n
            · rw [hi]; omega
            · exact p4 i h1 (by omega)
        · rw [scan_bin_extend _ _ _ _ hab hin hp, hin] at h
          cases h
  · -- the bin is at or below the threshold
    cases hin : st.in_signal with
    | false =>
      rw [scan_bin_idle _ _ _ _ hab hin]
      refine ⟨fun r hr => ⟨(inv.sound r hr).1.mono, (inv.sound r hr).2⟩, fun a b hblock => ?_,
        inv.sorted, fun h => ?_, fun _ => Or.inr hab⟩
      · rcases hblock.of_succ with h | ⟨hbn, _, hb⟩
        · exact inv.complete a b h
        · rcases inv.idle hin with h0 | hprev
          · omega
          · have : n - 1 = b := by omega
            rw [this] at hprev
            exact absurd hb hprev
      · rw [hin] at h
        cases h
    | true =>
      obtain ⟨o1, o2, o3, o4, o5, o6⟩ := inv.open_run hin
      obtain ⟨e1, e2, _, _, _, _⟩ := end_of_signal_locals spectrum st
      rw [scan_bin_close _ _ _ _ hab hin]
      have hnew : BlockBefore spectrum threshold (n + 1) st.signal_start_bin st.signal_end_bin :=
        ⟨o1, by omega, o3, o4, by rw [o2]; exact hab⟩
      refine ⟨fun r hr => ?_, fun a b hblock => ?_, ?_, fun h => ?_, fun _ => Or.inr hab⟩
      · rw [e1, List.mem_append, List.mem_singleton] at hr
        rcases hr with hr | hr
        · exact ⟨(inv.sound r hr).1.mono, (inv.sound r hr).2⟩
        · rw [hr]
          exact ⟨hnew, o5⟩
      · rw [e1]
        rcases hblock.of_succ with h | ⟨hbn, _, _⟩
        · obtain ⟨r, hr, hr2⟩ := inv.complete a b h
          exact ⟨r, List.mem_append_left _ hr, hr2⟩
        · refine ⟨closing_run st, List.mem_append_right _ (List.mem_singleton.mpr rfl), ?_, ?_⟩
          · show st.signal_start_bin = a
            obtain ⟨b1, _, b3, b4, _⟩ := hblock
            rcases Nat.lt_trichotomy st.signal_start_bin a with hlt | heq | hgt
            · exfalso
              rcases b4 with b4 | b4
              · omega
              · exact b4 (o3 (a - 1) (by omega) (by omega))
            · exact heq
            · exfalso
              rcases o4 with o4 | o4
              · omega
              · exact o4 (b3 (st.signal_start_bin - 1) (by omega) (by omega))
          · show st.signal_end_bin = b
            omega
      · rw [e1, List.pairwise_append]
        refine ⟨inv.sorted, List.pairwise_singleton _ _, fun r hr r' hr' => ?_⟩
        rw [List.mem_singleton] at hr'
        rw [hr']
        exact o6 r hr
      · rw [e2] at h
        cases h

theorem LoopInv.begin (s : ScannerAppView) (spectrum : ChannelSpectrum) (threshold : Int)
    (h : s.signal_at_chunk_end = false) :
    LoopInv spectrum threshold 0 (scan_begin s spectrum threshold) := by
  have hb : scan_begin s spectrum threshold =
      { view := s, signal_start_bin := 0, signal_end_bin := 0, in_signal := false,
        signal_peak_power := 0, signal_peak_bin := 0, closed := [] } := by
    simp [scan_begin, h]
  rw [hb]
  exact ⟨fun r hr => (by cases hr), fun a b hblock => absurd hblock.2.1 (by omega),
    List.Pairwise.nil, fun h => (by cases h), fun _ => Or.inl rfl⟩

theorem LoopInv.upto (s : ScannerAppView) (spectrum : ChannelSpectrum) (threshold : Int)
    (h : s.signal_at_chunk_end = false) (n : Nat) :
    LoopInv spectrum threshold n (scan_upto s spectrum threshold n) := by
  induction n with
  | zero => exact LoopInv.begin s spectrum threshold h
  | succ n ih =>
    rw [scan_upto_succ]
    exact ih.step

/-- C2: with no run pending from the previous chunk, the runs closed on a
chunk are exactly the maximal contiguous blocks of bins above the threshold
that end before bin 255: each closed run spans such a block, with the block's
maximum as peak magnitude and the first bin attaining it as peak bin; each such
block is the span of exactly one closed run; and the runs are closed from left
to right, without overlap. -/
theorem closed_runs_are_blocks (s : ScannerAppView) (spectrum : ChannelSpectrum)
    (threshold : Int) (h : s.signal_at_chunk_end = false) :
    (∀ r ∈ closed_runs_with s spectrum threshold,
      BlockBefore spectrum threshold 256 r.start_bin r.end_bin ∧
      IsPeakOf spectrum r.start_bin r.end_bin r.peak_bin r.peak_power) ∧
    (∀ a b, BlockBefore spectrum threshold 256 a b →
      ∃! r, r ∈ closed_runs_with s spectrum threshold ∧ r.start_bin = a ∧ r.end_bin = b) ∧
    (closed_runs_with s spectrum threshold).Pairwise
      (fun r1 r2 => r1.end_bin < r2.start_bin) := by
  have inv := LoopInv.upto s spectrum threshold h 256
  refine ⟨inv.sound, fun a b hblock => ?_, inv.sorted⟩
  obtain ⟨r, hr, hra, hrb⟩ := inv.complete a b hblock
  refine ⟨r, ⟨hr, hra, hrb⟩, fun r' ⟨hr', hra', hrb'⟩ => ?_⟩
  have hs := inv.sorted
  have hle : ∀ x ∈ closed_runs_with s spectrum threshold, x.start_bin ≤ x.end_bin :=
    fun x hx => (inv.sound x hx).1.1
  by_contra hne
  have hpair := List.Pairwise.forall_of_forall_of_flip (R := fun r1 r2 : DetectedRun =>
    r1 = r2 ∨ r1.end_bin < r2.start_bin ∨ r2.end_bin < r1.start_bin)
    (by intro x _; exact Or.inl rfl)
    (hs.imp fun {x y} hxy => Or.inr (Or.inl hxy))
    (hs.imp fun {x y} hxy => Or.inr (Or.inr hxy)) hr' hr
  rcases hpair with h1 | h1 | h1
  · exact hne h1
  · have := hle r hr; omega
  · have := hle r' hr'; omega

/-- Witness of `closed_runs_are_blocks`: on `seven_bin_run` with threshold 100
exactly one run is closed, with start 2, end 8, peak bin 5 and peak 240. -/
theorem closed_runs_are_blocks_witness :
    (closed_runs_with (ScannerAppView.fresh default_ranges) seven_bin_run 100).map
        (fun r => (r.start_bin, r.end_bin, r.peak_bin, r.peak_power)) = [(2, 8, 5, 240)] ∧
    (closed_runs_with (ScannerAppView.fresh default_ranges) seven_bin_run 100).Pairwise
      (fun r1 r2 => r1.end_bin < r2.start_bin) :=
  ⟨by decide,
    (closed_runs_are_blocks (ScannerAppView.fresh default_ranges) seven_bin_run 100 rfl).2.2⟩

/-! ## RunDetector: continuation of a pending run -/

theorem continues_of_above_zero (spectrum : ChannelSpectrum) (threshold : Int)
    (h : above spectrum threshold 0) : continues spectrum threshold = true := by
  unfold continues
  rw [List.any_eq_true]
  exact ⟨0, by simp, by simpa [above] using h⟩

theorem pending_head (s : ScannerAppView) (spectrum : ChannelSpectrum) (threshold : Int)
    (e : Nat) (hpend : s.signal_at_chunk_end = true)
    (habove : ∀ i, i ≤ e → above spectrum threshold i) :
    ∀ k, k ≤ e + 1 → ∃ pb, scan_upto s spectrum threshold k =
      { view := { s with signal_at_chunk_end := false }, signal_start_bin := 0,
        signal_end_bin := k - 1, in_signal := true,
        signal_peak_power := max s.chunk_end_peak_power (max_below spectrum k),
        signal_peak_bin := pb, closed := [] } := by
  intro k
  induction k with
  | zero =>
    intro _
    refine ⟨0, ?_⟩
    have hc := continues_of_above_zero spectrum threshold (habove 0 (Nat.zero_le _))
    simp [scan_upto, scan_begin, hpend, hc, max_below]
  | succ k ih =>
    intro hk
    obtain ⟨pb, hst⟩ := ih (by omega)
    rw [scan_upto_succ, hst]
    have hab := habove k (by omega)
    by_cases hp : spectrum.bin k > max s.chunk_end_peak_power (max_below spectrum k)
    · refine ⟨k, ?_⟩
      rw [scan_bin_higher _ _ _ _ hab rfl hp]
      have : max s.chunk_end_peak_power (max_below spectrum (k + 1)) = spectrum.bin k := by
        simp only [max_below]
        rw [← max_assoc]
        exact max_eq_right (le_of_lt hp)
      simp [this]
    · refine ⟨pb, ?_⟩
      rw [scan_bin_extend _ _ _ _ hab rfl hp]
      have : max s.chunk_end_peak_power (max_below spectrum (k + 1))
          = max s.chunk_end_peak_power (max_below spectrum k) := by
        simp only [max_below]
        rw [← max_assoc]
        exact max_eq_left (not_lt.mp hp)
      simp [this]

theorem pending_tail (spectrum : ChannelSpectrum) (threshold : Int) (e n : Nat) (r : DetectedRun)
    (st : BinScan) (hn : e + 2 ≤ n)
    (h : ∃ rest, st.closed = r :: rest ∧ (∀ x ∈ rest, e + 1 < x.start_bin) ∧
      (st.in_signal = true → e + 1 < st.signal_start_bin)) :
    ∃ rest, (scan_bin spectrum threshold st n).closed = r :: rest ∧
      (∀ x ∈ rest, e + 1 < x.start_bin) ∧
      ((scan_bin spectrum threshold st n).in_signal = true →
        e + 1 < (scan_bin spectrum threshold st n).signal_start_bin) := by
  obtain ⟨rest, h1, h2, h3⟩ := h
  by_cases hab : above spectrum threshold n
  · cases hin : st.in_signal with
    | false =>
      rw [scan_bin_start _ _ _ _ hab hin]
      exact ⟨rest, h1, h2, fun _ => (by dsimp only; omega)⟩
    | true =>
      by_cases hp : spectrum.bin n > st.signal_peak_power
      · rw [scan_bin_higher _ _ _ _ hab hin hp]
        exact ⟨rest, h1, h2, fun _ => h3 hin⟩
      · rw [scan_bin_extend _ _ _ _ hab hin hp]
        exact ⟨rest, h1, h2, fun _ => h3 hin⟩
  · cases hin : st.in_signal with
    | false =>
      rw [scan_bin_idle _ _ _ _ hab hin]
      exact ⟨rest, h1, h2, fun h => (by rw [hin] at h; cases h)⟩
    | true =>
      obtain ⟨e1, e2, _⟩ := end_of_signal_locals spectrum st
      rw [scan_bin_close _ _ _ _ hab hin]
      refine ⟨rest ++ [closing_run st], by rw [e1, h1]; rfl, fun x hx => ?_,
        fun h => (by rw [e2] at h; cases h)⟩
      rw [List.mem_append, List.mem_singleton] at hx
      rcases hx with hx | hx
      · exact h2 x hx
      · rw [hx]
        exact h3 hin

/-- C3: when a run is pending from the previous chunk, with start bin `p`
there and carried peak `m`, and bins `0..e` of the new chunk (`e < 255`) are
above the threshold while bin `e + 1` is not, the first run closed on the new
chunk starts at bin 0, ends at bin `e`, has width
`((e + 1) + (256 - p)) * 78125` Hz and peak magnitude the maximum of `m` and
bins `0..e`; every other run closed on the chunk starts after bin `e + 1`. -/
theorem pending_run_continues (s : ScannerAppView) (spectrum : ChannelSpectrum)
    (threshold : Int) (e : Nat)
    (hpend : s.signal_at_chunk_end = true)
    (hp : s.chunk_end_signal_start_bin < 256)
    (he : e < 255)
    (habove : ∀ i, i ≤ e → above spectrum threshold i)
    (hend : ¬ above spectrum threshold (e + 1)) :
    ∃ r rest, closed_runs_with s spectrum threshold = r :: rest ∧
      r.start_bin = 0 ∧ r.end_bin = e ∧
      r.signal_width = (((e : Int) + 1) + (256 - (s.chunk_end_signal_start_bin : Int))) * 78125 ∧
      r.peak_power = max s.chunk_end_peak_power (max_below spectrum (e + 1)) ∧
      ∀ x ∈ rest, e + 1 < x.start_bin := by
  obtain ⟨pb, hst⟩ := pending_head s spectrum threshold e hpend habove (e + 1) (le_refl _)
  have hclose : scan_upto s spectrum threshold (e + 2)
      = end_of_signal spectrum (scan_upto s spectrum threshold (e + 1)) := by
    rw [scan_upto_succ]
    exact scan_bin_close _ _ _ _ hend (by rw [hst])
  have htail : ∀ n, e + 2 ≤ n →
      ∃ rest, (scan_upto s spectrum threshold n).closed
          = closing_run (scan_upto s spectrum threshold (e + 1)) :: rest ∧
        (∀ x ∈ rest, e + 1 < x.start_bin) ∧
        ((scan_upto s spectrum threshold n).in_signal = true →
          e + 1 < (scan_upto s spectrum threshold n).signal_start_bin) := by
    intro n hn
    induction n, hn using Nat.le_induction with
    | base =>
      obtain ⟨e1, e2, _⟩ := end_of_signal_locals spectrum (scan_upto s spectrum threshold (e + 1))
      refine ⟨[], ?_, fun x hx => (by cases hx), fun h => ?_⟩
      · rw [hclose, e1, hst]
        rfl
      · rw [hclose, e2] at h
        cases h
    | succ n hn ih =>
      rw [scan_upto_succ]
      exact pending_tail spectrum threshold e n _ _ hn ih
  obtain ⟨rest, h1, h2, _⟩ := htail 256 (by omega)
  refine ⟨_, rest, h1, ?_, ?_, ?_, ?_, h2⟩
  · rw [hst]; rfl
  · rw [hst]; simp [closing_run]
  · rw [hst]
    simp only [closing_run, closing_width, bin_width, SPECTRUM_SLICE_WIDTH, SPECTRUM_BINS,
      if_true]
    norm_num
    push_cast [Nat.cast_sub (Nat.le_of_lt hp)]
    ring
  · rw [hst]; rfl

/-- Witness of `pending_run_continues`: a run pending from bin 250 with peak
220, continued by bins 0..5, is closed as one run from bin 0 to bin 5 of width
`12 * 78125 = 937500` Hz with peak 220. -/
theorem pending_run_continues_witness :
    (closed_runs_with pending_250 six_bin_head 100).map
        (fun r => (r.start_bin, r.end_bin, r.signal_width, r.peak_power))
      = [(0, 5, 937500, 220)] ∧
    ∃ r rest, closed_runs_with pending_250 six_bin_head 100 = r :: rest ∧
      r.start_bin = 0 ∧ r.end_bin = 5 ∧
      r.signal_width = (((5 : Nat) : Int) + 1 + (256 - ((250 : Nat) : Int))) * 78125 ∧
      r.peak_power = max 220 (max_below six_bin_head (5 + 1)) ∧
      ∀ x ∈ rest, 5 + 1 < x.start_bin :=
  ⟨by decide,
    pending_run_continues pending_250 six_bin_head 100 5 rfl (by decide) (by decide)
      (by unfold above; decide) (by unfold above; decide)⟩

/-! ## DomeClassifier: the seven-bin example -/

/-- C11 (as amended): on a spectrum whose bins 0..6 hold
50, 80, 150, 200, 150, 80, 50, `analyze_fm_dome_shape` with `start_bin = 0` and
`end_bin = 6` returns false: the run has `end_bin - start_bin = 6 < 10`.  The
four dome conditions fail on it as well, because the right quarter point is
bin `3 * 6 / 4 = 4`, which gives slopes 30 and 100. -/
theorem analyze_fm_dome_shape_seven_bins (spectrum : ChannelSpectrum)
    (h : (List.range 7).map spectrum.bin = [50, 80, 150, 200, 150, 80, 50]) :
    analyze_fm_dome_shape spectrum 0 6 = false ∧ ¬ DomeConditions spectrum 0 6 := by
  simp only [List.range, List.range.loop, List.map, List.cons.injEq, and_true] at h
  obtain ⟨h0, h1, _, _, h4, _, h6⟩ := h
  refine ⟨by simp [analyze_fm_dome_shape], ?_⟩
  simp only [DomeConditions]
  norm_num [h0, h1, h4, h6]

/-- Witness of `analyze_fm_dome_shape_seven_bins` on `seven_bin_dome`. -/
theorem analyze_fm_dome_shape_seven_bins_witness :
    analyze_fm_dome_shape seven_bin_dome 0 6 = false ∧ ¬ DomeConditions seven_bin_dome 0 6 :=
  analyze_fm_dome_shape_seven_bins seven_bin_dome (by decide)

/-- C11 (counterexample): on the specification's seven-bin example the
classifier does not return true. -/
theorem analyze_fm_dome_shape_example_rejected :
    (List.range 7).map seven_bin_dome.bin = [50, 80, 150, 200, 150, 80, 50] ∧
      ¬ analyze_fm_dome_shape seven_bin_dome 0 6 = true := by
  decide

/-! ## Configuration handlers: theorems -/

/-- C12: for a new value `v` of the number field (a width in MHz, so `0 ≤ v`),
the min-width handler leaves `min = v` and `min ≤ max`, and the max-width
handler leaves `max = v` and `min ≤ max`; the other bound is set to `v` exactly
when the update would otherwise break `min ≤ max`, and kept otherwise. -/
theorem width_handlers_keep_order (s : ScannerAppView) (v : Int) (hv : 0 ≤ v) :
    (((field_bw_min_on_change s v).min_signal_width_mhz : Int) = v ∧
      (field_bw_min_on_change s v).min_signal_width_mhz
        ≤ (field_bw_min_on_change s v).max_signal_width_mhz ∧
      ((field_bw_min_on_change s v).max_signal_width_mhz : Int)
        = if v > s.max_signal_width_mhz then v else s.max_signal_width_mhz) ∧
    (((field_bw_max_on_change s v).max_signal_width_mhz : Int) = v ∧
      (field_bw_max_on_change s v).min_signal_width_mhz
        ≤ (field_bw_max_on_change s v).max_signal_width_mhz ∧
      ((field_bw_max_on_change s v).min_signal_width_mhz : Int)
        = if v < s.min_signal_width_mhz then v else s.min_signal_width_mhz) := by
  have hc : ((v.toNat : Nat) : Int) = v := Int.toNat_of_nonneg hv
  constructor
  · simp only [field_bw_min_on_change]
    split_ifs with h1 h2 h2 <;> simp_all
  · simp only [field_bw_max_on_change]
    split_ifs with h1 h2 h2 <;> simp_all

/-- Witness of `width_handlers_keep_order`: from the defaults (4, 8), a new
minimum of 9 gives (9, 9) and a new maximum of 3 gives (3, 3). -/
theorem width_handlers_keep_order_witness :
    ((field_bw_min_on_change (ScannerAppView.fresh default_ranges) 9).min_signal_width_mhz = 9 ∧
      (field_bw_min_on_change (ScannerAppView.fresh default_ranges) 9).max_signal_width_mhz = 9 ∧
      (field_bw_max_on_change (ScannerAppView.fresh default_ranges) 3).min_signal_width_mhz = 3 ∧
      (field_bw_max_on_change (ScannerAppView.fresh default_ranges) 3).max_signal_width_mhz = 3) ∧
    (field_bw_min_on_change (ScannerAppView.fresh default_ranges) 9).min_signal_width_mhz
      ≤ (field_bw_min_on_change (ScannerAppView.fresh default_ranges) 9).max_signal_width_mhz :=
  ⟨by decide,
    (width_handlers_keep_order (ScannerAppView.fresh default_ranges) 9 (by decide)).1.2.1⟩

/-! ## Pause and resume: theorems -/

theorem on_channel_spectrum_ignored (s : ScannerAppView) (spectrum : ChannelSpectrum)
    (h : s.is_scanning = false ∨ s.is_paused = true) : on_channel_spectrum s spectrum = s := by
  simp only [on_channel_spectrum, if_pos h]

theorem foldl_on_channel_spectrum_ignored (s : ScannerAppView) (chunks : List ChannelSpectrum)
    (h : s.is_scanning = false ∨ s.is_paused = true) :
    chunks.foldl on_channel_spectrum s = s := by
  induction chunks with
  | nil => rfl
  | cons c cs ih => rw [List.foldl_cons, on_channel_spectrum_ignored s c h, ih]

/-- C18: pausing a scanning view, delivering any finite sequence of chunk
events and resuming gives back the view itself with the status
"Status: Scanning": every session field is as before and no command was
added, neither while paused nor by the resume.  A chunk event delivered to a
view that is not scanning (Idle or Stopped) changes nothing. -/
theorem pause_preserves_session (s : ScannerAppView) :
    (s.is_scanning = true → s.is_paused = false → ∀ chunks : List ChannelSpectrum,
      chunks.foldl on_channel_spectrum (pause_scanning s)
        = { s with is_paused := true, text_status := Status.paused } ∧
      resume_scanning (chunks.foldl on_channel_spectrum (pause_scanning s))
        = { s with text_status := Status.scanning }) ∧
    (s.is_scanning = false → ∀ spectrum, on_channel_spectrum s spectrum = s) := by
  refine ⟨fun hscan hpause chunks => ?_, fun hidle spectrum =>
    on_channel_spectrum_ignored s spectrum (Or.inl hidle)⟩
  have hp : pause_scanning s = { s with is_paused := true, text_status := Status.paused } := by
    simp [pause_scanning, hscan, hpause]
  rw [hp, foldl_on_channel_spectrum_ignored _ chunks (Or.inr rfl)]
  refine ⟨rfl, ?_⟩
  simp [resume_scanning, hscan]
  rw [← hpause]

/-- Witness of `pause_preserves_session`: a fresh scan of the default ranges,
paused over a dome chunk and a quiet chunk. -/
theorem pause_preserves_session_witness :
    [dome_chunk, quiet_chunk].foldl on_channel_spectrum (pause_scanning scanning_defaults)
        = { scanning_defaults with is_paused := true, text_status := Status.paused } ∧
      resume_scanning
          ([dome_chunk, quiet_chunk].foldl on_channel_spectrum (pause_scanning scanning_defaults))
        = { scanning_defaults with text_status := Status.scanning } :=
  (pause_preserves_session scanning_defaults).1 (by decide) (by decide) [dome_chunk, quiet_chunk]

/-! ## The alert status -/

/-- C20 (the code at the failing input): on the last chunk of the last enabled
range, with a dome in the chunk, the view records the threat, requests the
500 ms alert tone and stops; the status left behind is "Status: Stopped", not
the alert message "*** FPV DRONE 1 ***". -/
theorem alert_status_is_stopped :
    alert_event.threat_detected = true ∧ alert_event.dome_signals_count = 1 ∧
      alert_event.is_scanning = false ∧
      Command.request_audio_beep 1000 24000 500 ∈ alert_event.commands ∧
      alert_event.text_status = Status.stopped ∧
      alert_event.text_status ≠ Status.fpv_drone alert_event.dome_signals_count := by
  decide

/-! ## The width gate and the threat record: theorems -/

theorem end_of_signal_view (spectrum : ChannelSpectrum) (st : BinScan) :
    (end_of_signal spectrum st).view = consider_run spectrum st.view (closing_run st) := by
  rfl

theorem scan_begin_closed (s : ScannerAppView) (spectrum : ChannelSpectrum) (threshold : Int) :
    (scan_begin s spectrum threshold).closed = [] := by
  simp only [scan_begin]
  split_ifs <;> rfl

theorem scan_bin_cases (spectrum : ChannelSpectrum) (threshold : Int) (st : BinScan) (n : Nat) :
    ((scan_bin spectrum threshold st n).view = st.view ∧
      (scan_bin spectrum threshold st n).closed = st.closed) ∨
    (st.in_signal = true ∧ ¬ above spectrum threshold n ∧
      scan_bin spectrum threshold st n = end_of_signal spectrum st) := by
  by_cases hab : above spectrum threshold n
  · left
    cases hin : st.in_signal with
    | false => rw [scan_bin_start _ _ _ _ hab hin]; exact ⟨rfl, rfl⟩
    | true =>
      by_cases hp : spectrum.bin n > st.signal_peak_power
      · rw [scan_bin_higher _ _ _ _ hab hin hp]; exact ⟨rfl, rfl⟩
      · rw [scan_bin_extend _ _ _ _ hab hin hp]; exact ⟨rfl, rfl⟩
  · cases hin : st.in_signal with
    | false => left; rw [scan_bin_idle _ _ _ _ hab hin]; exact ⟨rfl, rfl⟩
    | true => right; exact ⟨rfl, hab, scan_bin_close _ _ _ _ hab hin⟩

theorem scan_upto_view (s : ScannerAppView) (spectrum : ChannelSpectrum) (threshold : Int)
    (n : Nat) :
    (scan_upto s spectrum threshold n).view
      = (scan_upto s spectrum threshold n).closed.foldl (consider_run spectrum)
          (scan_begin s spectrum threshold).view := by
  induction n with
  | zero =>
    have : scan_upto s spectrum threshold 0 = scan_begin s spectrum threshold := rfl
    rw [this, scan_begin_closed]
    rfl
  | succ n ih =>
    rw [scan_upto_succ]
    rcases scan_bin_cases spectrum threshold (scan_upto s spectrum threshold n) n with
      ⟨h1, h2⟩ | ⟨_, _, h⟩
    · rw [h1, h2]
      exact ih
    · rw [h, end_of_signal_view, (end_of_signal_locals _ _).1, List.foldl_append, ← ih]
      rfl

theorem consider_run_step (spectrum : ChannelSpectrum) (v : ScannerAppView) (r : DetectedRun) :
    (consider_run spectrum v r).min_signal_width_mhz = v.min_signal_width_mhz ∧
    (consider_run spectrum v r).max_signal_width_mhz = v.max_signal_width_mhz ∧
    (consider_run spectrum v r).dome_signals_count
      = v.dome_signals_count + (if is_dome_run spectrum v r then 1 else 0) ∧
    (consider_run spectrum v r).commands
      = v.commands ++ (if is_dome_run spectrum v r
          then [Command.request_audio_beep 1000 24000 200] else []) ∧
    (consider_run spectrum v r).threat_detected
      = (v.threat_detected || is_dome_run spectrum v r) ∧
    v.widest_signal_width ≤ (consider_run spectrum v r).widest_signal_width ∧
    (min_width_hz v ≤ r.signal_width → r.signal_width ≤ max_width_hz v →
      r.signal_width ≤ (consider_run spectrum v r).widest_signal_width) ∧
    (r.signal_width < min_width_hz v ∨ r.signal_width > max_width_hz v →
      consider_run spectrum v r = v) := by
  by_cases hb : r.signal_width ≥ min_width_hz v ∧ r.signal_width ≤ max_width_hz v
  · have hb' : min_width_hz v ≤ r.signal_width ∧ r.signal_width ≤ max_width_hz v := hb
    by_cases hw : r.signal_width > v.widest_signal_width <;>
    rcases Bool.eq_false_or_eq_true (analyze_fm_dome_shape spectrum r.start_bin r.end_bin)
      with hd | hd <;>
    simp [consider_run, is_dome_run, on_signal_found, play_alert_tone, hb, hb', hw, hd] <;>
    omega
  · have hb' : ¬ (min_width_hz v ≤ r.signal_width ∧ r.signal_width ≤ max_width_hz v) := hb
    simp [consider_run, is_dome_run, on_signal_found, play_alert_tone, hb, hb']
    intro h1 h2
    exact absurd ⟨h1, h2⟩ hb'

theorem is_dome_run_congr (spectrum : ChannelSpectrum) (a b : ScannerAppView)
    (h1 : a.min_signal_width_mhz = b.min_signal_width_mhz)
    (h2 : a.max_signal_width_mhz = b.max_signal_width_mhz) :
    is_dome_run spectrum a = is_dome_run spectrum b := by
  funext r
  simp only [is_dome_run, min_width_hz, max_width_hz, h1, h2]

theorem consider_runs_fold (spectrum : ChannelSpectrum) (l : List DetectedRun) :
    ∀ v : ScannerAppView,
      (l.foldl (consider_run spectrum) v).min_signal_width_mhz = v.min_signal_width_mhz ∧
      (l.foldl (consider_run spectrum) v).max_signal_width_mhz = v.max_signal_width_mhz ∧
      (l.foldl (consider_run spectrum) v).dome_signals_count
        = v.dome_signals_count + l.countP (is_dome_run spectrum v) ∧
      (l.foldl (consider_run spectrum) v).commands
        = v.commands ++ List.replicate (l.countP (is_dome_run spectrum v))
            (Command.request_audio_beep 1000 24000 200) ∧
      ((l.foldl (consider_run spectrum) v).threat_detected = true ↔
        v.threat_detected = true ∨ 0 < l.countP (is_dome_run spectrum v)) ∧
      v.widest_signal_width ≤ (l.foldl (consider_run spectrum) v).widest_signal_width ∧
      (∀ r ∈ l, min_width_hz v ≤ r.signal_width → r.signal_width ≤ max_width_hz v →
        r.signal_width ≤ (l.foldl (consider_run spectrum) v).widest_signal_width) ∧
      ((∀ r ∈ l, r.signal_width < min_width_hz v ∨ r.signal_width > max_width_hz v) →
        l.foldl (consider_run spectrum) v = v) := by
  induction l with
  | nil =>
    intro v
    simp
  | cons r rest ih =>
    intro v
    obtain ⟨s1, s2, s3, s4, s5, s6, s7, s8⟩ := consider_run_step spectrum v r
    obtain ⟨i1, i2, i3, i4, i5, i6, i7, i8⟩ := ih (consider_run spectrum v r)
    have hc := is_dome_run_congr spectrum (consider_run spectrum v r) v s1 s2
    have hmin : min_width_hz (consider_run spectrum v r) = min_width_hz v := by
      simp only [min_width_hz, s1]
    have hmax : max_width_hz (consider_run spectrum v r) = max_width_hz v := by
      simp only [max_width_hz, s2]
    rw [hc] at i3 i4 i5
    rw [hmin, hmax] at i7 i8
    rw [List.foldl_cons, List.countP_cons]
    refine ⟨by rw [i1, s1], by rw [i2, s2], ?_, ?_, ?_, le_trans s6 i6, ?_, ?_⟩
    · rw [i3, s3]; omega
    · rw [i4, s4]
      cases hd : is_dome_run spectrum v r
      · simp
      · simp [List.replicate_succ, List.replicate_add]
    · rw [i5, s5]
      cases hd : is_dome_run spectrum v r <;> simp
    · intro x hx h1 h2
      rw [List.mem_cons] at hx
      rcases hx with hx | hx
      · rw [hx]
        exact le_trans (s7 (by rw [← hx]; exact h1) (by rw [← hx]; exact h2)) i6
      · exact i7 x hx h1 h2
    · intro hall
      rw [s8 (hall r (List.mem_cons_self _ _))] at i8 ⊢
      exact i8 fun x hx => hall x (List.mem_cons_of_mem _ hx)

theorem scan_begin_view (s : ScannerAppView) (spectrum : ChannelSpectrum) (threshold : Int) :
    (scan_begin s spectrum threshold).view = { s with signal_at_chunk_end := false } := by
  simp only [scan_begin]
  cases hp : s.signal_at_chunk_end with
  | false =>
    simp only [Bool.false_eq_true, if_false]
    rw [← hp]
  | true =>
    simp only [if_true]
    split_ifs <;> rfl

theorem scan_end_record (st : BinScan) :
    (scan_end st).widest_signal_width = st.view.widest_signal_width ∧
    (scan_end st).widest_signal_freq = st.view.widest_signal_freq ∧
    (scan_end st).widest_signal_rssi = st.view.widest_signal_rssi ∧
    (scan_end st).dome_signals_count = st.view.dome_signals_count ∧
    (scan_end st).threat_detected = st.view.threat_detected ∧
    (scan_end st).commands = st.view.commands ∧
    (scan_end st).text_status = st.view.text_status := by
  simp only [scan_end]
  split_ifs <;> simp

theorem process_spectrum_bins_fold (s : ScannerAppView) (spectrum : ChannelSpectrum) :
    (scan_upto s spectrum (threshold_raw s.squelch_threshold) SPECTRUM_BINS).view
      = (closed_runs s spectrum).foldl (consider_run spectrum)
          { s with signal_at_chunk_end := false } := by
  rw [scan_upto_view, scan_begin_view]
  rfl

/-- C13: a closed run is considered exactly when its width lies in
`[min_width_hz, max_width_hz]`, both bounds included: after the chunk the
widest-signal record is at least as wide as every closed run within the
bounds, and when every closed run is narrower than `min_width_hz` or wider than
`max_width_hz` the widest-signal record, `dome_signals_count`,
`threat_detected`, the status and the commands (no alert tone) are unchanged. -/
theorem width_gate (s : ScannerAppView) (spectrum : ChannelSpectrum) :
    (∀ r ∈ closed_runs s spectrum,
      min_width_hz s ≤ r.signal_width → r.signal_width ≤ max_width_hz s →
        r.signal_width ≤ (process_spectrum_bins s spectrum).widest_signal_width) ∧
    ((∀ r ∈ closed_runs s spectrum,
        r.signal_width < min_width_hz s ∨ r.signal_width > max_width_hz s) →
      (process_spectrum_bins s spectrum).widest_signal_width = s.widest_signal_width ∧
      (process_spectrum_bins s spectrum).widest_signal_freq = s.widest_signal_freq ∧
      (process_spectrum_bins s spectrum).widest_signal_rssi = s.widest_signal_rssi ∧
      (process_spectrum_bins s spectrum).dome_signals_count = s.dome_signals_count ∧
      (process_spectrum_bins s spectrum).threat_detected = s.threat_detected ∧
      (process_spectrum_bins s spectrum).text_status = s.text_status ∧
      (process_spectrum_bins s spectrum).commands = s.commands) := by
  obtain ⟨e1, e2, e3, e4, e5, e6, e7⟩ :=
    scan_end_record (scan_upto s spectrum (threshold_raw s.squelch_threshold) SPECTRUM_BINS)
  have hfold := process_spectrum_bins_fold s spectrum
  obtain ⟨_, _, _, _, _, _, f7, f8⟩ :=
    consider_runs_fold spectrum (closed_runs s spectrum) { s with signal_at_chunk_end := false }
  have hp : ∀ x, process_spectrum_bins s spectrum = x ↔
      scan_end (scan_upto s spectrum (threshold_raw s.squelch_threshold) SPECTRUM_BINS) = x :=
    fun _ => Iff.rfl
  constructor
  · intro r hr h1 h2
    show r.signal_width ≤ (scan_end _).widest_signal_width
    rw [e1, hfold]
    exact f7 r hr h1 h2
  · intro hall
    have hv := f8 hall
    rw [← hfold] at hv
    refine ⟨?_, ?_, ?_, ?_, ?_, ?_, ?_⟩
    · show (scan_end _).widest_signal_width = _
      rw [e1, hv]
    · show (scan_end _).widest_signal_freq = _
      rw [e2, hv]
    · show (scan_end _).widest_signal_rssi = _
      rw [e3, hv]
    · show (scan_end _).dome_signals_count = _
      rw [e4, hv]
    · show (scan_end _).threat_detected = _
      rw [e5, hv]
    · show (scan_end _).text_status = _
      rw [e7, hv]
    · show (scan_end _).commands = _
      rw [e6, hv]

/-- Witness of `width_gate`: with `min = 5` MHz the 64-bin run of `dome_chunk`
(exactly 5000000 Hz) is considered and becomes the widest signal, while the
7-bin run of `seven_bin_run` (546875 Hz) leaves the record untouched. -/
theorem width_gate_witness :
    (closed_runs min_five dome_chunk).map (fun r => (r.start_bin, r.end_bin, r.signal_width))
        = [(10, 73, 5000000)] ∧
      (process_spectrum_bins min_five dome_chunk).widest_signal_width = 5000000 ∧
      (process_spectrum_bins min_five dome_chunk).dome_signals_count = 1 ∧
      (5000000 : Int) ≤ (process_spectrum_bins min_five dome_chunk).widest_signal_width ∧
      (process_spectrum_bins min_five seven_bin_run).widest_signal_width = 0 ∧
      (process_spectrum_bins min_five seven_bin_run).commands = [] :=
  have h := (width_gate min_five seven_bin_run).2 (by decide)
  ⟨by decide, by decide, by decide,
    (width_gate min_five dome_chunk).1
      ⟨10, 73, 41, 200, 5000000, -6796875, raw_to_dbm 200⟩ (by decide) (by decide) (by decide),
    h.1, h.2.2.2.2.2.2⟩

/-! ## Runs in the presence of a pending run: theorems -/

theorem consider_run_pending_fields (spectrum : ChannelSpectrum) (v : ScannerAppView)
    (r : DetectedRun) :
    (consider_run spectrum v r).chunk_end_signal_start_bin = v.chunk_end_signal_start_bin ∧
    (consider_run spectrum v r).chunk_end_peak_power = v.chunk_end_peak_power ∧
    (consider_run spectrum v r).pending_signal_freq = v.pending_signal_freq ∧
    (consider_run spectrum v r).signal_at_chunk_end = v.signal_at_chunk_end := by
  simp only [consider_run, on_signal_found, play_alert_tone]
  split_ifs <;> simp

theorem scan_upto_pending_fields (s : ScannerAppView) (spectrum : ChannelSpectrum)
    (threshold : Int) (n : Nat) :
    (scan_upto s spectrum threshold n).view.chunk_end_signal_start_bin
        = s.chunk_end_signal_start_bin ∧
    (scan_upto s spectrum threshold n).view.chunk_end_peak_power = s.chunk_end_peak_power ∧
    (scan_upto s spectrum threshold n).view.pending_signal_freq = s.pending_signal_freq := by
  induction n with
  | zero =>
    have : scan_upto s spectrum threshold 0 = scan_begin s spectrum threshold := rfl
    rw [this, scan_begin_view]
    exact ⟨rfl, rfl, rfl⟩
  | succ n ih =>
    rw [scan_upto_succ]
    rcases scan_bin_cases spectrum threshold (scan_upto s spectrum threshold n) n with
      ⟨h1, _⟩ | ⟨_, _, h⟩
    · rw [h1]
      exact ih
    · obtain ⟨c1, c2, c3, _⟩ := consider_run_pending_fields spectrum
        (scan_upto s spectrum threshold n).view (closing_run (scan_upto s spectrum threshold n))
      rw [h, end_of_signal_view, c1, c2, c3]
      exact ih

theorem RunInv.at_start (s : ScannerAppView) (spectrum : ChannelSpectrum) (threshold : Int) :
    RunInv s spectrum threshold 0 (scan_begin s spectrum threshold) := by
  refine ⟨fun r hr => ?_, fun hin => ?_⟩
  · rw [scan_begin_closed] at hr
    cases hr
  · simp only [scan_begin] at hin ⊢
    cases hp : s.signal_at_chunk_end with
    | false =>
      rw [hp] at hin
      simp at hin
    | true =>
      rw [hp] at hin
      cases hc : continues spectrum threshold with
      | false =>
        rw [hc] at hin
        simp at hin
      | true => simp

theorem RunInv.next {s : ScannerAppView} {spectrum : ChannelSpectrum} {threshold : Int}
    {n : Nat} {st : BinScan} (inv : RunInv s spectrum threshold n st) :
    RunInv s spectrum threshold (n + 1) (scan_bin spectrum threshold st n) := by
  have hmono : ∀ r ∈ st.closed, r.start_bin ≤ r.end_bin ∧ r.end_bin < n + 1 ∧
      ((∀ i, r.start_bin ≤ i → i ≤ r.end_bin → above spectrum threshold i) ∨
        (s.signal_at_chunk_end = true ∧ continues spectrum threshold = true ∧
          ¬ above spectrum threshold 0 ∧ r.start_bin = 0 ∧ r.end_bin = 0)) := by
    intro r hr
    obtain ⟨h1, h2, h3⟩ := inv.closed_ok r hr
    exact ⟨h1, by omega, h3⟩
  by_cases hab : above spectrum threshold n
  · cases hin : st.in_signal with
    | false =>
      rw [scan_bin_start _ _ _ _ hab hin]
      refine ⟨hmono, fun _ => ?_⟩
      dsimp only
      refine ⟨le_refl _, Or.inr ⟨rfl, fun i h1 h2 => ?_⟩⟩
      have : i = n := Nat.le_antisymm h2 h1
      rw [this]
      exact hab
    | true =>
      obtain ⟨o1, o2⟩ := inv.open_ok hin
      have hopen : st.signal_start_bin ≤ n ∧
          ∀ i, st.signal_start_bin ≤ i → i ≤ n → above spectrum threshold i := by
        rcases o2 with ⟨hn, hs, _, _, _⟩ | ⟨he, hall⟩
        · refine ⟨by omega, fun i _ h2 => ?_⟩
          have : i = n := by omega
          rw [this]
          exact hab
        · refine ⟨by omega, fun i h1 h2 => ?_⟩
          by_cases hi : i = n
          · rw [hi]
            exact hab
          · exact hall i h1 (by omega)
      by_cases hp : spectrum.bin n > st.signal_peak_power
      · rw [scan_bin_higher _ _ _ _ hab hin hp]
        exact ⟨hmono, fun _ => ⟨hopen.1, Or.inr ⟨rfl, hopen.2⟩⟩⟩
      · rw [scan_bin_extend _ _ _ _ hab hin hp]
        exact ⟨hmono, fun _ => ⟨hopen.1, Or.inr ⟨rfl, hopen.2⟩⟩⟩
  · cases hin : st.in_signal with
    | false =>
      rw [scan_bin_idle _ _ _ _ hab hin]
      exact ⟨hmono, fun h => (by rw [hin] at h; cases h)⟩
    | true =>
      obtain ⟨o1, o2⟩ := inv.open_ok hin
      obtain ⟨e1, e2, _⟩ := end_of_signal_locals spectrum st
      rw [scan_bin_close _ _ _ _ hab hin]
      refine ⟨fun r hr => ?_, fun h => (by rw [e2] at h; cases h)⟩
      rw [e1, List.mem_append, List.mem_singleton] at hr
      rcases hr with hr | hr
      · exact hmono r hr
      · rw [hr]
        refine ⟨o1, ?_, ?_⟩
        · show st.signal_end_bin < n + 1
          rcases o2 with ⟨hn, _, he, _, _⟩ | ⟨he, _⟩ <;> omega
        · rcases o2 with ⟨hn, hs, he, hpend, hcont⟩ | ⟨_, hall⟩
          · right
            rw [hn] at hab
            exact ⟨hpend, hcont, hab, hs, he⟩
          · left
            exact hall

theorem RunInv.after (s : ScannerAppView) (spectrum : ChannelSpectrum) (threshold : Int)
    (n : Nat) : RunInv s spectrum threshold n (scan_upto s spectrum threshold n) := by
  induction n with
  | zero => exact RunInv.at_start s spectrum threshold
  | succ n ih =>
    rw [scan_upto_succ]
    exact ih.next

theorem closed_width (s : ScannerAppView) (spectrum : ChannelSpectrum) (threshold : Int)
    (n : Nat) :
    ∀ r ∈ (scan_upto s spectrum threshold n).closed,
      r.signal_width = ((r.end_bin - r.start_bin + 1 : Nat) : Int) * bin_width
        + (if r.start_bin = 0
            then ((SPECTRUM_BINS - s.chunk_end_signal_start_bin : Nat) : Int) * bin_width
            else 0) := by
  induction n with
  | zero =>
    intro r hr
    have : scan_upto s spectrum threshold 0 = scan_begin s spectrum threshold := rfl
    rw [this, scan_begin_closed] at hr
    cases hr
  | succ n ih =>
    intro r hr
    rw [scan_upto_succ] at hr
    rcases scan_bin_cases spectrum threshold (scan_upto s spectrum threshold n) n with
      ⟨_, h2⟩ | ⟨_, _, h⟩
    · rw [h2] at hr
      exact ih r hr
    · rw [h, (end_of_signal_locals _ _).1, List.mem_append, List.mem_singleton] at hr
      rcases hr with hr | hr
      · exact ih r hr
      · rw [hr]
        simp only [closing_run, closing_width,
          (scan_upto_pending_fields s spectrum threshold n).1]
        split_ifs <;> simp

theorem in_signal_iff_above (s : ScannerAppView) (spectrum : ChannelSpectrum) (threshold : Int)
    (n : Nat) :
    (scan_upto s spectrum threshold (n + 1)).in_signal = true ↔ above spectrum threshold n := by
  rw [scan_upto_succ]
  by_cases hab : above spectrum threshold n
  · cases hin : (scan_upto s spectrum threshold n).in_signal with
    | false => rw [scan_bin_start _ _ _ _ hab hin]; simp [hab]
    | true =>
      by_cases hp : spectrum.bin n > (scan_upto s spectrum threshold n).signal_peak_power
      · rw [scan_bin_higher _ _ _ _ hab hin hp]; simp [hab, hin]
      · rw [scan_bin_extend _ _ _ _ hab hin hp]; simp [hab, hin]
  · cases hin : (scan_upto s spectrum threshold n).in_signal with
    | false => rw [scan_bin_idle _ _ _ _ hab hin]; simp [hab, hin]
    | true => rw [scan_bin_close _ _ _ _ hab hin, (end_of_signal_locals _ _).2.1]; simp [hab]

/-- C15 (counterexample): in a fresh scan of the default ranges (maximum 8 MHz),
the run on bins 1..255 of `wide_tail` is open at the end of the chunk with
19921875 Hz accumulated, more than `max_width_hz`, and is still marked as
pending. -/
theorem wide_open_run_kept :
    (open_run scanning_defaults wide_tail
      (threshold_raw scanning_defaults.squelch_threshold)).in_signal = true ∧
    (open_run scanning_defaults wide_tail
      (threshold_raw scanning_defaults.squelch_threshold)).signal_start_bin = 1 ∧
    (open_run scanning_defaults wide_tail
      (threshold_raw scanning_defaults.squelch_threshold)).signal_end_bin = 255 ∧
    ((255 - 1 + 1 : Int) * 78125 > max_width_hz scanning_defaults) ∧
    (process_spectrum_bins scanning_defaults wide_tail).signal_at_chunk_end = true := by
  decide

/-- C16 (as amended): the estimated previous-chunk contribution
`(256 - chunk_end_signal_start_bin) * 78125` Hz is added to every closed run
that starts at bin 0, whether or not a run was pending from the previous
chunk: a closed run from bin 0 to bin `e` has width
`((e + 1) + (256 - chunk_end_signal_start_bin)) * 78125` Hz, with the start bin
last recorded (0 on a fresh view, which adds 20 MHz), and a closed run that
starts at another bin has width `(end_bin - start_bin + 1) * 78125` Hz. -/
theorem closed_run_width (s : ScannerAppView) (spectrum : ChannelSpectrum) (threshold : Int)
    (hp : s.chunk_end_signal_start_bin < 256) :
    ∀ r ∈ closed_runs_with s spectrum threshold, r.start_bin ≤ r.end_bin ∧
      (r.start_bin = 0 → r.signal_width
        = ((r.end_bin : Int) + 1 + (256 - (s.chunk_end_signal_start_bin : Int))) * 78125) ∧
      (r.start_bin ≠ 0 → r.signal_width
        = ((r.end_bin : Int) - (r.start_bin : Int) + 1) * 78125) := by
  intro r hr
  have hle := ((RunInv.after s spectrum threshold 256).closed_ok r hr).1
  have hw := closed_width s spectrum threshold 256 r hr
  simp only [bin_width, SPECTRUM_SLICE_WIDTH, SPECTRUM_BINS] at hw
  refine ⟨hle, fun h0 => ?_, fun h0 => ?_⟩
  · rw [hw, if_pos h0, h0]
    norm_num
    push_cast [Nat.cast_sub (Nat.le_of_lt hp)]
    ring
  · rw [hw, if_neg h0]
    norm_num
    push_cast [Nat.cast_sub hle]
    rfl

/-- Witness of `closed_run_width`: on a fresh view (no run pending, recorded
start bin 0) the run on bins 0..5 of `six_bin_head` is closed with width
`(6 + 256) * 78125 = 20468750` Hz. -/
theorem closed_run_width_witness :
    (0 : Nat) ≤ 5 ∧
      ((0 : Nat) = 0 → (20468750 : Int)
        = (((5 : Nat) : Int) + 1 + (256 - ((0 : Nat) : Int))) * 78125) ∧
      ((0 : Nat) ≠ 0 → (20468750 : Int) = (((5 : Nat) : Int) - ((0 : Nat) : Int) + 1) * 78125) :=
  closed_run_width (ScannerAppView.fresh default_ranges) six_bin_head 100 (by decide)
    ⟨0, 5, 2, 215, 20468750, -9843750, raw_to_dbm 215⟩ (by decide)

/-- C16 (counterexample): in a fresh scan of the default ranges, with no run
pending, the run on bins 0..5 of `six_bin_head` is closed with width
20468750 Hz, not `(5 + 1) * 78125`. -/
theorem bin_zero_run_widened :
    scanning_defaults.signal_at_chunk_end = false ∧
    (closed_runs scanning_defaults six_bin_head).map
        (fun r => (r.start_bin, r.end_bin, r.signal_width)) = [(0, 5, 20468750)] ∧
    (20468750 : Int) ≠ (5 + 1) * 78125 := by
  decide

/-- C17 (as amended): every bin in the span of every closed run is above the
raw threshold, except for one run: when a pending run is continued by the
probe of the first 10 bins although bin 0 itself is at or below the threshold,
the loop closes the one-bin span `[0, 0]` at bin 0. -/
theorem closed_run_bins_above (s : ScannerAppView) (spectrum : ChannelSpectrum)
    (threshold : Int) :
    ∀ r ∈ closed_runs_with s spectrum threshold,
      (∀ i, r.start_bin ≤ i → i ≤ r.end_bin → above spectrum threshold i) ∨
      (s.signal_at_chunk_end = true ∧ continues spectrum threshold = true ∧
        ¬ above spectrum threshold 0 ∧ r.start_bin = 0 ∧ r.end_bin = 0) :=
  fun r hr => ((RunInv.after s spectrum threshold 256).closed_ok r hr).2.2

/-- Witness of `closed_run_bins_above`: the run on bin 3 of `late_head`, closed
after a continued pending run. -/
theorem closed_run_bins_above_witness :
    (∀ i, 3 ≤ i → i ≤ 3 → above late_head 100 i) ∨
      (pending_250.signal_at_chunk_end = true ∧ continues late_head 100 = true ∧
        ¬ above late_head 100 0 ∧ 3 = 0 ∧ 3 = 0) :=
  closed_run_bins_above pending_250 late_head 100
    ⟨3, 3, 3, 200, 78125, -9765625, raw_to_dbm 200⟩ (by decide)

/-- C17 (counterexample): `restart_source` holds a pending run; on the chunk
`late_head`, whose bin 3 is above the threshold, the first run closed is the
span `[0, 0]`, whose only bin holds 0 and is not above the threshold. -/
theorem bin_zero_run_below_threshold :
    restart_source.signal_at_chunk_end = true ∧
    (closed_runs restart_source late_head).map (fun r => (r.start_bin, r.end_bin))
        = [(0, 0), (3, 3)] ∧
    late_head.bin 0 = 0 ∧
    ¬ above late_head (threshold_raw restart_source.squelch_threshold) 0 := by
  refine ⟨by decide, by decide, by decide, ?_⟩
  unfold above
  decide

/-! ## Restart: theorems -/

theorem scan_begin_history (pre : List Command) (s : ScannerAppView)
    (spectrum : ChannelSpectrum) (threshold : Int) :
    scan_begin (with_history pre s) spectrum threshold
      = (scan_begin s spectrum threshold).with_history pre := by
  simp only [scan_begin, with_history, BinScan.with_history]
  split_ifs <;> rfl

theorem scan_bin_history (pre : List Command) (spectrum : ChannelSpectrum) (threshold : Int)
    (st : BinScan) (n : Nat) :
    scan_bin spectrum threshold (st.with_history pre) n
      = (scan_bin spectrum threshold st n).with_history pre := by
  simp only [scan_bin, end_of_signal, closing_run, closing_width, closing_freq, on_signal_found,
    play_alert_tone, with_history, BinScan.with_history]
  split_ifs <;> simp [List.append_assoc]

theorem scan_fold_history (pre : List Command) (spectrum : ChannelSpectrum) (threshold : Int)
    (l : List Nat) :
    ∀ st : BinScan, l.foldl (scan_bin spectrum threshold) (st.with_history pre)
      = (l.foldl (scan_bin spectrum threshold) st).with_history pre := by
  induction l with
  | nil => intro st; rfl
  | cons n rest ih =>
    intro st
    rw [List.foldl_cons, List.foldl_cons, scan_bin_history, ih]

theorem scan_end_history (pre : List Command) (st : BinScan) :
    scan_end (st.with_history pre) = with_history pre (scan_end st) := by
  simp only [scan_end, with_history, BinScan.with_history, closing_freq]
  split_ifs <;> rfl

theorem process_spectrum_bins_history (pre : List Command) (s : ScannerAppView)
    (spectrum : ChannelSpectrum) :
    process_spectrum_bins (with_history pre s) spectrum
      = with_history pre (process_spectrum_bins s spectrum) := by
  have hsq : (with_history pre s).squelch_threshold = s.squelch_threshold := rfl
  simp only [process_spectrum_bins, process_bins_with, scan_upto, hsq]
  rw [scan_begin_history, scan_fold_history, scan_end_history]

theorem closed_runs_history (pre : List Command) (s : ScannerAppView)
    (spectrum : ChannelSpectrum) :
    closed_runs (with_history pre s) spectrum = closed_runs s spectrum := by
  have hsq : (with_history pre s).squelch_threshold = s.squelch_threshold := rfl
  simp only [closed_runs, closed_runs_with, scan_upto, hsq]
  rw [scan_begin_history, scan_fold_history]
  rfl

theorem move_to_next_range_history (pre : List Command) (s : ScannerAppView) :
    move_to_next_range (with_history pre s) = with_history pre (move_to_next_range s) := by
  simp only [move_to_next_range, with_history, stop_scanning, calculate_chunk_count,
    tune_to_chunk_center, spectrum_streaming_start]
  repeat' split
  all_goals simp_all [List.append_assoc]

theorem scan_next_chunk_history (pre : List Command) (s : ScannerAppView) :
    scan_next_chunk (with_history pre s) = with_history pre (scan_next_chunk s) := by
  cases hcur : s.scan_ranges[s.current_range_index]? with
  | none =>
    have hcur' : (with_history pre s).scan_ranges[(with_history pre s).current_range_index]?
        = none := hcur
    simp only [scan_next_chunk, hcur, hcur']
  | some range =>
    have hcur' : (with_history pre s).scan_ranges[(with_history pre s).current_range_index]?
        = some range := hcur
    by_cases hex : range_exhausted s range
    · have hex' : range_exhausted (with_history pre s) range := hex
      by_cases h1 : s.total_chunks_in_range ≤ s.current_chunk_in_range + 1
      · have h1' : (with_history pre s).total_chunks_in_range
            ≤ (with_history pre s).current_chunk_in_range + 1 := h1
        have e1 : scan_next_chunk s = move_to_next_range
            { s with current_chunk_in_range := s.current_chunk_in_range + 1 } := by
          simp only [scan_next_chunk, hcur, ge_iff_le, h1, if_true]
        have e2 : scan_next_chunk (with_history pre s) = move_to_next_range
            (with_history pre
              { s with current_chunk_in_range := s.current_chunk_in_range + 1 }) := by
          simp only [scan_next_chunk, hcur', ge_iff_le, h1', if_true]
          rfl
        rw [e1, e2, move_to_next_range_history]
      · have h1' : ¬ (with_history pre s).total_chunks_in_range
            ≤ (with_history pre s).current_chunk_in_range + 1 := h1
        have h2 : range.start + 10000000
            + (((s.current_chunk_in_range + 1) * 20000000 % 2 ^ 32 : Nat) : Int) - 10000000
            > range.end_ := by
          rcases hex with h | h
          · exact absurd h h1
          · exact h
        have e1 : scan_next_chunk s = move_to_next_range
            { s with current_chunk_in_range := s.current_chunk_in_range + 1
                     current_chunk_center := range.start + 10000000
                       + (((s.current_chunk_in_range + 1) * 20000000 % 2 ^ 32 : Nat) : Int) } := by
          simp only [scan_next_chunk, hcur, SPECTRUM_SLICE_WIDTH, ge_iff_le, h1, if_false]
          norm_num only [] at h2 ⊢
          rw [if_pos (by push_cast at h2 ⊢; omega)]
        have e2 : scan_next_chunk (with_history pre s) = move_to_next_range
            (with_history pre
              { s with current_chunk_in_range := s.current_chunk_in_range + 1
                       current_chunk_center := range.start + 10000000
                         + (((s.current_chunk_in_range + 1) * 20000000 % 2 ^ 32 : Nat) : Int) }) := by
          have h2' : range.start + 10000000
              + ((((with_history pre s).current_chunk_in_range + 1) * 20000000 % 2 ^ 32 : Nat)
                  : Int) - 10000000 > range.end_ := h2
          simp only [scan_next_chunk, hcur', SPECTRUM_SLICE_WIDTH, ge_iff_le, h1', if_false]
          norm_num only [] at h2' ⊢
          rw [if_pos (by push_cast at h2' ⊢; omega)]
          rfl
        rw [e1, e2, move_to_next_range_history]
    · have hex' : ¬ range_exhausted (with_history pre s) range := hex
      rw [scan_next_chunk_within _ range hcur hex, scan_next_chunk_within _ range hcur' hex']
      simp [with_history, List.append_assoc]

theorem on_channel_spectrum_history (pre : List Command) (s : ScannerAppView)
    (spectrum : ChannelSpectrum) :
    on_channel_spectrum (with_history pre s) spectrum
      = with_history pre (on_channel_spectrum s spectrum) := by
  by_cases h : s.is_scanning = false ∨ s.is_paused = true
  · have h' : (with_history pre s).is_scanning = false ∨ (with_history pre s).is_paused = true :=
      h
    rw [on_channel_spectrum_ignored _ _ h', on_channel_spectrum_ignored _ _ h]
  · have hscan : s.is_scanning = true := by
      cases hs : s.is_scanning with
      | false => exact absurd (Or.inl hs) h
      | true => rfl
    have hpause : s.is_paused = false := by
      cases hs : s.is_paused with
      | false => rfl
      | true => exact absurd (Or.inr hs) h
    rw [on_channel_spectrum_scanning s spectrum hscan hpause,
      on_channel_spectrum_scanning (with_history pre s) spectrum hscan hpause]
    have hc : after_analysis (with_history pre s) spectrum
        = with_history pre (after_analysis s spectrum) := by
      unfold after_analysis
      rw [← process_spectrum_bins_history]
      congr 1
      simp [with_history, List.append_assoc]
    rw [hc, scan_next_chunk_history]

theorem events_history (pre : List Command) (chunks : List ChannelSpectrum) :
    ∀ s : ScannerAppView, chunks.foldl on_channel_spectrum (with_history pre s)
      = with_history pre (chunks.foldl on_channel_spectrum s) := by
  induction chunks with
  | nil => intro s; rfl
  | cons c rest ih =>
    intro s
    rw [List.foldl_cons, List.foldl_cons, on_channel_spectrum_history, ih]

/-- C19 (as amended): `stop_scanning` on a scanning or paused view clears
`is_scanning` and `is_paused`, issues the stop-streaming command (and disables
the receiver) and leaves every session field as it is.  When a range is
enabled, `start_scanning` after it resets the session except for the recorded
cross-chunk values `chunk_end_signal_start_bin`, `chunk_end_peak_power` and
`pending_signal_freq`: on every sequence of chunk events the restarted view
passes through the same states, apart from the earlier command history, as a
never-started view with the same ranges, the same configuration and those
three recorded values, and closes the same runs with the same widths. -/
theorem restart_after_stop (s : ScannerAppView) (hscan : s.is_scanning = true)
    (hen : ∃ r ∈ s.scan_ranges, r.enabled = true) :
    stop_scanning s =
      { s with is_scanning := false
               is_paused := false
               commands := s.commands
                 ++ [Command.spectrum_streaming_stop, Command.receiver_disable]
               text_status := Status.stopped } ∧
    (∀ chunks : List ChannelSpectrum,
      chunks.foldl on_channel_spectrum (start_scanning (stop_scanning s))
        = with_history (s.commands ++ [Command.spectrum_streaming_stop, Command.receiver_disable])
            (chunks.foldl on_channel_spectrum (start_scanning (never_started_with_record s)))) ∧
    (∀ (chunks : List ChannelSpectrum) (spectrum : ChannelSpectrum),
      closed_runs (chunks.foldl on_channel_spectrum (start_scanning (stop_scanning s))) spectrum
        = closed_runs
            (chunks.foldl on_channel_spectrum (start_scanning (never_started_with_record s)))
            spectrum) := by
  have hstop : stop_scanning s =
      { s with is_scanning := false
               is_paused := false
               commands := s.commands
                 ++ [Command.spectrum_streaming_stop, Command.receiver_disable]
               text_status := Status.stopped } := by
    simp [stop_scanning, hscan]
  have hne : s.scan_ranges.isEmpty = false := by
    obtain ⟨r, hr, _⟩ := hen
    cases hl : s.scan_ranges with
    | nil => rw [hl] at hr; cases hr
    | cons a l => rfl
  have hany : ¬ (s.scan_ranges.any fun range => range.enabled) = false := by
    rw [any_enabled_eq_false]
    exact fun h => h hen
  obtain ⟨range, hrange⟩ := skip_disabled_of_enabled s.scan_ranges hen
  have hstart : start_scanning (stop_scanning s)
      = with_history (s.commands ++ [Command.spectrum_streaming_stop, Command.receiver_disable])
          (start_scanning (never_started_with_record s)) := by
    rw [hstop]
    simp [start_scanning, hne, hany, hrange, never_started_with_record, never_started,
      ScannerAppView.fresh, with_history, spectrum_streaming_start, tune_to_chunk_center,
      calculate_chunk_count]
  have hrun : ∀ chunks : List ChannelSpectrum,
      chunks.foldl on_channel_spectrum (start_scanning (stop_scanning s))
        = with_history (s.commands ++ [Command.spectrum_streaming_stop, Command.receiver_disable])
            (chunks.foldl on_channel_spectrum (start_scanning (never_started_with_record s))) := by
    intro chunks
    rw [hstart, events_history]
  refine ⟨hstop, hrun, fun chunks spectrum => ?_⟩
  rw [hrun chunks, closed_runs_history]

/-- Witness of `restart_after_stop`: `restart_source`, stopped, restarted and
given the chunk `head_dome`; the recorded start bin 250 makes the run on bins
0..50 a threat, on the restarted view and on the never-started view that holds
the same recorded values. -/
theorem restart_after_stop_witness :
    [head_dome].foldl on_channel_spectrum (start_scanning (stop_scanning restart_source))
        = with_history
            (restart_source.commands
              ++ [Command.spectrum_streaming_stop, Command.receiver_disable])
            ([head_dome].foldl on_channel_spectrum
              (start_scanning (never_started_with_record restart_source))) ∧
    ([head_dome].foldl on_channel_spectrum
        (start_scanning (never_started_with_record restart_source))).threat_detected = true :=
  ⟨(restart_after_stop restart_source (by decide)
      ⟨⟨900000000, 1900000000, "900-1900MHz", true⟩, by decide, rfl⟩).2.1 [head_dome],
    by decide⟩

/-- C19 (counterexample): after `restart_source` is stopped and restarted, the
run on bins 0..50 of `head_dome` is closed with width `(51 + 6) * 78125` Hz and
raises a threat; on a never-started view with the same ranges and configuration
the same run is closed with width `(51 + 256) * 78125` Hz and raises none. -/
theorem restart_not_fresh :
    restart_source.is_scanning = true ∧ restart_source.chunk_end_signal_start_bin = 250 ∧
    (closed_runs (start_scanning (stop_scanning restart_source)) head_dome).map
        (fun r => (r.start_bin, r.end_bin, r.signal_width)) = [(0, 50, 4453125)] ∧
    (closed_runs (start_scanning (never_started restart_source)) head_dome).map
        (fun r => (r.start_bin, r.end_bin, r.signal_width)) = [(0, 50, 23984375)] ∧
    (on_channel_spectrum (start_scanning (stop_scanning restart_source))
        head_dome).threat_detected = true ∧
    (on_channel_spectrum (start_scanning (never_started restart_source))
        head_dome).threat_detected = false := by
  decide

/-! ## ThresholdConverter: the way back to dBm -/

/-- C23 (as amended): for every `d` in `[-120, -20]` the raw-to-dBm mapping
applied to `threshold_raw d` gives `d` when `d + 120` is a multiple of 8 and
`d - 1` otherwise; it is a one-sided approximate inverse,
`d - 1 ≤ dbm(threshold_raw d) ≤ d`. -/
theorem raw_to_dbm_threshold_raw (d : Int) (h1 : -120 ≤ d) (h2 : d ≤ -20) :
    raw_to_dbm (threshold_raw d).toNat = (if (d + 120) % 8 = 0 then d else d - 1) ∧
      d - 1 ≤ raw_to_dbm (threshold_raw d).toNat ∧ raw_to_dbm (threshold_raw d).toNat ≤ d := by
  have ht := threshold_raw_in_range d h1 h2
  have h0 : 0 ≤ threshold_raw d := by rw [ht]; omega
  have hcast : ((threshold_raw d).toNat : Int) = threshold_raw d := Int.toNat_of_nonneg h0
  have hdbm : raw_to_dbm (threshold_raw d).toNat = -120 + (threshold_raw d * 120) / 255 := by
    simp only [raw_to_dbm, NOISE_FLOOR_DBM, MAX_SIGNAL_DBM, RAW_MAX, hcast]
    rw [Int.tdiv_eq_ediv (by omega) (by norm_num)]
    norm_num
  rw [hdbm, ht]
  clear hdbm hcast h0 ht
  obtain ⟨e, r, hr0, hr7, hx⟩ : ∃ e r : Int, 0 ≤ r ∧ r ≤ 7 ∧ d = 8 * e + r - 120 :=
    ⟨(d + 120) / 8, (d + 120) % 8, by omega, by omega, by omega⟩
  subst hx
  interval_cases r <;> split_ifs <;> omega

/-- Witness of `raw_to_dbm_threshold_raw`: `d = -80` (with `d + 120 = 40`, a
multiple of 8) maps to raw 85 and back to -80. -/
theorem raw_to_dbm_threshold_raw_witness :
    raw_to_dbm (threshold_raw (-80)).toNat = (if ((-80 : Int) + 120) % 8 = 0 then -80 else -80 - 1) ∧
      (-80 : Int) - 1 ≤ raw_to_dbm (threshold_raw (-80)).toNat ∧
      raw_to_dbm (threshold_raw (-80)).toNat ≤ -80 :=
  raw_to_dbm_threshold_raw (-80) (by decide) (by decide)

/-- C23 (counterexample): the default squelch `d = -100` maps to raw 42, and raw
42 maps back to -101 dBm, not to -100. -/
theorem raw_to_dbm_not_inverse :
    threshold_raw (-100) = 42 ∧ raw_to_dbm (threshold_raw (-100)).toNat = -101 := by
  decide

/-! ## RunDetector: a pending run that does not continue -/

theorem scan_begin_failed_probe (s : ScannerAppView) (spectrum : ChannelSpectrum)
    (threshold : Int) (hc : continues spectrum threshold = false) :
    scan_begin s spectrum threshold
      = scan_begin { s with signal_at_chunk_end := false } spectrum threshold := by
  cases hp : s.signal_at_chunk_end
  · have hs : s = { s with signal_at_chunk_end := false } := by
      cases s
      simp_all
    rw [← hs]
  · simp [scan_begin, hp, hc]

theorem process_failed_probe (s : ScannerAppView) (spectrum : ChannelSpectrum)
    (hc : continues spectrum (threshold_raw s.squelch_threshold) = false) :
    process_spectrum_bins s spectrum
      = process_spectrum_bins { s with signal_at_chunk_end := false } spectrum := by
  simp only [process_spectrum_bins, process_bins_with, scan_upto]
  rw [scan_begin_failed_probe s spectrum _ hc]

theorem continues_eq_false (spectrum : ChannelSpectrum) (threshold : Int)
    (h : ∀ i, i < 10 → ¬ above spectrum threshold i) : continues spectrum threshold = false := by
  unfold continues
  rw [List.any_eq_false]
  intro i hi
  have := h i (List.mem_range.mp hi)
  unfold above at this
  simpa using this

/-- C24: when a run is pending and none of bins 0..9 of the new chunk is above
the threshold, `process_spectrum_bins` closes the same runs (same bins, peaks,
widths and frequencies) and returns the same view (threat record, status,
commands and cross-chunk state) as on the same view with `signal_at_chunk_end`
cleared beforehand, and so does the whole chunk event of a scanning view. -/
theorem failed_probe_discards_pending (s : ScannerAppView) (spectrum : ChannelSpectrum)
    (_hp : s.signal_at_chunk_end = true)
    (hq : ∀ i, i < 10 → ¬ above spectrum (threshold_raw s.squelch_threshold) i) :
    closed_runs s spectrum = closed_runs { s with signal_at_chunk_end := false } spectrum ∧
      process_spectrum_bins s spectrum
        = process_spectrum_bins { s with signal_at_chunk_end := false } spectrum ∧
      (s.is_scanning = true → s.is_paused = false →
        on_channel_spectrum s spectrum
          = on_channel_spectrum { s with signal_at_chunk_end := false } spectrum) := by
  have hc := continues_eq_false spectrum _ hq
  refine ⟨?_, process_failed_probe s spectrum hc, fun hscan hpause => ?_⟩
  · simp only [closed_runs, closed_runs_with, scan_upto]
    rw [scan_begin_failed_probe s spectrum _ hc]
  · have e1 := on_channel_spectrum_scanning s spectrum hscan hpause
    have e2 := on_channel_spectrum_scanning { s with signal_at_chunk_end := false } spectrum
      hscan hpause
    have e3 := process_failed_probe
      { s with commands := s.commands ++ [Command.spectrum_streaming_stop] } spectrum hc
    rw [e1, e2]
    exact congrArg scan_next_chunk e3


/-- Witness of `failed_probe_discards_pending`: the scan `restart_source` holds
a run pending from bin 250 of the previous chunk; bins 0..9 of `dome_chunk` are
all 0, so the pending run is dropped and the chunk event is the one of the
same view with the flag cleared. -/
theorem failed_probe_discards_pending_witness :
    closed_runs restart_source dome_chunk
        = closed_runs { restart_source with signal_at_chunk_end := false } dome_chunk ∧
      process_spectrum_bins restart_source dome_chunk
        = process_spectrum_bins { restart_source with signal_at_chunk_end := false } dome_chunk ∧
      on_channel_spectrum restart_source dome_chunk
        = on_channel_spectrum { restart_source with signal_at_chunk_end := false } dome_chunk :=
  have h := failed_probe_discards_pending restart_source dome_chunk (by decide)
    (by unfold above; decide)
  ⟨h.1, h.2.1, h.2.2 (by decide) (by decide)⟩

/-! ## DomeClassifier: bin distance and sample bins -/

theorem analyze_fm_dome_shape_narrow (spectrum : ChannelSpectrum) (start_bin end_bin : Nat)
    (h : (end_bin : Int) - (start_bin : Int) ≤ 9) :
    analyze_fm_dome_shape spectrum start_bin end_bin = false := by
  have hg : end_bin ≤ start_bin ∨ end_bin - start_bin < 10 := by omega
  simp only [analyze_fm_dome_shape, if_pos hg]

theorem analyze_fm_dome_shape_wide (spectrum : ChannelSpectrum) (start_bin end_bin : Nat)
    (h : (end_bin : Int) - (start_bin : Int) ≥ 10) :
    analyze_fm_dome_shape spectrum start_bin end_bin = true ↔
      DomeConditions spectrum start_bin end_bin := by
  have hg : ¬ (end_bin ≤ start_bin ∨ end_bin - start_bin < 10) := by omega
  simp only [analyze_fm_dome_shape, if_neg hg, DomeConditions, Bool.and_eq_true,
    decide_eq_true_eq, Int.abs_eq_natAbs]
  constructor
  · rintro ⟨⟨⟨h1, h2⟩, h3⟩, h4⟩
    exact ⟨h1, h2, h3, by exact_mod_cast h4⟩
  · rintro ⟨h1, h2, h3, h4⟩
    exact ⟨⟨⟨h1, h2⟩, h3⟩, by exact_mod_cast h4⟩

/-- C25: for every spectrum and all bins `start_bin`, `end_bin ≤ 255`,
`analyze_fm_dome_shape` returns true exactly when the bin distance
`end_bin - start_bin` is at least 10 and the four shape conditions hold on the
five samples; every run with `end_bin - start_bin ≤ 9`, a run of exactly 10
bins included, is rejected whatever its shape. -/
theorem analyze_fm_dome_shape_bin_distance (spectrum : ChannelSpectrum)
    (start_bin end_bin : Nat) (_hs : start_bin ≤ 255) (_he : end_bin ≤ 255) :
    (analyze_fm_dome_shape spectrum start_bin end_bin = true ↔
      ((end_bin : Int) - (start_bin : Int) ≥ 10 ∧ DomeConditions spectrum start_bin end_bin)) ∧
    ((end_bin : Int) - (start_bin : Int) ≤ 9 →
      analyze_fm_dome_shape spectrum start_bin end_bin = false) := by
  refine ⟨?_, analyze_fm_dome_shape_narrow spectrum start_bin end_bin⟩
  by_cases h : (end_bin : Int) - (start_bin : Int) ≥ 10
  · rw [analyze_fm_dome_shape_wide spectrum start_bin end_bin h]
    exact ⟨fun hd => ⟨h, hd⟩, fun hd => hd.2⟩
  · rw [analyze_fm_dome_shape_narrow spectrum start_bin end_bin (by omega)]
    exact ⟨fun hd => (by cases hd), fun hd => absurd hd.1 h⟩

/-- Witness of `analyze_fm_dome_shape_bin_distance`: the run `[0, 9]` of
`ten_bin_dome` spans exactly 10 bins, its bin distance is 9, and it is rejected;
the run `[0, 10]` of `eleven_bin_dome` has bin distance 10 and is accepted. -/
theorem analyze_fm_dome_shape_bin_distance_witness :
    analyze_fm_dome_shape ten_bin_dome 0 9 = false ∧
      (analyze_fm_dome_shape eleven_bin_dome 0 10 = true ↔
        ((((10 : Nat) : Int) - ((0 : Nat) : Int) ≥ 10) ∧ DomeConditions eleven_bin_dome 0 10)) ∧
      analyze_fm_dome_shape eleven_bin_dome 0 10 = true :=
  ⟨(analyze_fm_dome_shape_bin_distance ten_bin_dome 0 9 (by decide) (by decide)).2 (by decide),
    (analyze_fm_dome_shape_bin_distance eleven_bin_dome 0 10 (by decide) (by decide)).1,
    by decide⟩

theorem sample_bins_read (spectrum other : ChannelSpectrum) (start_bin end_bin : Nat)
    (h : ∀ i ∈ sample_bins start_bin end_bin, spectrum.bin i = other.bin i) :
    analyze_fm_dome_shape spectrum start_bin end_bin
      = analyze_fm_dome_shape other start_bin end_bin := by
  simp only [sample_bins, List.mem_cons, List.mem_singleton, List.not_mem_nil, or_false,
    forall_eq_or_imp, forall_eq] at h
  obtain ⟨h1, h2, h3, h4, h5⟩ := h
  simp only [analyze_fm_dome_shape, h1, h2, h3, h4, h5]

/-- C29: for `start_bin ≤ end_bin ≤ 255` with `end_bin - start_bin ≥ 10` the five
sample indices of `analyze_fm_dome_shape` are strictly increasing,
`start_bin < quarter_point < center_bin < three_quarter < end_bin ≤ 255`; each
read `spectrum.db[i]` is a read of one of the 256 bins of the chunk, the five
bins are distinct, and the result depends on the spectrum through these five
bins only. -/
theorem sample_bins_increasing (start_bin end_bin : Nat)
    (hse : start_bin ≤ end_bin) (he : end_bin ≤ 255) (hw : end_bin - start_bin ≥ 10) :
    sample_bins start_bin end_bin
        = [start_bin, start_bin + (end_bin - start_bin) / 4, (start_bin + end_bin) / 2,
            start_bin + 3 * (end_bin - start_bin) / 4, end_bin] ∧
      start_bin < start_bin + (end_bin - start_bin) / 4 ∧
      start_bin + (end_bin - start_bin) / 4 < (start_bin + end_bin) / 2 ∧
      (start_bin + end_bin) / 2 < start_bin + 3 * (end_bin - start_bin) / 4 ∧
      start_bin + 3 * (end_bin - start_bin) / 4 < end_bin ∧ end_bin ≤ 255 ∧
      (sample_bins start_bin end_bin).Nodup ∧
      (∀ spectrum : ChannelSpectrum, ∀ i ∈ sample_bins start_bin end_bin,
        ∃ h : i < 256, spectrum.bin i = (spectrum.db ⟨i, h⟩).val) ∧
      ∀ spectrum other : ChannelSpectrum,
        (∀ i ∈ sample_bins start_bin end_bin, spectrum.bin i = other.bin i) →
          analyze_fm_dome_shape spectrum start_bin end_bin
            = analyze_fm_dome_shape other start_bin end_bin := by
  have h1 : start_bin < start_bin + (end_bin - start_bin) / 4 := by omega
  have h2 : start_bin + (end_bin - start_bin) / 4 < (start_bin + end_bin) / 2 := by omega
  have h3 : (start_bin + end_bin) / 2 < start_bin + 3 * (end_bin - start_bin) / 4 := by omega
  have h4 : start_bin + 3 * (end_bin - start_bin) / 4 < end_bin := by omega
  refine ⟨rfl, h1, h2, h3, h4, he, ?_, ?_, fun spectrum other h =>
    sample_bins_read spectrum other start_bin end_bin h⟩
  · simp only [sample_bins, List.nodup_cons, List.mem_cons, List.mem_singleton,
      List.not_mem_nil, or_false, List.nodup_nil, not_false_eq_true, and_true, not_or]
    omega
  · intro spectrum i hi
    simp only [sample_bins, List.mem_cons, List.mem_singleton, List.not_mem_nil,
      or_false] at hi
    have hlt : i < 256 := by omega
    exact ⟨hlt, by simp [ChannelSpectrum.bin, hlt]⟩

/-- Witness of `sample_bins_increasing`: for the run `[10, 73]` of `dome_chunk`
the sample bins are 10, 25, 41, 57 and 73. -/
theorem sample_bins_increasing_witness :
    sample_bins 10 73 = [10, 25, 41, 57, 73] ∧ (sample_bins 10 73).Nodup :=
  have h := sample_bins_increasing 10 73 (by decide) (by decide) (by decide)
  ⟨h.1, h.2.2.2.2.2.2.1⟩

/-! ## RunDetector: the narrowest run within the width bounds -/

/-- C28: with `min_signal_width_mhz` in `[1, 100]`, a closed run that does not
start at bin 0 and passes the lower width test `signal_width ≥ min_width` has
width `(end_bin - start_bin + 1) * 78125` Hz and spans at least 13 bins, so
`end_bin - start_bin ≥ 12`: the too-narrow test of `analyze_fm_dome_shape`
(`end_bin <= start_bin || end_bin - start_bin < 10`) is false for it and the
classifier decides on the four shape conditions alone. -/
theorem width_qualified_run_spans (s : ScannerAppView) (spectrum : ChannelSpectrum)
    (threshold : Int) (hmin : 1 ≤ s.min_signal_width_mhz)
    (_hmax : s.min_signal_width_mhz ≤ 100) :
    ∀ r ∈ closed_runs_with s spectrum threshold, r.start_bin ≠ 0 →
      r.signal_width ≥ min_width_hz s →
        r.signal_width = ((r.end_bin : Int) - (r.start_bin : Int) + 1) * 78125 ∧
        r.end_bin - r.start_bin + 1 ≥ 13 ∧ r.end_bin - r.start_bin ≥ 12 ∧
        ¬ (r.end_bin ≤ r.start_bin ∨ r.end_bin - r.start_bin < 10) ∧
        (analyze_fm_dome_shape spectrum r.start_bin r.end_bin = true ↔
          DomeConditions spectrum r.start_bin r.end_bin) := by
  intro r hr h0 hwmin
  have hle := ((RunInv.after s spectrum threshold 256).closed_ok r hr).1
  have hw := closed_width s spectrum threshold 256 r hr
  simp only [bin_width, SPECTRUM_SLICE_WIDTH, SPECTRUM_BINS] at hw
  rw [if_neg h0] at hw
  norm_num at hw
  simp only [min_width_hz] at hwmin
  push_cast at hwmin
  have hwe : r.signal_width = ((r.end_bin : Int) - (r.start_bin : Int) + 1) * 78125 := by
    rw [hw]
    push_cast [Nat.cast_sub hle]
    rfl
  have h12 : r.end_bin - r.start_bin ≥ 12 := by
    have hm : (1 : Int) ≤ (s.min_signal_width_mhz : Int) := by exact_mod_cast hmin
    omega
  exact ⟨hwe, by omega, h12, by omega,
    analyze_fm_dome_shape_wide spectrum r.start_bin r.end_bin (by omega)⟩

/-- Witness of `width_qualified_run_spans`: in a scan of the default ranges
(widths 4..8 MHz) the run of `dome_chunk` on bins 10..73 is 5000000 Hz wide and
spans 64 bins. -/
theorem width_qualified_run_spans_witness :
    (5000000 : Int) = (((73 : Nat) : Int) - ((10 : Nat) : Int) + 1) * 78125 ∧
      73 - 10 + 1 ≥ 13 ∧ 73 - 10 ≥ 12 ∧ ¬ (73 ≤ 10 ∨ 73 - 10 < 10) ∧
      (analyze_fm_dome_shape dome_chunk 10 73 = true ↔ DomeConditions dome_chunk 10 73) :=
  width_qualified_run_spans scanning_defaults dome_chunk
    (threshold_raw scanning_defaults.squelch_threshold) (by decide) (by decide)
    ⟨10, 73, 41, 200, 5000000, 903203125, raw_to_dbm 200⟩ (by decide) (by decide) (by decide)

/-! ## ScanController: the window of the next chunk -/

theorem chunk_count_pos (range : FrequencyRange) (h : range.start < range.end_) :
    1 ≤ chunk_count range := by
  have hc := chunk_count_eq range h
  have : (1 : Int) ≤ (chunk_count range : Int) := by
    rw [hc]
    omega
  exact_mod_cast this

theorem lower_edge_below_end (range : FrequencyRange) (h : range.start < range.end_) (c : Nat)
    (hc : c < chunk_count range) :
    range.start + 10000000 + ((c * 20000000 % 2 ^ 32 : Nat) : Int) - 10000000 < range.end_ := by
  have he := chunk_count_eq range h
  have hci : (c : Int) < (chunk_count range : Int) := by exact_mod_cast hc
  rw [he] at hci
  have hmod : c * 20000000 % 2 ^ 32 ≤ c * 20000000 := Nat.mod_le _ _
  have hmodi : ((c * 20000000 % 2 ^ 32 : Nat) : Int) ≤ (c : Int) * 20000000 := by
    exact_mod_cast hmod
  omega

/-- C22 (as amended): when `scan_next_chunk` retunes to a further chunk of the
current range, the window of that chunk starts at or before the end of the
range (`centre - 10 MHz ≤ end`), and strictly before it when the range has
`start < end` and `total_chunks_in_range` is its chunk count; the window may
end after the end of the range, by less than 20 MHz.  Otherwise the range is
exhausted and the controller moves to the next range. -/
theorem scan_next_chunk_window (p : ScannerAppView) (range : FrequencyRange)
    (hcur : p.scan_ranges[p.current_range_index]? = some range) :
    (¬ range_exhausted p range →
      (scan_next_chunk p).current_range_index = p.current_range_index ∧
      (scan_next_chunk p).current_chunk_in_range = p.current_chunk_in_range + 1 ∧
      (scan_next_chunk p).commands = p.commands ++
        [Command.set_tuning_frequency (scan_next_chunk p).current_chunk_center,
          Command.spectrum_streaming_start] ∧
      (scan_next_chunk p).current_chunk_center - 10000000 ≤ range.end_ ∧
      (range.start < range.end_ → p.total_chunks_in_range = chunk_count range →
        (scan_next_chunk p).current_chunk_center - 10000000 < range.end_ ∧
        (scan_next_chunk p).current_chunk_center + 10000000 < range.end_ + 20000000)) ∧
    (range_exhausted p range →
      ∃ q, scan_next_chunk p = move_to_next_range q ∧ q.scan_ranges = p.scan_ranges ∧
        q.current_range_index = p.current_range_index) := by
  constructor
  · intro h
    rw [scan_next_chunk_within p range hcur h]
    unfold range_exhausted at h
    push_neg at h
    obtain ⟨h1, h2⟩ := h
    refine ⟨rfl, rfl, rfl, ?_, fun hlt htotal => ?_⟩
    · dsimp only
      omega
    · dsimp only
      have := lower_edge_below_end range hlt (p.current_chunk_in_range + 1)
        (by rw [← htotal]; omega)
      omega
  · intro h
    obtain ⟨q, hq, q1, q2, _⟩ := scan_next_chunk_exhausted p range hcur h
    exact ⟨q, hq, q1, q2⟩

/-- Witness of `scan_next_chunk_window`: a scan of the default ranges after
`start_scanning` steps from chunk 0 to chunk 1 of the range 900..1900 MHz,
centred at 930 MHz. -/
theorem scan_next_chunk_window_witness :
    (scan_next_chunk scanning_defaults).current_range_index = 0 ∧
      (scan_next_chunk scanning_defaults).current_chunk_in_range = 1 ∧
      (scan_next_chunk scanning_defaults).current_chunk_center = 930000000 ∧
      (scan_next_chunk scanning_defaults).current_chunk_center - 10000000
        ≤ (1900000000 : Int) :=
  have h := (scan_next_chunk_window scanning_defaults ⟨900000000, 1900000000, "900-1900MHz", true⟩
    rfl).1 (by unfold range_exhausted; decide)
  ⟨h.1, by decide, by decide, h.2.2.2.1⟩

/-- C22 (counterexample): in a scan of `middle_enabled` the range 400..450 MHz
has 3 chunks; after two chunk events the controller has retuned to chunk 2 of
that range, centred at 450 MHz, whose window 440..460 MHz ends 10 MHz after the
end of the range. -/
theorem chunk_window_passes_range_end :
    scanning_last_chunk.scan_ranges[scanning_last_chunk.current_range_index]?
        = some ⟨400000000, 450000000, "B", true⟩ ∧
      scanning_last_chunk.total_chunks_in_range = 3 ∧
      scanning_last_chunk.current_chunk_in_range = 2 ∧
      scanning_last_chunk.current_chunk_center = 450000000 ∧
      scanning_last_chunk.commands.reverse.take 2
        = [Command.spectrum_streaming_start, Command.set_tuning_frequency 450000000] ∧
      scanning_last_chunk.current_chunk_center + 10000000 > (450000000 : Int) := by
  decide

/-! ## ScanController: a completed cycle without a threat -/

theorem move_to_next_range_wrap_eq (q : ScannerAppView) (j : Nat) (first : FrequencyRange)
    (h : NoEnabledFrom q.scan_ranges (q.current_range_index + 1))
    (hthreat : q.threat_detected = false)
    (hfirst : FirstEnabledFrom q.scan_ranges 0 j first) :
    move_to_next_range q =
      { q with current_range_index := j
               current_chunk_in_range := 0
               total_chunks_in_range := chunk_count first
               current_chunk_center := first.start + 10000000
               text_status := Status.cycle_clear q.dome_signals_count
               commands := q.commands ++
                 [Command.set_tuning_frequency (first.start + 10000000),
                   Command.spectrum_streaming_start] } := by
  have hlen := skip_disabled_none_of_no_enabled _ _ h
  have hskip := skip_disabled_eq_of_first _ _ _ _ hfirst
  have hj := hfirst.2.1
  simp [move_to_next_range, hlen, hthreat, hskip, hj, calculate_chunk_count,
    tune_to_chunk_center, spectrum_streaming_start, SPECTRUM_SLICE_WIDTH]

/-- The chunk event that completes a full cycle over all
enabled ranges with `threat_detected` false keeps the view scanning and
restarts at chunk 0 of the first enabled range with a status of the form
"Status: Cycle k (clear)"; no cycle counter is kept: apart from what the bin
analysis of the chunk changes, the event changes only `current_range_index`,
`current_chunk_in_range`, `total_chunks_in_range`, `current_chunk_center`, the
status and the command trace, and the number in the status is
`dome_signals_count`. -/
theorem clear_cycle_restarts (s : ScannerAppView) (spectrum : ChannelSpectrum)
    (range first : FrequencyRange) (j : Nat)
    (hscan : s.is_scanning = true) (hpause : s.is_paused = false)
    (hcur : s.scan_ranges[s.current_range_index]? = some range)
    (hex : range_exhausted s range)
    (hlast : NoEnabledFrom s.scan_ranges (s.current_range_index + 1))
    (hfirst : FirstEnabledFrom s.scan_ranges 0 j first)
    (hclear : (after_analysis s spectrum).threat_detected = false) :
    on_channel_spectrum s spectrum =
      { after_analysis s spectrum with
        current_range_index := j
        current_chunk_in_range := 0
        total_chunks_in_range := chunk_count first
        current_chunk_center := first.start + 10000000
        text_status := Status.cycle_clear (after_analysis s spectrum).dome_signals_count
        commands := (after_analysis s spectrum).commands ++
          [Command.set_tuning_frequency (first.start + 10000000),
            Command.spectrum_streaming_start] } := by
  obtain ⟨f1, f2, f3, f4, _, f6, f7, _⟩ := after_analysis_session s spectrum
  rw [on_channel_spectrum_scanning s spectrum hscan hpause]
  have hpcur : (after_analysis s spectrum).scan_ranges[
      (after_analysis s spectrum).current_range_index]? = some range := by
    rw [f1, f2]
    exact hcur
  have hex' : range_exhausted (after_analysis s spectrum) range := by
    unfold range_exhausted at *
    rw [f3, f4]
    exact hex
  generalize after_analysis s spectrum = p at *
  by_cases h1 : p.total_chunks_in_range ≤ p.current_chunk_in_range + 1
  · have e : scan_next_chunk p
        = move_to_next_range { p with current_chunk_in_range := p.current_chunk_in_range + 1 } := by
      simp only [scan_next_chunk, hpcur, ge_iff_le, h1, if_true]
    have w := move_to_next_range_wrap_eq
      { p with current_chunk_in_range := p.current_chunk_in_range + 1 } j first
      (by rw [← f1, ← f2] at hlast; exact hlast) hclear (by rw [← f1] at hfirst; exact hfirst)
    rw [e, w]
  · have h2 : range.start + 10000000
        + (((p.current_chunk_in_range + 1) * 20000000 % 2 ^ 32 : Nat) : Int) - 10000000
        > range.end_ := by
      rcases hex' with h | h
      · exact absurd h h1
      · exact h
    have e : scan_next_chunk p
        = move_to_next_range
          { p with current_chunk_in_range := p.current_chunk_in_range + 1
                   current_chunk_center := range.start + 10000000
                     + (((p.current_chunk_in_range + 1) * 20000000 % 2 ^ 32 : Nat) : Int) } := by
      simp only [scan_next_chunk, hpcur, SPECTRUM_SLICE_WIDTH, ge_iff_le, h1, if_false]
      norm_num only [] at h2 ⊢
      rw [if_pos (by push_cast at h2 ⊢; omega)]
    have w := move_to_next_range_wrap_eq
      { p with current_chunk_in_range := p.current_chunk_in_range + 1
               current_chunk_center := range.start + 10000000
                 + (((p.current_chunk_in_range + 1) * 20000000 % 2 ^ 32 : Nat) : Int) } j first
      (by rw [← f1, ← f2] at hlast; exact hlast) hclear (by rw [← f1] at hfirst; exact hfirst)
    rw [e, w]

/-- C21 (failing input): in a scan of `middle_enabled` three quiet chunks
complete the first cycle over the only enabled range without a threat; the
view is still scanning, back at chunk 0 of that range, and the status is
"Status: Cycle 0 (clear)": the number reported after one completed cycle is
`dome_signals_count`, which is 0, not the cycle number 1. -/
theorem first_clear_cycle_reports_zero :
    (on_channel_spectrum scanning_last_chunk quiet_chunk).text_status = Status.cycle_clear 0 ∧
      (on_channel_spectrum scanning_last_chunk quiet_chunk).is_scanning = true ∧
      (on_channel_spectrum scanning_last_chunk quiet_chunk).current_range_index = 1 ∧
      (on_channel_spectrum scanning_last_chunk quiet_chunk).current_chunk_in_range = 0 ∧
      (on_channel_spectrum scanning_last_chunk quiet_chunk).dome_signals_count = 0 := by
  decide

/-! ## ScanController: a pass over one range -/

theorem chunk_center_eq (range : FrequencyRange) (k : Nat) :
    chunk_center range k
      = range.start + 10000000 + ((k * 20000000 % 2 ^ 32 : Nat) : Int) := by
  simp [chunk_center, SPECTRUM_SLICE_WIDTH]

theorem chunk_center_exact (range : FrequencyRange) (k : Nat) (hk : k ≤ 214) :
    chunk_center range k = range.start + 10000000 + (k : Int) * 20000000 := by
  rw [chunk_center_eq]
  have : k * 20000000 % 2 ^ 32 = k * 20000000 := Nat.mod_eq_of_lt (by norm_num; omega)
  rw [this]
  push_cast
  ring

theorem chunk_event_within (s : ScannerAppView) (spectrum : ChannelSpectrum)
    (range : FrequencyRange)
    (hscan : s.is_scanning = true) (hpause : s.is_paused = false)
    (hcur : s.scan_ranges[s.current_range_index]? = some range)
    (hlt : range.start < range.end_)
    (htotal : s.total_chunks_in_range = chunk_count range)
    (hc : s.current_chunk_in_range + 1 < s.total_chunks_in_range) :
    on_channel_spectrum s spectrum =
      { after_analysis s spectrum with
        current_chunk_in_range := s.current_chunk_in_range + 1
        current_chunk_center := chunk_center range (s.current_chunk_in_range + 1)
        commands := (after_analysis s spectrum).commands ++
          [Command.set_tuning_frequency (chunk_center range (s.current_chunk_in_range + 1)),
            Command.spectrum_streaming_start] } := by
  obtain ⟨f1, f2, f3, f4, _, f6, f7, _⟩ := after_analysis_session s spectrum
  rw [on_channel_spectrum_scanning s spectrum hscan hpause]
  have hpcur : (after_analysis s spectrum).scan_ranges[
      (after_analysis s spectrum).current_range_index]? = some range := by
    rw [f1, f2]
    exact hcur
  have hne : ¬ range_exhausted (after_analysis s spectrum) range := by
    unfold range_exhausted
    rw [f3, f4]
    have := lower_edge_below_end range hlt (s.current_chunk_in_range + 1)
      (by rw [← htotal]; exact hc)
    push_neg
    exact ⟨hc, by omega⟩
  rw [scan_next_chunk_within _ range hpcur hne, f3, chunk_center_eq]

theorem pass_upto (range : FrequencyRange) (hlt : range.start < range.end_)
    (chunks : List ChannelSpectrum) :
    ∀ s : ScannerAppView, s.is_scanning = true → s.is_paused = false →
      s.scan_ranges[s.current_range_index]? = some range →
      s.total_chunks_in_range = chunk_count range →
      s.current_chunk_in_range + chunks.length < s.total_chunks_in_range →
      (chunks.foldl on_channel_spectrum s).is_scanning = true ∧
      (chunks.foldl on_channel_spectrum s).is_paused = false ∧
      (chunks.foldl on_channel_spectrum s).scan_ranges = s.scan_ranges ∧
      (chunks.foldl on_channel_spectrum s).current_range_index = s.current_range_index ∧
      (chunks.foldl on_channel_spectrum s).total_chunks_in_range = s.total_chunks_in_range ∧
      (chunks.foldl on_channel_spectrum s).current_chunk_in_range
        = s.current_chunk_in_range + chunks.length ∧
      (chunks ≠ [] →
        (chunks.foldl on_channel_spectrum s).current_chunk_center
          = chunk_center range (s.current_chunk_in_range + chunks.length) ∧
        ∃ before, (chunks.foldl on_channel_spectrum s).commands = before ++
          [Command.set_tuning_frequency
              (chunk_center range (s.current_chunk_in_range + chunks.length)),
            Command.spectrum_streaming_start]) := by
  induction chunks with
  | nil =>
    intro s hscan hpause _ _ _
    exact ⟨hscan, hpause, rfl, rfl, rfl, rfl, fun h => absurd rfl h⟩
  | cons c rest ih =>
    intro s hscan hpause hcur htotal hlen
    rw [List.length_cons] at hlen
    obtain ⟨f1, f2, f3, f4, _, f6, f7, _⟩ := after_analysis_session s c
    have hstep := chunk_event_within s c range hscan hpause hcur hlt htotal (by omega)
    rw [List.foldl_cons]
    have g1 : (on_channel_spectrum s c).is_scanning = true := by rw [hstep]; exact f6.trans hscan
    have g2 : (on_channel_spectrum s c).is_paused = false := by rw [hstep]; exact f7.trans hpause
    have g3 : (on_channel_spectrum s c).scan_ranges = s.scan_ranges := by rw [hstep]; exact f1
    have g4 : (on_channel_spectrum s c).current_range_index = s.current_range_index := by
      rw [hstep]; exact f2
    have g5 : (on_channel_spectrum s c).total_chunks_in_range = s.total_chunks_in_range := by
      rw [hstep]; exact f4
    have g6 : (on_channel_spectrum s c).current_chunk_in_range = s.current_chunk_in_range + 1 := by
      rw [hstep]
    have g7 : (on_channel_spectrum s c).current_chunk_center
        = chunk_center range (s.current_chunk_in_range + 1) := by rw [hstep]
    have g8 : (on_channel_spectrum s c).commands = (after_analysis s c).commands ++
        [Command.set_tuning_frequency (chunk_center range (s.current_chunk_in_range + 1)),
          Command.spectrum_streaming_start] := by rw [hstep]
    obtain ⟨i1, i2, i3, i4, i5, i6, i7⟩ := ih (on_channel_spectrum s c) g1 g2
      (by rw [g3, g4]; exact hcur) (by rw [g5]; exact htotal) (by rw [g5, g6]; omega)
    refine ⟨i1, i2, i3.trans g3, i4.trans g4, i5.trans g5, ?_, fun _ => ?_⟩
    · rw [i6, g6, List.length_cons]
      omega
    · have hk : s.current_chunk_in_range + (c :: rest).length
          = s.current_chunk_in_range + 1 + rest.length := by
        rw [List.length_cons]
        omega
      rw [hk]
      cases rest with
      | nil => exact ⟨g7, _, g8⟩
      | cons c2 rest2 =>
        rw [g6] at i7
        exact i7 (List.cons_ne_nil _ _)

theorem wide_pass_state :
    wide_pass.is_scanning = true ∧ wide_pass.is_paused = false ∧
      wide_pass.scan_ranges = [wide_range] ∧ wide_pass.current_range_index = 0 ∧
      wide_pass.total_chunks_in_range = 250 ∧ wide_pass.current_chunk_in_range = 215 ∧
      wide_pass.current_chunk_center = 1015032704 ∧
      ∃ before, wide_pass.commands = before ++
        [Command.set_tuning_frequency 1015032704, Command.spectrum_streaming_start] := by
  have h := pass_upto wide_range (by decide) (List.replicate 215 quiet_chunk)
    (start_scanning (ScannerAppView.fresh [wide_range])) (by decide) (by decide) (by decide)
    (by decide) (by decide)
  obtain ⟨h1, h2, h3, h4, h5, h6, h7⟩ := h
  have hc : chunk_center wide_range 215 = 1015032704 := by decide
  obtain ⟨h8, h9⟩ := h7 (by simp)
  refine ⟨h1, h2, h3, h4, h5, h6, ?_, ?_⟩
  · rw [← hc]
    exact h8
  · rw [← hc]
    exact h9

/-! ## ScanController: the session invariant -/

theorem start_scanning_position (s : ScannerAppView) (hidle : s.is_scanning = false)
    (hex : ∃ r ∈ s.scan_ranges, r.enabled = true) :
    ∃ i range, FirstEnabledFrom s.scan_ranges 0 i range ∧
      (start_scanning s).is_scanning = true ∧
      (start_scanning s).scan_ranges = s.scan_ranges ∧
      (start_scanning s).current_range_index = i ∧
      (start_scanning s).current_chunk_in_range = 0 ∧
      (start_scanning s).total_chunks_in_range = chunk_count range ∧
      (start_scanning s).current_chunk_center = range.start + 10000000 := by
  have hne : s.scan_ranges.isEmpty = false := by
    obtain ⟨r, hr, _⟩ := hex
    cases hl : s.scan_ranges with
    | nil => rw [hl] at hr; cases hr
    | cons a l => rfl
  have hany : ¬ (s.scan_ranges.any fun range => range.enabled) = false := by
    rw [any_enabled_eq_false]
    exact fun h => h hex
  obtain ⟨range, hrange⟩ := skip_disabled_of_enabled s.scan_ranges hex
  refine ⟨skip_disabled s.scan_ranges 0, range, skip_disabled_some _ _ _ hrange, ?_⟩
  simp [start_scanning, hidle, hne, hany, hrange, spectrum_streaming_start,
    tune_to_chunk_center, calculate_chunk_count, SPECTRUM_SLICE_WIDTH]

theorem move_to_next_range_ranges (q : ScannerAppView) :
    (move_to_next_range q).scan_ranges = q.scan_ranges := by
  simp only [move_to_next_range, stop_scanning, calculate_chunk_count,
    tune_to_chunk_center, spectrum_streaming_start]
  repeat' split
  all_goals simp_all

theorem range_mem_of_get {ranges : List FrequencyRange} {j : Nat} {range : FrequencyRange}
    (h : ranges[j]? = some range) : range ∈ ranges := by
  rw [List.getElem?_eq_some_iff] at h
  obtain ⟨hj, he⟩ := h
  rw [← he]
  exact List.getElem_mem hj

theorem SessionInv.at_range_start {ranges : List FrequencyRange} {t : ScannerAppView}
    {before : List Command} {j : Nat} {range : FrequencyRange}
    (hall : ∀ r ∈ ranges, r.start < r.end_)
    (hr : t.scan_ranges = ranges) (hf : ranges[j]? = some range) (hen : range.enabled = true)
    (h : AtRangeStart t before j range) : SessionInv ranges t := by
  obtain ⟨a1, _, a3, a4, a5, a6, _⟩ := h
  refine ⟨hr, fun _ => a1, fun _ => ⟨range, by rw [a3]; exact hf, hen, ?_, a5, ?_⟩⟩
  · rw [a4, a5]
    exact chunk_count_pos range (hall range (range_mem_of_get hf))
  · rw [a6, a4, chunk_center_eq]
    norm_num

theorem SessionInv.chunk_event {ranges : List FrequencyRange} {s : ScannerAppView}
    (hall : ∀ r ∈ ranges, r.start < r.end_) (inv : SessionInv ranges s)
    (spectrum : ChannelSpectrum) : SessionInv ranges (on_channel_spectrum s spectrum) := by
  by_cases hproc : s.is_scanning = false ∨ s.is_paused = true
  · rw [on_channel_spectrum_ignored s spectrum hproc]
    exact inv
  · have hscan : s.is_scanning = true := by
      cases h : s.is_scanning
      · exact absurd (Or.inl h) hproc
      · rfl
    have hpause : s.is_paused = false := by
      cases h : s.is_paused
      · rfl
      · exact absurd (Or.inr h) hproc
    obtain ⟨range, hcur, hen, hc, htotal, _⟩ := inv.scanning hscan
    have hr := inv.ranges_eq
    have hcur' : s.scan_ranges[s.current_range_index]? = some range := by rw [hr]; exact hcur
    have hlt := hall range (range_mem_of_get hcur)
    obtain ⟨f1, f2, f3, f4, _, f6, f7, _⟩ := after_analysis_session s spectrum
    by_cases hin : s.current_chunk_in_range + 1 < s.total_chunks_in_range
    · have hstep := chunk_event_within s spectrum range hscan hpause hcur' hlt htotal hin
      refine ⟨?_, fun _ => ?_, fun _ => ⟨range, ?_, hen, ?_, ?_, ?_⟩⟩
      · rw [hstep]; exact f1.trans hr
      · rw [hstep]; exact f6.trans hscan
      · rw [hstep]; dsimp only; rw [f2]; exact hcur
      · rw [hstep]; dsimp only; rw [f4]; exact hin
      · rw [hstep]; dsimp only; rw [f4]; exact htotal
      · rw [hstep]
    · have hevent := on_channel_spectrum_scanning s spectrum hscan hpause
      have hpcur : (after_analysis s spectrum).scan_ranges[
          (after_analysis s spectrum).current_range_index]? = some range := by
        rw [f1, f2]
        exact hcur'
      have hex : range_exhausted (after_analysis s spectrum) range := by
        unfold range_exhausted
        rw [f3, f4]
        exact Or.inl (by omega)
      obtain ⟨q, hq, q1, q2, q3, q4, q5, _⟩ := scan_next_chunk_exhausted _ range hpcur hex
      have hqs : q.is_scanning = true := by rw [q3, f6, hscan]
      have hqp : q.is_paused = false := by rw [q4, f7, hpause]
      have hqr : q.scan_ranges = ranges := by rw [q1, f1, hr]
      have hranges : (on_channel_spectrum s spectrum).scan_ranges = ranges := by
        rw [hevent, hq, move_to_next_range_ranges, hqr]
      rcases first_or_none q.scan_ranges (q.current_range_index + 1) with ⟨j, next, hf⟩ | hno
      · have hm := (move_to_next_range_next q j next hqs hqp hf).1
        rw [← hq, ← hevent] at hm
        exact SessionInv.at_range_start hall hranges (by rw [← hqr]; exact hf.2.1) hf.2.2.1 hm
      · cases hthreat : q.threat_detected
        · rcases first_or_none q.scan_ranges 0 with ⟨j, first, hf⟩ | hnone
          · have hm := (move_to_next_range_wrap q j first hqs hqp hno hthreat hf).1
            rw [← hq, ← hevent] at hm
            exact SessionInv.at_range_start hall hranges (by rw [← hqr]; exact hf.2.1)
              hf.2.2.1 hm
          · exfalso
            have := hnone _ range (Nat.zero_le _) (by rw [hqr]; exact hcur)
            rw [hen] at this
            cases this
        · have hm := move_to_next_range_alert q hqs hno hthreat
          rw [← hq, ← hevent] at hm
          refine ⟨hranges, fun hp => ?_, fun hs => ?_⟩
          · rw [hm] at hp
            cases hp
          · rw [hm] at hs
            cases hs

theorem SessionInv.event {ranges : List FrequencyRange} {s : ScannerAppView}
    (hall : ∀ r ∈ ranges, r.start < r.end_) (inv : SessionInv ranges s) (e : SessionEvent) :
    SessionInv ranges (apply_event s e) := by
  cases e with
  | pause =>
    show SessionInv ranges (pause_scanning s)
    unfold pause_scanning
    split_ifs with h
    · exact inv
    · push_neg at h
      have hscan : s.is_scanning = true := by simpa using h.1
      exact ⟨inv.ranges_eq, fun _ => hscan, fun _ => inv.scanning hscan⟩
  | resume =>
    show SessionInv ranges (resume_scanning s)
    unfold resume_scanning
    split_ifs with h
    · exact inv
    · push_neg at h
      have hscan : s.is_scanning = true := by simpa using h.1
      exact ⟨inv.ranges_eq, fun hp => (by cases hp), fun _ => inv.scanning hscan⟩
  | chunk spectrum => exact inv.chunk_event hall spectrum

theorem session_invariant (s : ScannerAppView) (hidle : s.is_scanning = false)
    (hex : ∃ r ∈ s.scan_ranges, r.enabled = true)
    (hall : ∀ r ∈ s.scan_ranges, r.start < r.end_) (events : List SessionEvent) :
    SessionInv s.scan_ranges (events.foldl apply_event (start_scanning s)) := by
  have base : SessionInv s.scan_ranges (start_scanning s) := by
    obtain ⟨i, range, hf, b1, b2, b3, b4, b5, b6⟩ := start_scanning_position s hidle hex
    refine ⟨b2, fun _ => b1, fun _ => ⟨range, by rw [b3]; exact hf.2.1, hf.2.2.1, ?_, b5, ?_⟩⟩
    · rw [b4, b5]
      exact chunk_count_pos range (hall range (range_mem_of_get hf.2.1))
    · rw [b6, b4, chunk_center_eq]
      norm_num
  generalize start_scanning s = t at base
  induction events generalizing t with
  | nil => exact base
  | cons e rest ih => exact ih _ (base.event hall e)

/-! ## ScanController: the chunk centres of a pass -/

theorem windows_cover (range : FrequencyRange) (h : range.start < range.end_) (f : Int)
    (h1 : range.start ≤ f) (h2 : f < range.end_) :
    ∃ i, i < chunk_count range ∧
      range.start + 10000000 + (i : Int) * 20000000 - 10000000 ≤ f ∧
      f < range.start + 10000000 + (i : Int) * 20000000 + 10000000 := by
  have hc := chunk_count_eq range h
  refine ⟨((f - range.start) / 20000000).toNat, ?_, ?_⟩
  · have : (((f - range.start) / 20000000).toNat : Int) < (chunk_count range : Int) := by
      rw [hc, Int.toNat_of_nonneg (by omega)]
      omega
    exact_mod_cast this
  · rw [Int.toNat_of_nonneg (by omega)]
    constructor <;> omega

theorem pass_tunes_exact (range : FrequencyRange) (hlt : range.start < range.end_)
    (hn : chunk_count range ≤ 215) (chunks : List ChannelSpectrum) (s : ScannerAppView)
    (hscan : s.is_scanning = true) (hpause : s.is_paused = false)
    (hcur : s.scan_ranges[s.current_range_index]? = some range)
    (htotal : s.total_chunks_in_range = chunk_count range)
    (h0 : s.current_chunk_in_range = 0)
    (hlen : chunks.length < chunk_count range) (hne : chunks ≠ []) :
    (chunks.foldl on_channel_spectrum s).current_chunk_in_range = chunks.length ∧
      (chunks.foldl on_channel_spectrum s).current_chunk_center
        = range.start + 10000000 + (chunks.length : Int) * 20000000 ∧
      ∃ before, (chunks.foldl on_channel_spectrum s).commands = before ++
        [Command.set_tuning_frequency (range.start + 10000000 + (chunks.length : Int) * 20000000),
          Command.spectrum_streaming_start] := by
  obtain ⟨_, _, _, _, _, p6, p7⟩ := pass_upto range hlt chunks s hscan hpause hcur htotal
    (by rw [h0, htotal]; omega)
  obtain ⟨p8, p9⟩ := p7 hne
  rw [h0, Nat.zero_add] at p6 p8 p9
  rw [chunk_center_exact range chunks.length (by omega)] at p8 p9
  exact ⟨p6, p8, p9⟩

/-- C26 (failing input): the range 1 GHz .. 6 GHz has 250 chunks; after
`start_scanning` and 215 chunk events the view is at chunk 215 of it and the last
retune went to 1015032704 Hz, whereas the centre of chunk 215 is
`start + 10 MHz + 215 * 20 MHz = 5310000000` Hz. -/
theorem wide_pass_retunes_low :
    chunk_count wide_range = 250 ∧ wide_pass.current_range_index = 0 ∧
      wide_pass.current_chunk_in_range = 215 ∧
      (∃ before, wide_pass.commands = before ++
        [Command.set_tuning_frequency 1015032704, Command.spectrum_streaming_start]) ∧
      wide_range.start + 10000000 + 215 * 20000000 = 5310000000 := by
  obtain ⟨_, _, _, h4, _, h6, _, h8⟩ := wide_pass_state
  exact ⟨by decide, h4, h6, h8, by decide⟩

/-- C27 (failing input): the view reached from `start_scanning` on the range
1 GHz .. 6 GHz by 215 chunk events is scanning, at chunk 215 of 250 of that
range, which is enabled, and its `current_chunk_center` is 1015032704 Hz, not
`start + 10 MHz + 215 * 20 MHz`. -/
theorem wide_pass_centre_wraps :
    wide_pass.is_scanning = true ∧ wide_pass.is_paused = false ∧
      wide_pass.scan_ranges[wide_pass.current_range_index]? = some wide_range ∧
      wide_range.enabled = true ∧ wide_range.start < wide_range.end_ ∧
      wide_pass.current_chunk_in_range = 215 ∧ wide_pass.total_chunks_in_range = 250 ∧
      wide_pass.current_chunk_center = 1015032704 ∧
      wide_pass.current_chunk_center
        ≠ wide_range.start + 10000000 + (wide_pass.current_chunk_in_range : Int) * 20000000 := by
  obtain ⟨h1, h2, h3, h4, h5, h6, h7, _⟩ := wide_pass_state
  refine ⟨h1, h2, ?_, by decide, by decide, h6, h5, h7, ?_⟩
  · rw [h3, h4]
    rfl
  · rw [h7, h6]
    decide

/-! ## The bin loop for any cross-chunk state: theorems -/

theorem ChunkInv.at_begin (s : ScannerAppView) (spectrum : ChannelSpectrum) (threshold : Int) :
    ChunkInv s spectrum threshold 0 (scan_begin s spectrum threshold) := by
  by_cases hc : ContinuedRun s spectrum threshold
  · have hb : scan_begin s spectrum threshold =
        { view := { s with signal_at_chunk_end := false }, signal_start_bin := 0,
          signal_end_bin := 0, in_signal := true, signal_peak_power := s.chunk_end_peak_power,
          signal_peak_bin := 0, closed := [] } := by
      simp [scan_begin, hc.1, hc.2]
    rw [hb]
    refine ⟨fun r hr => (by cases hr), fun a b hblock => absurd hblock.2.1 (by omega),
      List.Pairwise.nil, fun _ => Or.inl ⟨hc, rfl, rfl, fun i hi => absurd hi (by omega), ?_,
        Or.inl ⟨rfl, rfl⟩⟩, fun h => (by cases h)⟩
    simp [max_below]
  · have hin : (scan_begin s spectrum threshold).in_signal = false := by
      unfold ContinuedRun at hc
      simp only [scan_begin]
      cases hp : s.signal_at_chunk_end with
      | false => simp
      | true =>
        cases hcont : continues spectrum threshold with
        | false => simp
        | true => exact absurd ⟨hp, hcont⟩ hc
    refine ⟨fun r hr => ?_, fun a b hblock => absurd hblock.2.1 (by omega), ?_,
      fun h => ?_, fun _ => Or.inl ⟨rfl, hc⟩⟩
    · rw [scan_begin_closed] at hr
      cases hr
    · rw [scan_begin_closed]
      exact List.Pairwise.nil
    · rw [hin] at h
      cases h

theorem ChunkInv.advance {s : ScannerAppView} {spectrum : ChannelSpectrum} {threshold : Int}
    {n : Nat} {st : BinScan} (inv : ChunkInv s spectrum threshold n st) :
    ChunkInv s spectrum threshold (n + 1) (scan_bin spectrum threshold st n) := by
  have hmono : ∀ r ∈ st.closed, BlockBefore spectrum threshold (n + 1) r.start_bin r.end_bin ∨
      (ContinuedRun s spectrum threshold ∧ ¬ above spectrum threshold 0 ∧
        r.start_bin = 0 ∧ r.end_bin = 0 ∧ 0 < n + 1) := by
    intro r hr
    rcases inv.sound r hr with h | ⟨h1, h2, h3, h4, _⟩
    · exact Or.inl h.mono
    · exact Or.inr ⟨h1, h2, h3, h4, Nat.succ_pos n⟩
  have hends : ∀ r ∈ st.closed, r.end_bin < n := by
    intro r hr
    rcases inv.sound r hr with h | ⟨_, _, _, h4, h5⟩
    · have := h.2.1
      omega
    · omega
  by_cases hab : above spectrum threshold n
  · -- the bin is above the threshold: the closed runs are unchanged
    have hclosed : (scan_bin spectrum threshold st n).closed = st.closed := by
      cases hin : st.in_signal with
      | false => rw [scan_bin_start _ _ _ _ hab hin]
      | true =>
        by_cases hp : spectrum.bin n > st.signal_peak_power
        · rw [scan_bin_higher _ _ _ _ hab hin hp]
        · rw [scan_bin_extend _ _ _ _ hab hin hp]
    have hsound : ∀ r ∈ (scan_bin spectrum threshold st n).closed,
        BlockBefore spectrum threshold (n + 1) r.start_bin r.end_bin ∨
        (ContinuedRun s spectrum threshold ∧ ¬ above spectrum threshold 0 ∧
          r.start_bin = 0 ∧ r.end_bin = 0 ∧ 0 < n + 1) := by
      rw [hclosed]
      exact hmono
    have hcomplete : ∀ a b, BlockBefore spectrum threshold (n + 1) a b →
        ∃ r ∈ (scan_bin spectrum threshold st n).closed, r.start_bin = a ∧ r.end_bin = b := by
      rw [hclosed]
      intro a b hblock
      rcases hblock.of_succ with h | ⟨_, hn, _⟩
      · exact inv.complete a b h
      · exact absurd hab hn
    have hsorted : (scan_bin spectrum threshold st n).closed.Pairwise
        fun r1 r2 => r1.end_bin < r2.start_bin := by
      rw [hclosed]
      exact inv.sorted
    cases hin : st.in_signal with
    | false =>
      refine ⟨hsound, hcomplete, hsorted, fun _ => Or.inr ?_, fun h => ?_⟩
      · rw [scan_bin_start _ _ _ _ hab hin]
        dsimp only
        refine ⟨?_, le_refl _, rfl, fun i h1 h2 => ?_, ?_, ?_, hends⟩
        · rintro ⟨hc, h0⟩
          rcases inv.idle hin with ⟨_, hnc⟩ | ⟨hn, _⟩
          · exact hnc hc
          · exact hn h0
        · have : i = n := Nat.le_antisymm h2 h1
          rw [this]
          exact hab
        · rcases inv.idle hin with ⟨h0, _⟩ | ⟨_, hprev⟩
          · exact Or.inl h0
          · exact Or.inr hprev
        · exact ⟨le_refl _, le_refl _, rfl,
            fun i h1 h2 => by
              have : i = n := Nat.le_antisymm h2 h1
              rw [this],
            fun i h1 h2 => absurd h1 (by omega)⟩
      · rw [scan_bin_start _ _ _ _ hab hin] at h
        cases h
    | true =>
      rcases inv.open_run hin with ⟨c1, c2, c3, c4, c5, c6⟩ | ⟨b0, o1, o2, o3, o4, ⟨p1, p2, p3, p4, p5⟩, o6⟩
      · -- the continued run goes on
        have hall : ∀ i, i < n + 1 → above spectrum threshold i := by
          intro i hi
          by_cases h : i = n
          · rw [h]
            exact hab
          · exact c4 i (by omega)
        by_cases hp : spectrum.bin n > st.signal_peak_power
        · refine ⟨hsound, hcomplete, hsorted, fun _ => Or.inl ?_, fun h => ?_⟩
          · rw [scan_bin_higher _ _ _ _ hab hin hp]
            dsimp only
            refine ⟨c1, c2, c3, hall, ?_, Or.inr rfl⟩
            rw [c5] at hp
            simp only [max_below]
            rw [← max_assoc]
            exact (max_eq_right (le_of_lt hp)).symm
          · rw [scan_bin_higher _ _ _ _ hab hin hp, hin] at h
            cases h
        · refine ⟨hsound, hcomplete, hsorted, fun _ => Or.inl ?_, fun h => ?_⟩
          · rw [scan_bin_extend _ _ _ _ hab hin hp]
            dsimp only
            refine ⟨c1, c2, c3, hall, ?_, Or.inr rfl⟩
            rw [c5]
            rw [c5] at hp
            simp only [max_below]
            rw [← max_assoc]
            exact (max_eq_left (not_lt.mp hp)).symm
          · rw [scan_bin_extend _ _ _ _ hab hin hp, hin] at h
            cases h
      · by_cases hp : spectrum.bin n > st.signal_peak_power
        · refine ⟨hsound, hcomplete, hsorted, fun _ => Or.inr ?_, fun h => ?_⟩
          · rw [scan_bin_higher _ _ _ _ hab hin hp]
            dsimp only
            refine ⟨b0, by omega, rfl, fun i h1 h2 => ?_, o4, ?_, o6⟩
            · by_cases hi : i = n
              · rw [hi]; exact hab
              · exact o3 i h1 (by omega)
            · refine ⟨by omega, le_refl _, rfl, fun i h1 h2 => ?_, fun i h1 h2 => ?_⟩
              · by_cases hi : i = n
                · rw [hi]
                · have := p4 i h1 (by omega)
                  omega
              · have := p4 i h1 (by omega)
                omega
          · rw [scan_bin_higher _ _ _ _ hab hin hp, hin] at h
            cases h
        · refine ⟨hsound, hcomplete, hsorted, fun _ => Or.inr ?_, fun h => ?_⟩
          · rw [scan_bin_extend _ _ _ _ hab hin hp]
            dsimp only
            refine ⟨b0, by omega, rfl, fun i h1 h2 => ?_, o4, ?_, o6⟩
            · by_cases hi : i = n
              · rw [hi]; exact hab
              · exact o3 i h1 (by omega)
            · refine ⟨p1, by omega, p3, fun i h1 h2 => ?_, p5⟩
              by_cases hi : i = n
              · rw [hi]; omega
              · exact p4 i h1 (by omega)
          · rw [scan_bin_extend _ _ _ _ hab hin hp, hin] at h
            cases h
  · -- the bin is at or below the threshold
    cases hin : st.in_signal with
    | false =>
      rw [scan_bin_idle _ _ _ _ hab hin]
      refine ⟨hmono, fun a b hblock => ?_, inv.sorted, fun h => ?_,
        fun _ => Or.inr ⟨Nat.succ_ne_zero n, hab⟩⟩
      · rcases hblock.of_succ with h | ⟨hbn, _, hb⟩
        · exact inv.complete a b h
        · rcases inv.idle hin with ⟨h0, _⟩ | ⟨_, hprev⟩
          · omega
          · have : n - 1 = b := by omega
            rw [this] at hprev
            exact absurd hb hprev
      · rw [hin] at h
        cases h
    | true =>
      obtain ⟨e1, e2, _, _, _, _⟩ := end_of_signal_locals spectrum st
      rw [scan_bin_close _ _ _ _ hab hin]
      rcases inv.open_run hin with ⟨c1, c2, c3, c4, c5, c6⟩ | ⟨b0, o1, o2, o3, o4, o5, o6⟩
      · -- the continued run is closed
        refine ⟨fun r hr => ?_, fun a b hblock => ?_, ?_, fun h => ?_,
          fun _ => Or.inr ⟨Nat.succ_ne_zero n, hab⟩⟩
        · rw [e1, c3, List.nil_append, List.mem_singleton] at hr
          rw [hr]
          rcases c6 with ⟨hn, he⟩ | he
          · rw [hn] at hab
            exact Or.inr ⟨c1, hab, c2, he, Nat.succ_pos n⟩
          · refine Or.inl ⟨?_, ?_, fun i _ h2 => ?_, Or.inl c2, ?_⟩
            · show st.signal_start_bin ≤ st.signal_end_bin
              omega
            · show st.signal_end_bin + 1 < n + 1
              omega
            · have h2' : i ≤ st.signal_end_bin := h2
              exact c4 i (by omega)
            · show ¬ above spectrum threshold (st.signal_end_bin + 1)
              rw [he]
              exact hab
        · rw [e1]
          rcases hblock.of_succ with h | ⟨hbn, _, _⟩
          · obtain ⟨r, hr, hr2⟩ := inv.complete a b h
            exact ⟨r, List.mem_append_left _ hr, hr2⟩
          · refine ⟨closing_run st, List.mem_append_right _ (List.mem_singleton.mpr rfl), ?_, ?_⟩
            · show st.signal_start_bin = a
              obtain ⟨b1, _, _, b4, _⟩ := hblock
              rw [c2]
              rcases b4 with b4 | b4
              · exact b4.symm
              · by_contra hne
                exact b4 (c4 (a - 1) (by omega))
            · show st.signal_end_bin = b
              rcases c6 with ⟨hn, _⟩ | he <;> omega
        · rw [e1, c3]
          exact List.pairwise_singleton _ _
        · rw [e2] at h
          cases h
      · have hnew : BlockBefore spectrum threshold (n + 1) st.signal_start_bin st.signal_end_bin :=
          ⟨o1, by omega, o3, o4, by rw [o2]; exact hab⟩
        refine ⟨fun r hr => ?_, fun a b hblock => ?_, ?_, fun h => ?_,
          fun _ => Or.inr ⟨Nat.succ_ne_zero n, hab⟩⟩
        · rw [e1, List.mem_append, List.mem_singleton] at hr
          rcases hr with hr | hr
          · exact hmono r hr
          · rw [hr]
            exact Or.inl hnew
        · rw [e1]
          rcases hblock.of_succ with h | ⟨hbn, _, _⟩
          · obtain ⟨r, hr, hr2⟩ := inv.complete a b h
            exact ⟨r, List.mem_append_left _ hr, hr2⟩
          · refine ⟨closing_run st, List.mem_append_right _ (List.mem_singleton.mpr rfl), ?_, ?_⟩
            · show st.signal_start_bin = a
              obtain ⟨b1, _, b3, b4, _⟩ := hblock
              rcases Nat.lt_trichotomy st.signal_start_bin a with hlt | heq | hgt
              · exfalso
                rcases b4 with b4 | b4
                · omega
                · exact b4 (o3 (a - 1) (by omega) (by omega))
              · exact heq
              · exfalso
                rcases o4 with o4 | o4
                · omega
                · exact o4 (b3 (st.signal_start_bin - 1) (by omega) (by omega))
            · show st.signal_end_bin = b
              omega
        · rw [e1, List.pairwise_append]
          refine ⟨inv.sorted, List.pairwise_singleton _ _, fun r hr r' hr' => ?_⟩
          rw [List.mem_singleton] at hr'
          rw [hr']
          exact o6 r hr
        · rw [e2] at h
          cases h

theorem ChunkInv.after_bins (s : ScannerAppView) (spectrum : ChannelSpectrum) (threshold : Int)
    (n : Nat) : ChunkInv s spectrum threshold n (scan_upto s spectrum threshold n) := by
  induction n with
  | zero => exact ChunkInv.at_begin s spectrum threshold
  | succ n ih =>
    rw [scan_upto_succ]
    exact ih.advance

theorem BlockBefore.of_check {spectrum : ChannelSpectrum} {threshold : Int} {n a b : Nat}
    (h : a ≤ b ∧ b + 1 < n ∧ (∀ i, i < b + 1 → a ≤ i → above spectrum threshold i) ∧
      (a = 0 ∨ ¬ above spectrum threshold (a - 1)) ∧ ¬ above spectrum threshold (b + 1)) :
    BlockBefore spectrum threshold n a b :=
  ⟨h.1, h.2.1, fun i h1 h2 => h.2.2.1 i (by omega) h1, h.2.2.2.1, h.2.2.2.2⟩

/-- C14: processing a chunk raises `dome_signals_count` by the number of
closed runs whose width lies in `[min_width_hz, max_width_hz]` and that
`analyze_fm_dome_shape` accepts, appends one 200 ms alert tone request per such
run and nothing else to the commands, and leaves `threat_detected` true exactly
when it was true before or that number is positive.  The closed runs are
determined by the chunk: each spans a maximal block of bins above the threshold
that ends before bin 255 (or is the span `[0, 0]` closed at bin 0 on a continued
pending run), each such block is closed as a run with the width the closing
branch computes for it, and the runs are closed from left to right, without
repetition. -/
theorem dome_count_increment (s : ScannerAppView) (spectrum : ChannelSpectrum) :
    (process_spectrum_bins s spectrum).dome_signals_count
      = s.dome_signals_count + (closed_runs s spectrum).countP (is_dome_run spectrum s) ∧
    (process_spectrum_bins s spectrum).commands
      = s.commands ++ List.replicate ((closed_runs s spectrum).countP (is_dome_run spectrum s))
          (Command.request_audio_beep 1000 24000 200) ∧
    ((process_spectrum_bins s spectrum).threat_detected = true ↔
      s.threat_detected = true ∨ 0 < (closed_runs s spectrum).countP (is_dome_run spectrum s)) ∧
    (∀ r ∈ closed_runs s spectrum,
      BlockBefore spectrum (threshold_raw s.squelch_threshold) 256 r.start_bin r.end_bin ∨
      (ContinuedRun s spectrum (threshold_raw s.squelch_threshold) ∧
        ¬ above spectrum (threshold_raw s.squelch_threshold) 0 ∧
        r.start_bin = 0 ∧ r.end_bin = 0)) ∧
    (∀ a b, BlockBefore spectrum (threshold_raw s.squelch_threshold) 256 a b →
      ∃ r ∈ closed_runs s spectrum, r.start_bin = a ∧ r.end_bin = b ∧
        r.signal_width = ((b - a + 1 : Nat) : Int) * bin_width
          + (if a = 0
              then ((SPECTRUM_BINS - s.chunk_end_signal_start_bin : Nat) : Int) * bin_width
              else 0)) ∧
    (closed_runs s spectrum).Pairwise (fun r1 r2 => r1.end_bin < r2.start_bin) := by
  obtain ⟨_, _, _, e4, e5, e6, _⟩ :=
    scan_end_record (scan_upto s spectrum (threshold_raw s.squelch_threshold) SPECTRUM_BINS)
  have hfold := process_spectrum_bins_fold s spectrum
  obtain ⟨_, _, f3, f4, f5, _, _, _⟩ :=
    consider_runs_fold spectrum (closed_runs s spectrum) { s with signal_at_chunk_end := false }
  have hc : is_dome_run spectrum { s with signal_at_chunk_end := false }
      = is_dome_run spectrum s := is_dome_run_congr spectrum _ _ rfl rfl
  rw [hc] at f3 f4 f5
  have inv := ChunkInv.after_bins s spectrum (threshold_raw s.squelch_threshold) 256
  refine ⟨?_, ?_, ?_, fun r hr => ?_, fun a b hblock => ?_, inv.sorted⟩
  · show (scan_end _).dome_signals_count = _
    rw [e4, hfold, f3]
  · show (scan_end _).commands = _
    rw [e6, hfold, f4]
  · show (scan_end _).threat_detected = true ↔ _
    rw [e5, hfold, f5]
  · rcases inv.sound r hr with h | ⟨h1, h2, h3, h4, _⟩
    · exact Or.inl h
    · exact Or.inr ⟨h1, h2, h3, h4⟩
  · obtain ⟨r, hr, hra, hrb⟩ := inv.complete a b hblock
    refine ⟨r, hr, hra, hrb, ?_⟩
    have hw := closed_width s spectrum (threshold_raw s.squelch_threshold) 256 r hr
    rw [hra, hrb] at hw
    exact hw

/-- Witness of `dome_count_increment`: in a scan of the default ranges the
block of bins 10..73 of `dome_chunk` is closed as a run of 5000000 Hz, which is
within the bounds and accepted by `analyze_fm_dome_shape`: the count goes from
0 to 1, one alert tone is requested and `threat_detected` is set. -/
theorem dome_count_increment_witness :
    (process_spectrum_bins scanning_defaults dome_chunk).dome_signals_count
        = scanning_defaults.dome_signals_count + 1 ∧
      (process_spectrum_bins scanning_defaults dome_chunk).commands
        = scanning_defaults.commands ++ [Command.request_audio_beep 1000 24000 200] ∧
      (process_spectrum_bins scanning_defaults dome_chunk).threat_detected = true ∧
      ∃ r ∈ closed_runs scanning_defaults dome_chunk, r.start_bin = 10 ∧ r.end_bin = 73 ∧
        r.signal_width = 5000000 :=
  have h := dome_count_increment scanning_defaults dome_chunk
  have hc : (closed_runs scanning_defaults dome_chunk).countP
      (is_dome_run dome_chunk scanning_defaults) = 1 := by decide
  have hb := h.2.2.2.2.1 10 73 (BlockBefore.of_check (by unfold above; decide))
  ⟨by rw [h.1, hc], by rw [h.2.1, hc]; rfl, h.2.2.1.mpr (Or.inr (by rw [hc]; decide)),
    hb.imp fun r hr => ⟨hr.1, hr.2.1, hr.2.2.1, by rw [hr.2.2.2]; decide⟩⟩

/-- C15 (as amended): a run is still open at the end of a chunk exactly when
bin 255 is above the threshold; when it is not, the pending flag is cleared.
When a run is open, the start bin recorded is the first bin `a` of the maximal
block of bins above the threshold that ends at bin 255, and the peak recorded
is the maximum of bins `a..255`, or, for a pending run continued from bin 0
through the whole chunk, the maximum of the carried peak and of all 256 bins.
The run is marked as pending if and only if it did not start at bin 0 or its
width in this chunk, `(256 - a) * 78125` Hz, does not exceed `max_width_hz`:
only an open run that starts at bin 0 is abandoned for being too wide. -/
theorem open_run_pending (s : ScannerAppView) (spectrum : ChannelSpectrum)
    (threshold : Int) :
    (¬ above spectrum threshold 255 →
      (process_bins_with s spectrum threshold).signal_at_chunk_end = false) ∧
    (above spectrum threshold 255 →
      ∃ a, a ≤ 255 ∧ (∀ i, a ≤ i → i ≤ 255 → above spectrum threshold i) ∧
        (a = 0 ∨ ¬ above spectrum threshold (a - 1)) ∧
        (process_bins_with s spectrum threshold).chunk_end_signal_start_bin = a ∧
        ((ContinuedRun s spectrum threshold ∧ a = 0 ∧
            (process_bins_with s spectrum threshold).chunk_end_peak_power
              = max s.chunk_end_peak_power (max_below spectrum 256)) ∨
          (¬ (ContinuedRun s spectrum threshold ∧ a = 0) ∧
            ∃ peak_bin, IsPeakOf spectrum a 255 peak_bin
              (process_bins_with s spectrum threshold).chunk_end_peak_power)) ∧
        ((process_bins_with s spectrum threshold).signal_at_chunk_end = true ↔
          (a ≠ 0 ∨ ((256 : Int) - (a : Int)) * 78125 ≤ max_width_hz s))) := by
  have inv := ChunkInv.after_bins s spectrum threshold 256
  have hiff := in_signal_iff_above s spectrum threshold 255
  have hmax : (scan_upto s spectrum threshold 256).view.max_signal_width_mhz
      = s.max_signal_width_mhz := (scan_upto_session s spectrum threshold 256).2.2.2.2.2.2.2.2.2.1
  constructor
  · intro hab
    have hin : (scan_upto s spectrum threshold 256).in_signal = false := by
      cases h : (scan_upto s spectrum threshold 256).in_signal
      · rfl
      · exact absurd (hiff.mp h) hab
    simp [process_bins_with, SPECTRUM_BINS, scan_end, hin]
  · intro hab
    have hin : (scan_upto s spectrum threshold 256).in_signal = true := hiff.mpr hab
    have hstart : (process_bins_with s spectrum threshold).chunk_end_signal_start_bin
        = (scan_upto s spectrum threshold 256).signal_start_bin := by
      simp only [process_bins_with, SPECTRUM_BINS, scan_end, hin, if_true]
      split_ifs <;> rfl
    have hpeak : (process_bins_with s spectrum threshold).chunk_end_peak_power
        = (scan_upto s spectrum threshold 256).signal_peak_power := by
      simp only [process_bins_with, SPECTRUM_BINS, scan_end, hin, if_true]
      split_ifs <;> rfl
    have hflag : ∀ hend : (scan_upto s spectrum threshold 256).signal_end_bin = 255,
        ((process_bins_with s spectrum threshold).signal_at_chunk_end = true ↔
          ((scan_upto s spectrum threshold 256).signal_start_bin ≠ 0 ∨
            ((256 : Int) - ((scan_upto s spectrum threshold 256).signal_start_bin : Int)) * 78125
              ≤ max_width_hz s)) := by
      intro hend
      simp only [process_bins_with, SPECTRUM_BINS, scan_end, hin, if_true, hend,
        bin_width, SPECTRUM_SLICE_WIDTH, max_width_hz, hmax]
      by_cases hs : (scan_upto s spectrum threshold 256).signal_start_bin = 0
      · simp only [hs, if_true]
        norm_num
        split_ifs with hw <;> simp <;> omega
      · simp [hs]
    refine ⟨(scan_upto s spectrum threshold 256).signal_start_bin, ?_⟩
    rcases inv.open_run hin with ⟨c1, c2, _, c4, c5, c6⟩ | ⟨b0, o1, o2, o3, o4, o5, _⟩
    · have hend : (scan_upto s spectrum threshold 256).signal_end_bin = 255 := by
        rcases c6 with ⟨h, _⟩ | h <;> omega
      refine ⟨by omega, fun i _ h2 => c4 i (by omega), Or.inl c2, hstart,
        Or.inl ⟨c1, c2, by rw [hpeak, c5]⟩, hflag hend⟩
    · have hend : (scan_upto s spectrum threshold 256).signal_end_bin = 255 := by omega
      rw [hend] at o3 o5
      refine ⟨by omega, o3, o4, hstart,
        Or.inr ⟨b0, (scan_upto s spectrum threshold 256).signal_peak_bin, ?_⟩, hflag hend⟩
      rw [hpeak]
      exact o5

/-- Witness of `open_run_pending`: in a scan of the default ranges the run on
bins 250..255 of `rising_tail` is open at the end of the chunk; bin 250 and the
peak 230 (the maximum of 200, 210, 230, 220, 215, 205) are recorded and the run
is marked as pending. -/
theorem open_run_pending_witness :
    (∃ a, a ≤ 255 ∧
        (∀ i, a ≤ i → i ≤ 255 →
          above rising_tail (threshold_raw scanning_defaults.squelch_threshold) i) ∧
        (a = 0 ∨ ¬ above rising_tail (threshold_raw scanning_defaults.squelch_threshold) (a - 1)) ∧
        (process_spectrum_bins scanning_defaults rising_tail).chunk_end_signal_start_bin = a ∧
        ((ContinuedRun scanning_defaults rising_tail
              (threshold_raw scanning_defaults.squelch_threshold) ∧ a = 0 ∧
            (process_spectrum_bins scanning_defaults rising_tail).chunk_end_peak_power
              = max scanning_defaults.chunk_end_peak_power (max_below rising_tail 256)) ∨
          (¬ (ContinuedRun scanning_defaults rising_tail
                (threshold_raw scanning_defaults.squelch_threshold) ∧ a = 0) ∧
            ∃ peak_bin, IsPeakOf rising_tail a 255 peak_bin
              (process_spectrum_bins scanning_defaults rising_tail).chunk_end_peak_power)) ∧
        ((process_spectrum_bins scanning_defaults rising_tail).signal_at_chunk_end = true ↔
          (a ≠ 0 ∨ ((256 : Int) - (a : Int)) * 78125 ≤ max_width_hz scanning_defaults))) ∧
      (process_spectrum_bins scanning_defaults rising_tail).chunk_end_signal_start_bin = 250 ∧
      (process_spectrum_bins scanning_defaults rising_tail).chunk_end_peak_power = 230 ∧
      (process_spectrum_bins scanning_defaults rising_tail).signal_at_chunk_end = true :=
  ⟨(open_run_pending scanning_defaults rising_tail
      (threshold_raw scanning_defaults.squelch_threshold)).2 (by unfold above; decide),
    by decide, by decide, by decide⟩

/-! ## Chunk count of a range saved with its end below its start -/

theorem chunk_count_reversed :
    chunk_count reversed_range = 4294967292 ∧
      (start_scanning (ScannerAppView.fresh [reversed_range])).is_scanning = true ∧
      (start_scanning (ScannerAppView.fresh [reversed_range])).total_chunks_in_range
        = 4294967292 := by
  decide

end ExtScanner
